import Mathlib

/-!
# tiny_json (json11 namespace): value model, serializer and parser

A shallow embedding of `src/tiny_json.h` and `src/tiny_json.cpp`.

* `std::string` is a list of bytes, written `List Char` (each `Char` stands for
  the byte with the same code, `0 .. 255`).
* `double` is an abstract carrier `D`; the operations the C and C++ libraries
  supply on it (`DoubleOps`) are parameters of every definition that uses one.
* `size_t` is `Nat`, with the wrap-around of `i--` at `2 ^ 64` made explicit.
* A `Json` is a `shared_ptr` to a node; the model keeps the node's contents.
  Where the code compares the pointers themselves (`m_ptr == other.m_ptr`) the
  outcome of that comparison is an explicit argument.
-/

namespace json11

/-- The `std::string` of the source: a sequence of bytes. -/
abbrev string := List Char

/-- The library operations on `double` that the source relies on. -/
structure DoubleOps (D : Type) where
  /-- implicit conversion `int -> double` -/
  ofInt : Int → D
  /-- the conversion `static_cast<int>(double)` -/
  toInt : D → Int
  /-- the comparison `<` of two doubles -/
  lt : D → D → Bool
  /-- the comparison `==` of two doubles -/
  eq : D → D → Bool
  /-- the test `std::isfinite` -/
  isfinite : D → Bool
  /-- the text `snprintf` writes for the format `%.17g` -/
  fmt17g : D → string
  /-- the value `std::strtod` reads at the start of a text -/
  strtod : string → D

/-- The enum `Json::Type`, in declaration order. -/
inductive JsonType where
  | NUL
  | NUMBER
  | BOOL
  | STRING
  | ARRAY
  | OBJECT
deriving DecidableEq, Repr

/-- The integer value of an enumerator of `Json::Type`. -/
def JsonType.toNat : JsonType → Nat
  | NUL => 0
  | NUMBER => 1
  | BOOL => 2
  | STRING => 3
  | ARRAY => 4
  | OBJECT => 5

/-- The node classes `JsonNull`, `JsonDouble`, `JsonInt`, `JsonBoolean`,
`JsonString`, `JsonArray`, `JsonObject`, each with its `m_value`. A
`std::map<string, Json>` is the list of its entries in iteration order. -/
inductive Json (D : Type) where
  | JsonNull
  | JsonDouble (m_value : D)
  | JsonInt (m_value : Int)
  | JsonBoolean (m_value : Bool)
  | JsonString (m_value : string)
  | JsonArray (m_value : List (Json D))
  | JsonObject (m_value : List (string × Json D))

namespace Json

variable {D : Type}

instance : Inhabited (Json D) := ⟨JsonNull⟩

/-- Modelled from the spec: the constructor `Json()`, declared in
`tiny_json.h` with no body under `src/`; a default value is a Null value. -/
def null : Json D := JsonNull

/-- Modelled from the spec: the constructor `Json(int)`, declared in
`tiny_json.h` with no body under `src/`; an integer-tagged Number. -/
def of_int (value : Int) : Json D := JsonInt value

/-- Modelled from the spec: the constructor `Json(double)`, declared in
`tiny_json.h` with no body under `src/`; a floating Number. -/
def of_double (value : D) : Json D := JsonDouble value

/-- Modelled from the spec: the constructor `Json(bool)`, declared in
`tiny_json.h` with no body under `src/`; a Bool value. -/
def of_bool (value : Bool) : Json D := JsonBoolean value

/-- Modelled from the spec: the constructors `Json(const std::string&)` and
`Json(std::string&&)`, declared in `tiny_json.h` with no body under `src/`. -/
def of_string (value : string) : Json D := JsonString value

/-- Modelled from the spec: the constructor `Json(array&&)`, declared in
`tiny_json.h` with no body under `src/`. -/
def of_array (values : List (Json D)) : Json D := JsonArray values

/-- Modelled from the spec: the constructors `Json(const object&)` and
`Json(object&&)`, declared in `tiny_json.h` with no body under `src/`. -/
def of_object (values : List (string × Json D)) : Json D := JsonObject values

/-- The virtual `type()`: the tag each node class passes to `Value<tag, T>`. -/
def type : Json D → JsonType
  | JsonNull => JsonType.NUL
  | JsonDouble _ => JsonType.NUMBER
  | JsonInt _ => JsonType.NUMBER
  | JsonBoolean _ => JsonType.BOOL
  | JsonString _ => JsonType.STRING
  | JsonArray _ => JsonType.ARRAY
  | JsonObject _ => JsonType.OBJECT

/-- The accessor `number_value()`: overridden by `JsonDouble` and `JsonInt`,
`0` in the base class. -/
def number_value (F : DoubleOps D) : Json D → D
  | JsonDouble m_value => m_value
  | JsonInt m_value => F.ofInt m_value
  | _ => F.ofInt 0

/-- The accessor `int_value()`: overridden by `JsonDouble` and `JsonInt`,
`0` in the base class. -/
def int_value (F : DoubleOps D) : Json D → Int
  | JsonDouble m_value => F.toInt m_value
  | JsonInt m_value => m_value
  | _ => 0

/-- The accessor `bool_value()`: overridden by `JsonBoolean`. -/
def bool_value : Json D → Bool
  | JsonBoolean m_value => m_value
  | _ => false

/-- The accessor `string_value()`: overridden by `JsonString`, else
`statics().empty_string`. -/
def string_value : Json D → string
  | JsonString m_value => m_value
  | _ => []

/-- The accessor `array_items()`: overridden by `JsonArray`, else
`statics().empty_vector`. -/
def array_items : Json D → List (Json D)
  | JsonArray m_value => m_value
  | _ => []

/-- The accessor `object_items()`: overridden by `JsonObject`, else
`statics().empty_map`. -/
def object_items : Json D → List (string × Json D)
  | JsonObject m_value => m_value
  | _ => []

end Json

/-- The member `std::map::find`, as the value found (`none` for `end()`). -/
def map_find {α : Type} : List (string × α) → string → Option α
  | [], _ => none
  | (k, v) :: rest, key => if k = key then some v else map_find rest key

namespace Json

variable {D : Type}

/-- The function `static_null()`: a default-constructed `Json`. -/
def static_null : Json D := Json.null

/-- The operator `operator[](size_t i)`: `JsonArray` returns the element when
`i < m_value.size()`; every other case returns `static_null()`. -/
def index (v : Json D) (i : Nat) : Json D :=
  match v with
  | JsonArray m_value =>
    if i ≥ m_value.length then static_null else m_value.getD i static_null
  | _ => static_null

/-- The operator `operator[](const std::string& key)`: `JsonObject` returns the
mapped value when `find` succeeds; every other case returns `static_null()`. -/
def key_index (v : Json D) (key : string) : Json D :=
  match v with
  | JsonObject m_value =>
    match map_find m_value key with
    | none => static_null
    | some found => found
  | _ => static_null

end Json

/-- The comparison `operator<` of two `std::string`s: the first differing byte
decides, a proper initial segment is less. -/
def string_lt : string → string → Bool
  | [], [] => false
  | [], _ :: _ => true
  | _ :: _, [] => false
  | a :: as, b :: bs =>
    if a.toNat < b.toNat then true
    else if b.toNat < a.toNat then false
    else string_lt as bs

namespace Json

variable {D : Type}

mutual
/-- The virtual `less(other)`: `JsonDouble::less` and `JsonInt::less` compare
through `number_value()`; the other classes use `Value<tag, T>::less`, which
is `m_value < other->m_value` on the payload type (`NullStruct`, `bool`,
`std::string`, `std::vector<Json>`, `std::map<string, Json>`). It is called
only on two nodes of one tag. -/
def less (F : DoubleOps D) : Json D → Json D → Bool
  | JsonDouble m_value, other => F.lt m_value (number_value F other)
  | JsonInt m_value, other => F.lt (F.ofInt m_value) (number_value F other)
  | JsonNull, _ => false
  | JsonBoolean m_value, JsonBoolean o => !m_value && o
  | JsonString m_value, JsonString o => string_lt m_value o
  | JsonArray m_value, JsonArray o => vector_lt F m_value o
  | JsonObject m_value, JsonObject o => map_lt F m_value o
  | _, _ => false
termination_by a b => (sizeOf a + sizeOf b, 0)
/-- Modelled from the spec: the operator `Json::operator<`, declared in
`tiny_json.h` with no body under `src/`: first by tag in enum order, then,
for equal tags, by the ordering of the contained data (`less`). -/
def operator_lt (F : DoubleOps D) : Json D → Json D → Bool
  | a, b =>
    if a.type ≠ b.type then decide (a.type.toNat < b.type.toNat)
    else less F a b
termination_by a b => (sizeOf a + sizeOf b, 1)
/-- The `operator<` of `std::vector<Json>`: `std::lexicographical_compare`
with the element's `operator<`. -/
def vector_lt (F : DoubleOps D) : List (Json D) → List (Json D) → Bool
  | [], [] => false
  | [], _ :: _ => true
  | _ :: _, [] => false
  | a :: as, b :: bs =>
    if operator_lt F a b then true
    else if operator_lt F b a then false
    else vector_lt F as bs
termination_by as bs => (sizeOf as + sizeOf bs, 0)
/-- The `operator<` of `std::map<string, Json>`:
`std::lexicographical_compare` over the entries, each pair compared by
`x.first < y.first || (!(y.first < x.first) && x.second < y.second)`. -/
def map_lt (F : DoubleOps D) :
    List (string × Json D) → List (string × Json D) → Bool
  | [], [] => false
  | [], _ :: _ => true
  | _ :: _, [] => false
  | (ka, a) :: as, (kb, b) :: bs =>
    if string_lt ka kb || (!string_lt kb ka && operator_lt F a b) then true
    else if string_lt kb ka || (!string_lt ka kb && operator_lt F b a) then false
    else map_lt F as bs
termination_by as bs => (sizeOf as + sizeOf bs, 0)
end

/-- The operator `Json::operator==` (tiny_json.cpp lines 314-322). The argument
`same_ptr` is the outcome of `m_ptr == other.m_ptr`. -/
def operator_eq (F : DoubleOps D) (same_ptr : Bool) (a b : Json D) : Bool :=
  if same_ptr then false
  else if a.type ≠ b.type then decide (a.type.toNat < b.type.toNat)
  else less F a b

/-- The operator `operator!=` of the header: `!(*this == rhs)`. -/
def operator_ne (F : DoubleOps D) (same_ptr : Bool) (a b : Json D) : Bool :=
  !operator_eq F same_ptr a b

end Json

/-! ## Serializer -/

/-- The byte `NUL`, which `std::string::operator[]` yields at `size()`. -/
def NUL : Char := Char.ofNat 0

/-- The integer value of a `char`, `char` being a signed type: the bytes from
`0x80` on are negative. -/
def char_to_long (c : Char) : Int :=
  if c.toNat < 128 then (c.toNat : Int) else (c.toNat : Int) - 256

/-- The text `snprintf` writes for `%d`. -/
def fmt_d (value : Int) : string :=
  if value < 0 then '-' :: Nat.toDigits 10 value.natAbs
  else Nat.toDigits 10 value.toNat

/-- The text `snprintf` writes for `%04x`: lower-case hexadecimal, padded with
zeros to four digits. -/
def fmt_04x (value : Nat) : string :=
  let digits := Nat.toDigits 16 value
  List.replicate (4 - digits.length) '0' ++ digits

/-- The overload `dump(int, string&)`. -/
def dump_int (value : Int) (out : string) : string :=
  out ++ fmt_d value

/-- The overload `dump(bool, string&)`. -/
def dump_bool (value : Bool) (out : string) : string :=
  out ++ (if value then "true".toList else "false".toList)

/-- The overload `dump(double, string&)`. -/
def dump_double {D : Type} (F : DoubleOps D) (value : D) (out : string) : string :=
  if F.isfinite value then out ++ F.fmt17g value
  else out ++ "null".toList

/-- The `for` loop of `dump(const string&, string&)` (tiny_json.cpp lines
66-108), from index `i` on; `fuel` bounds the number of iterations. The chain
of tests is the source's, the constant condition `'\t'` of line 86 included.
In the branches after it `static_cast<uint8_t>(x)` is the byte `x.toNat`, and
line 95 casts the outcome of the comparison `value[i+1] == 0x80`, made on the
signed `char`. -/
def dump_string_loop (value : string) : Nat → Nat → string → string
  | 0, _, out => out
  | fuel + 1, i, out =>
    if i < value.length then
      let ch := value.getD i NUL
      if ch = '\\' then dump_string_loop value fuel (i + 1) (out ++ "\\\\".toList)
      else if ch = '"' then dump_string_loop value fuel (i + 1) (out ++ "\\\"".toList)
      else if ch = '\x08' then dump_string_loop value fuel (i + 1) (out ++ "\\b".toList)
      else if ch = '\x0c' then dump_string_loop value fuel (i + 1) (out ++ "\\f".toList)
      else if ch = '\n' then dump_string_loop value fuel (i + 1) (out ++ "\\n".toList)
      else if ch = '\r' then dump_string_loop value fuel (i + 1) (out ++ "\\r".toList)
      else if '\t' ≠ NUL then dump_string_loop value fuel (i + 1) (out ++ "\\t".toList)
      else if ch.toNat ≤ 0x1f then
        dump_string_loop value fuel (i + 1) (out ++ "\\u".toList ++ fmt_04x ch.toNat)
      else if ch.toNat = 0xe2
          ∧ (if char_to_long (value.getD (i + 1) NUL) = 0x80 then 1 else 0) ≠ 0
          ∧ (value.getD (i + 2) NUL).toNat = 0xa8 then
        dump_string_loop value fuel (i + 3) (out ++ "\\u2028".toList)
      else if ch.toNat = 0xe2 ∧ (value.getD (i + 1) NUL).toNat = 0x80
          ∧ (value.getD (i + 2) NUL).toNat = 0xa9 then
        dump_string_loop value fuel (i + 3) (out ++ "\\u2029".toList)
      else dump_string_loop value fuel (i + 1) (out ++ [ch])
    else out

/-- The overload `dump(const string&, string&)`: an opening quote, the loop
over the bytes, a closing quote. -/
def dump_string (value : string) (out : string) : string :=
  dump_string_loop value value.length 0 (out ++ ['"']) ++ ['"']

namespace Json

variable {D : Type}

mutual
/-- The member `Json::dump(std::string& out)`: `m_ptr->dump(out)`, which is
`json11::dump(m_value, out)` at the payload type of the node. -/
def dump (F : DoubleOps D) : Json D → string → string
  | JsonNull, out => out ++ "null".toList
  | JsonDouble m_value, out => dump_double F m_value out
  | JsonInt m_value, out => dump_int m_value out
  | JsonBoolean m_value, out => dump_bool m_value out
  | JsonString m_value, out => dump_string m_value out
  | JsonArray m_value, out => dump_array_loop F m_value true (out ++ "[".toList) ++ "]".toList
  | JsonObject m_value, out =>
    dump_object_loop F m_value true (out ++ "\x7b".toList) ++ "\x7d".toList
/-- The `for` loop of `dump(const Json::array&, string&)`, with its flag
`first`. -/
def dump_array_loop (F : DoubleOps D) : List (Json D) → Bool → string → string
  | [], _, out => out
  | value :: rest, first, out =>
    dump_array_loop F rest false (dump F value (if !first then out ++ ", ".toList else out))
/-- The `for` loop of `dump(const Json::object&, string&)`, with its flag
`first`. -/
def dump_object_loop (F : DoubleOps D) : List (string × Json D) → Bool → string → string
  | [], _, out => out
  | (key, value) :: rest, first, out =>
    dump_object_loop F rest false
      (dump F value (dump_string key (if !first then out ++ ",".toList else out) ++ ": ".toList))
end

/-- The member `std::string Json::dump() const` of the header. -/
def dump_new (F : DoubleOps D) (v : Json D) : string :=
  dump F v []

end Json

/-! ## Parser -/

/-- The constant `max_depth`. -/
def max_depth : Nat := 200

/-- The enum `JsonParse`. -/
inductive JsonParse where
  | STANDARD
  | COMMENTS
deriving DecidableEq, Repr

/-- The state of `struct JsonParser`: the input `str`, the cursor `i`, the
message slot `err`, the flag `failed` and the `strategy`. -/
structure JsonParser where
  str : string
  i : Nat
  err : string
  failed : Bool
  strategy : JsonParse

/-- The ways a run leaves the defined behaviour of the program, and the one
way the model itself gives up. -/
inductive Fault where
  /-- a read `str[pos]` or a `substr`/`compare` at `pos > str.size()` -/
  | out_of_range
  /-- the check `assert(i != 0)` of `expect` does not hold -/
  | assertion
  /-- the step budget given to `parse_json` ran out (no counterpart in the code) -/
  | out_of_fuel
deriving DecidableEq, Repr

/-- A member function of `JsonParser` returning `α`: it reads and updates the
parser state, and either returns or stops with a `Fault`. -/
def Parser (α : Type) : Type := JsonParser → Except Fault (α × JsonParser)

namespace Parser

/-- Return a value, state unchanged. -/
def ret {α : Type} (a : α) : Parser α := fun p => Except.ok (a, p)

/-- Run `m`, then `f` on its result. -/
def seq {α β : Type} (m : Parser α) (f : α → Parser β) : Parser β := fun p =>
  match m p with
  | Except.ok (a, p1) => f a p1
  | Except.error e => Except.error e

instance : Monad Parser where
  pure := ret
  bind := seq

/-- Stop with a fault. -/
def stop {α : Type} (e : Fault) : Parser α := fun _ => Except.error e

/-- The current parser state. -/
def state : Parser JsonParser := fun p => Except.ok (p, p)

/-- The assignment `i = n`. -/
def set_i (n : Nat) : Parser Unit := fun p => Except.ok ((), { p with i := n })

/-- The read `str[pos]`: the byte at `pos`, `NUL` at `pos == str.size()`,
undefined beyond. -/
def str_at (pos : Nat) : Parser Char := fun p =>
  if pos < p.str.length then Except.ok (p.str.getD pos NUL, p)
  else if pos = p.str.length then Except.ok (NUL, p)
  else Except.error Fault.out_of_range

/-- The call `str.substr(pos, n)`, which throws `std::out_of_range` when
`pos > str.size()`. -/
def substr (pos n : Nat) : Parser string := fun p =>
  if pos ≤ p.str.length then Except.ok ((p.str.drop pos).take n, p)
  else Except.error Fault.out_of_range

end Parser

open Parser

/-- The value of `i` after `i--` on a 64-bit `size_t`. -/
def size_t_dec (i : Nat) : Nat := (i + 2 ^ 64 - 1) % 2 ^ 64

/-- The value of `a - b` on a 64-bit `size_t`. -/
def size_t_sub (a b : Nat) : Nat := (a + 2 ^ 64 - b % 2 ^ 64) % 2 ^ 64

/-- The function `in_range(long x, long lower, long upper)`. -/
def in_range (x lower upper : Int) : Bool :=
  decide (x ≥ lower ∧ x ≤ upper)

/-- The function `esc(char c)`: `snprintf` with the format `'%c` when the byte
is at least `0x20`, with the format `(%d)` otherwise. -/
def esc (c : Char) : string :=
  if c.toNat ≥ 0x20 ∧ c.toNat ≠ 0 then [Char.ofNat 39, c]
  else "(".toList ++ fmt_d (char_to_long c) ++ ")".toList

/-- The member `fail(string&& msg, const T err_ret)`. -/
def fail {α : Type} (msg : string) (err_ret : α) : Parser α := fun p =>
  Except.ok (err_ret, { p with err := if !p.failed then msg else p.err, failed := true })

/-- The `while` loop of `consume_whitespace`. -/
def consume_whitespace_loop : Nat → Parser Unit
  | 0 => stop Fault.out_of_fuel
  | fuel + 1 => do
    let p ← state
    let c ← str_at p.i
    if c = ' ' ∨ c = '\r' ∨ c = '\n' then do
      set_i (p.i + 1)
      consume_whitespace_loop fuel
    else pure ()

/-- The member `consume_whitespace()`. The loop runs at most `str.size() + 1`
times. -/
def consume_whitespace : Parser Unit := do
  let p ← state
  consume_whitespace_loop (p.str.length + 1)

/-- The loop `while(i < str.size() && str[i] != '\n') i++` of a single-line
comment. -/
def single_line_loop : Nat → Parser Unit
  | 0 => stop Fault.out_of_fuel
  | fuel + 1 => do
    let p ← state
    if p.i < p.str.length then do
      let c ← str_at p.i
      if c ≠ '\n' then do
        set_i (p.i + 1)
        single_line_loop fuel
      else pure ()
    else pure ()

/-- The loop `while(!(str[i] == '*' && str[i+1] == '/'))` of a multi-line
comment; the result is `true` when the loop is left at its condition and
`false` when it is left by `return fail(..., false)`. -/
def multi_line_loop : Nat → Parser Bool
  | 0 => stop Fault.out_of_fuel
  | fuel + 1 => do
    let p ← state
    let c ← str_at p.i
    let c1 ← if c = '*' then str_at (p.i + 1) else pure NUL
    if c = '*' ∧ c1 = '/' then pure true
    else do
      set_i (p.i + 1)
      if p.i + 1 > size_t_sub p.str.length 2 then
        fail "unexpected end of input inside mutil-line comment".toList false
      else multi_line_loop fuel

/-- The member `consume_comment()`. -/
def consume_comment : Parser Bool := do
  let p ← state
  let c ← str_at p.i
  if c = '/' then do
    set_i (p.i + 1)
    if p.i + 1 = p.str.length then
      fail "unexpected end of input after start of comment".toList false
    else do
      let c ← str_at (p.i + 1)
      if c = '/' then do
        set_i (p.i + 2)
        single_line_loop (p.str.length + 1)
        pure true
      else if c = '*' then do
        set_i (p.i + 2)
        if p.i + 2 > size_t_sub p.str.length 2 then
          fail "unexpected end of input multi-line comment".toList false
        else do
          let closed ← multi_line_loop (p.str.length + 1)
          if closed then do
            let q ← state
            set_i (q.i + 2)
            pure true
          else pure false
      else fail "malformed comment".toList false
  else pure false

/-- The `do ... while(comment_found)` loop of `consume_garbage`. -/
def consume_garbage_loop : Nat → Parser Unit
  | 0 => stop Fault.out_of_fuel
  | fuel + 1 => do
    let comment_found ← consume_comment
    let p ← state
    if p.failed then pure ()
    else do
      consume_whitespace
      if comment_found then consume_garbage_loop fuel else pure ()

/-- The member `consume_garbage()`. -/
def consume_garbage : Parser Unit := do
  consume_whitespace
  let p ← state
  if p.strategy = JsonParse.COMMENTS then consume_garbage_loop (p.str.length + 1)
  else pure ()

/-- The member `get_next_token()` (tiny_json.cpp lines 450-459): the value
returned is `str[i+1]`, and `i` is left where `consume_garbage` put it. -/
def get_next_token : Parser Char := do
  consume_garbage
  let p ← state
  if p.failed then pure NUL
  else if p.i = p.str.length then fail "excepted end of input".toList NUL
  else str_at (p.i + 1)

/-- The conversion `static_cast<char>(x)`: the low eight bits. -/
def to_char (x : Nat) : Char := Char.ofNat (x % 256)

/-- The member `encode_utf8(long pt, string& out)`. -/
def encode_utf8 (pt : Int) (out : string) : string :=
  if pt < 0 then out
  else
    let n := pt.toNat
    if pt < 0x80 then out ++ [to_char n]
    else if pt < 0x800 then
      out ++ [to_char ((n >>> 6) ||| 0xC0), to_char ((n &&& 0x3F) ||| 0x80)]
    else if pt < 0x10000 then
      out ++ [to_char ((n >>> 12) ||| 0xE0), to_char (((n >>> 6) &&& 0x3F) ||| 0x80),
        to_char ((n &&& 0x3F) ||| 0x80)]
    else
      out ++ [to_char ((n >>> 18) ||| 0xF0), to_char (((n >>> 12) &&& 0x3F) ||| 0x80),
        to_char (((n >>> 6) &&& 0x3F) ||| 0x80), to_char ((n &&& 0x3F) ||| 0x80)]

/-- The test of one byte of a `\u` escape (tiny_json.cpp lines 534-535). -/
def is_hex (c : Char) : Bool :=
  in_range (char_to_long c) (char_to_long 'a') (char_to_long 'f')
    || in_range (char_to_long c) (char_to_long 'A') (char_to_long 'F')
    || in_range (char_to_long c) (char_to_long '0') (char_to_long '9')

/-- The value of one hexadecimal digit. -/
def hex_digit (c : Char) : Nat :=
  if in_range (char_to_long c) (char_to_long '0') (char_to_long '9') then c.toNat - '0'.toNat
  else if in_range (char_to_long c) (char_to_long 'a') (char_to_long 'f') then
    c.toNat - 'a'.toNat + 10
  else c.toNat - 'A'.toNat + 10

/-- The call `strtol(esc.data(), nullptr, 16)` on a text of hexadecimal
digits. -/
def strtol16 (digits : string) : Int :=
  ((digits.takeWhile is_hex).foldl (fun acc c => acc * 16 + hex_digit c) 0 : Nat)

/-- The `while (true)` loop of `parse_string()`, with its locals `out` and
`last_escaped_codepoint`. -/
def parse_string_loop : Nat → string → Int → Parser string
  | 0, _, _ => stop Fault.out_of_fuel
  | fuel + 1, out, last_escaped_codepoint => do
    let p ← state
    if p.i = p.str.length then fail "unexpected end of input in string".toList []
    else do
      let ch ← str_at p.i
      set_i (p.i + 1)
      if ch = '"' then pure (encode_utf8 last_escaped_codepoint out)
      else if in_range (char_to_long ch) 0 0x1f then
        fail ("unescaped ".toList ++ esc ch ++ " in string".toList) []
      else if ch ≠ '\\' then
        parse_string_loop fuel (encode_utf8 last_escaped_codepoint out ++ [ch]) (-1)
      else if p.i + 1 = p.str.length then fail "unexpected end of input in string".toList []
      else do
        let ch ← str_at (p.i + 1)
        set_i (p.i + 2)
        if ch = 'u' then do
          let esc ← substr (p.i + 2) 4
          if esc.length < 4 then fail ("bad \\u escape: ".toList ++ esc) []
          else if !esc.all is_hex then fail ("bad \\u escape: ".toList ++ esc) []
          else do
            let codepoint := strtol16 esc
            set_i (p.i + 2 + 4)
            if in_range last_escaped_codepoint 0xD800 0xDBFF
                ∧ in_range codepoint 0xDC00 0xDFFF then
              parse_string_loop fuel
                (encode_utf8
                  ((((((last_escaped_codepoint - 0xD800).toNat <<< 10)
                    ||| (codepoint - 0xDC00).toNat) : Nat) : Int) + 0x10000) out)
                (-1)
            else parse_string_loop fuel (encode_utf8 last_escaped_codepoint out) codepoint
        else
          let out := encode_utf8 last_escaped_codepoint out
          if ch = 'b' then parse_string_loop fuel (out ++ ['\x08']) (-1)
          else if ch = 'f' then parse_string_loop fuel (out ++ ['\x0c']) (-1)
          else if ch = 'n' then parse_string_loop fuel (out ++ ['\n']) (-1)
          else if ch = 'r' then parse_string_loop fuel (out ++ ['\r']) (-1)
          else if ch = 't' then parse_string_loop fuel (out ++ ['\t']) (-1)
          else if ch = '"' ∨ ch = '\\' ∨ ch = '/' then parse_string_loop fuel (out ++ [ch]) (-1)
          else fail ("invalid escape character ".toList ++ esc ch) []

/-- The member `parse_string()`. Every turn of its loop that does not return
moves the cursor forward, so it runs at most `str.size() + 1` times. -/
def parse_string : Parser string := do
  let p ← state
  parse_string_loop (p.str.length + 1) [] (-1)

/-- The test `in_range(str[i], '0', '9')`. -/
def is_digit (c : Char) : Bool :=
  in_range (char_to_long c) (char_to_long '0') (char_to_long '9')

/-- The test `isspace` of the C locale. -/
def isspace (c : Char) : Bool :=
  c = ' ' || c = '\t' || c = '\n' || c = '\x0b' || c = '\x0c' || c = '\r'

/-- The decimal value of the digits at the start of a text. -/
def digits_value (s : string) : Nat :=
  (s.takeWhile is_digit).foldl (fun acc c => acc * 10 + (c.toNat - '0'.toNat)) 0

/-- The call `std::atoi`: white space, an optional sign, decimal digits. -/
def atoi (s : string) : Int :=
  match s.dropWhile isspace with
  | '-' :: rest => -(digits_value rest : Int)
  | '+' :: rest => (digits_value rest : Int)
  | rest => (digits_value rest : Int)

/-- The C string `str.c_str() + pos`: the bytes from `pos` up to the first
`NUL`. -/
def c_str_from (str : string) (pos : Nat) : string :=
  (str.drop pos).takeWhile (fun c => c ≠ NUL)

/-- The loop `while (in_range(str[i], '0', '9')) i++` of `parse_number`. -/
def digits_loop : Nat → Parser Unit
  | 0 => stop Fault.out_of_fuel
  | fuel + 1 => do
    let p ← state
    let c ← str_at p.i
    if is_digit c then do
      set_i (p.i + 1)
      digits_loop fuel
    else pure ()

/-- The constant `std::numeric_limits<int>::digits10`. -/
def digits10 : Nat := 9

variable {D : Type}

/-- The exponent part and the final `strtod` of `parse_number()`
(tiny_json.cpp lines 619-633). -/
def parse_number_exponent (F : DoubleOps D) (start_pos : Nat) : Parser (Json D) := do
  let p ← state
  let c ← str_at p.i
  if c = 'e' ∨ c = 'E' then do
    set_i (p.i + 1)
    let c ← str_at (p.i + 1)
    if c = '+' ∨ c = '-' then set_i (p.i + 2) else pure ()
    let q ← state
    let c ← str_at q.i
    if !is_digit c then
      fail "at least one digit required in exponent".toList Json.null
    else do
      digits_loop (q.str.length + 1)
      pure (Json.of_double (F.strtod (c_str_from q.str start_pos)))
  else pure (Json.of_double (F.strtod (c_str_from p.str start_pos)))

/-- The decimal part of `parse_number()` (tiny_json.cpp lines 609-617), then
the rest. -/
def parse_number_fraction (F : DoubleOps D) (start_pos : Nat) : Parser (Json D) := do
  let p ← state
  let c ← str_at p.i
  if c = '.' then do
    set_i (p.i + 1)
    let c ← str_at (p.i + 1)
    if !is_digit c then
      fail "at least one digit required in fractional part".toList Json.null
    else do
      digits_loop (p.str.length + 1)
      parse_number_exponent F start_pos
  else parse_number_exponent F start_pos

/-- The integer short cut of `parse_number()` (tiny_json.cpp lines 604-607),
then the rest. -/
def parse_number_integer (F : DoubleOps D) (start_pos : Nat) : Parser (Json D) := do
  let p ← state
  let c ← str_at p.i
  if c ≠ '.' ∧ c ≠ 'e' ∧ c ≠ 'E' ∧ p.i - start_pos ≤ digits10 then
    pure (Json.of_int (atoi (c_str_from p.str start_pos)))
  else parse_number_fraction F start_pos

/-- The member `parse_number()`. -/
def parse_number (F : DoubleOps D) : Parser (Json D) := do
  let p ← state
  let start_pos := p.i
  let c ← str_at p.i
  if c = '-' then set_i (p.i + 1) else pure ()
  let q ← state
  let c ← str_at q.i
  if c = '0' then do
    set_i (q.i + 1)
    let c ← str_at (q.i + 1)
    if is_digit c then fail "leading 0s not permitted in numbers".toList Json.null
    else parse_number_integer F start_pos
  else if in_range (char_to_long c) (char_to_long '1') (char_to_long '9') then do
    set_i (q.i + 1)
    digits_loop (q.str.length + 1)
    parse_number_integer F start_pos
  else fail ("invalid ".toList ++ esc c ++ " in number".toList) Json.null

/-- The member `expect(const string& expected, Json res)`. -/
def expect (expected : string) (res : Json D) : Parser (Json D) := do
  let p ← state
  if p.i = 0 then stop Fault.assertion
  else do
    set_i (p.i - 1)
    let got ← substr (p.i - 1) expected.length
    if got = expected then do
      set_i (p.i - 1 + expected.length)
      pure res
    else
      fail ("parse error: expected ".toList ++ expected ++ ", got ".toList ++ got) Json.null

/-- The assignment `data[key] = value` on a `std::map<string, Json>`: the
entry for `key` is overwritten, or inserted at its place in key order. -/
def map_assign {α : Type} : List (string × α) → string → α → List (string × α)
  | [], key, value => [(key, value)]
  | (k, v) :: rest, key, value =>
    if string_lt key k then (key, value) :: (k, v) :: rest
    else if string_lt k key then (k, v) :: map_assign rest key value
    else (k, value) :: rest

mutual
/-- The member `parse_json(int depth)`. The first argument bounds the number
of nested calls and loop turns; the code has no such bound. -/
def parse_json (F : DoubleOps D) : Nat → Nat → Parser (Json D)
  | 0, _ => stop Fault.out_of_fuel
  | fuel + 1, depth => do
    if depth > max_depth then fail "exceeded maximum nesting depth".toList Json.null
    else do
      let ch ← get_next_token
      let p ← state
      if p.failed then pure Json.null
      else if ch = '-' ∨ (char_to_long ch ≥ char_to_long '0' ∧ char_to_long ch ≤ char_to_long '9') then do
        set_i (size_t_dec p.i)
        parse_number F
      else if ch = 't' then expect "true".toList (Json.of_bool true)
      else if ch = 'f' then expect "false".toList (Json.of_bool false)
      else if ch = 'n' then expect "null".toList Json.null
      else if ch = '"' then do
        let s ← parse_string
        pure (Json.of_string s)
      else if ch = '\x7b' then do
        let ch ← get_next_token
        if ch = '\x7d' then pure (Json.of_object [])
        else parse_json_object F fuel depth [] ch
      else if ch = '[' then do
        let ch ← get_next_token
        if ch = ']' then pure (Json.of_array [])
        else parse_json_array F fuel depth []
      else fail ("expected value, got ".toList ++ esc ch) Json.null
/-- The `while (1)` loop of the object grammar (tiny_json.cpp lines 688-711),
with its locals `data` and `ch`. -/
def parse_json_object (F : DoubleOps D) :
    Nat → Nat → List (string × Json D) → Char → Parser (Json D)
  | 0, _, _, _ => stop Fault.out_of_fuel
  | fuel + 1, depth, data, ch => do
    if ch ≠ '"' then fail ("expected '\"' in object, got ".toList ++ esc ch) Json.null
    else do
      let key ← parse_string
      let p ← state
      if p.failed then pure Json.null
      else do
        let ch ← get_next_token
        if ch ≠ ':' then fail ("expected ':' in object, got ".toList ++ esc ch) Json.null
        else do
          let value ← parse_json F fuel (depth + 1)
          let data := map_assign data key value
          let p ← state
          if p.failed then pure Json.null
          else do
            let ch ← get_next_token
            if ch = '\x7d' then pure (Json.of_object data)
            else if ch ≠ ',' then
              fail ("expected ',' in object, got ".toList ++ esc ch) Json.null
            else do
              let ch ← get_next_token
              parse_json_object F fuel depth data ch
/-- The `while (1)` loop of the array grammar (tiny_json.cpp lines 721-735),
with its local `data`. -/
def parse_json_array (F : DoubleOps D) :
    Nat → Nat → List (Json D) → Parser (Json D)
  | 0, _, _ => stop Fault.out_of_fuel
  | fuel + 1, depth, data => do
    let p ← state
    set_i (size_t_dec p.i)
    let value ← parse_json F fuel (depth + 1)
    let data := data ++ [value]
    let p ← state
    if p.failed then pure Json.null
    else do
      let ch ← get_next_token
      if ch = ']' then pure (Json.of_array data)
      else if ch ≠ ',' then fail ("expected ',' in list, got ".toList ++ esc ch) Json.null
      else do
        let _ ← get_next_token
        parse_json_array F fuel depth data
end

namespace Json

/-- The function `Json::parse(const string& in, string& err, JsonParse strategy)`.
The result is the value returned together with the final parser state, whose
`err` is the caller's `err`. The first argument is the step budget handed to
`parse_json`. -/
def parse (F : DoubleOps D) (fuel : Nat) (input : string) (err : string)
    (strategy : JsonParse) : Except Fault (Json D × JsonParser) :=
  (do
    let result ← parse_json F fuel 0
    consume_garbage
    let p ← state
    if p.failed then pure Json.null
    else if p.i ≠ input.length then do
      let c ← str_at p.i
      fail ("unexpected trailing".toList ++ esc c) Json.null
    else pure result :
    Parser (Json D))
    { str := input, i := 0, err := err, failed := false, strategy := strategy }

end Json

/-- The `while` loop of `Json::parse_multi` (tiny_json.cpp lines 771-783),
with its locals `json_vec` and `parser_stop_pos`. The first argument bounds
the turns of the loop and is the step budget of each `parse_json(0)`. -/
def parse_multi_loop (F : DoubleOps D) :
    Nat → List (Json D) → Nat → Parser (List (Json D) × Nat)
  | 0, _, _ => stop Fault.out_of_fuel
  | fuel + 1, json_vec, parser_stop_pos => do
    let p ← state
    if p.i ≠ p.str.length ∧ !p.failed then do
      let value ← parse_json F fuel 0
      let json_vec := json_vec ++ [value]
      let p ← state
      if p.failed then pure (json_vec, parser_stop_pos)
      else do
        consume_garbage
        let p ← state
        if p.failed then pure (json_vec, parser_stop_pos)
        else parse_multi_loop F fuel json_vec p.i
    else pure (json_vec, parser_stop_pos)

namespace Json

/-- The function `Json::parse_multi(in, parser_stop_pos, err, strategy)`. The
result is the vector returned and the final `parser_stop_pos`, together with
the final parser state, whose `err` is the caller's `err`. -/
def parse_multi (F : DoubleOps D) (fuel : Nat) (input : string) (err : string)
    (strategy : JsonParse) : Except Fault ((List (Json D) × Nat) × JsonParser) :=
  parse_multi_loop F fuel [] 0
    { str := input, i := 0, err := err, failed := false, strategy := strategy }

/-- The `for` loop of `Json::has_shape` over `types` (tiny_json.cpp lines
797-803); the result is the value returned and the content of `err`. -/
def has_shape_loop (F : DoubleOps D) (v : Json D) (obj_items : List (string × Json D)) :
    List (string × JsonType) → string → Bool × string
  | [], err => (true, err)
  | item :: rest, err =>
    match map_find obj_items item.1 with
    | none => (false, "bad type for ".toList ++ item.1 ++ " in ".toList ++ dump_new F v)
    | some found =>
      if found.type ≠ item.2 then
        (false, "bad type for ".toList ++ item.1 ++ " in ".toList ++ dump_new F v)
      else has_shape_loop F v obj_items rest err

/-- The member `Json::has_shape(const shape& types, string& err)`; the result
is the value returned and the content of `err` afterwards. -/
def has_shape (F : DoubleOps D) (v : Json D) (types : List (string × JsonType))
    (err : string) : Bool × string :=
  if v.type ≠ JsonType.OBJECT then
    (false, "expected JSON object, got ".toList ++ dump_new F v)
  else has_shape_loop F v (object_items v) types err

end Json

/-- An instance of the operations on `double` over a one-point carrier, to
run the definitions on inputs in which no floating value occurs. -/
def no_double : DoubleOps Unit where
  ofInt := fun _ => ()
  toInt := fun _ => 0
  lt := fun _ _ => false
  eq := fun _ _ => true
  isfinite := fun _ => true
  fmt17g := fun _ => "0".toList
  strtod := fun _ => ()

/-! ## Relations kept by every step of the parser -/

/-- A relation between the parser state before and after a piece of parser
code that every primitive step keeps: it is reflexive and transitive, moving
the cursor keeps it, and so does `fail` with a non-empty message. -/
structure Stable (R : JsonParser → JsonParser → Prop) : Prop where
  refl : ∀ p, R p p
  trans : ∀ p q r, R p q → R q r → R p r
  set_i : ∀ p n, R p { p with i := n }
  fail : ∀ p msg, msg ≠ [] →
    R p { p with err := if !p.failed then msg else p.err, failed := true }

/-- The member function `m` relates the state it starts in to every state it
returns in by `R`. -/
def Parser.Respects {α : Type} (R : JsonParser → JsonParser → Prop) (m : Parser α) : Prop :=
  ∀ p a q, m p = Except.ok (a, q) → R p q

/-- The policy of section 7 of the spec as a property of one state: a set
failure flag comes with a non-empty message. -/
def has_diagnostic (p : JsonParser) : Prop :=
  p.failed = true → p.err ≠ []

/-! ## Runs that stay within the step budget -/

/-- Started in state `p`, the member function `m` does not run out of the
model's step budget, and every state it returns in satisfies `Q`. -/
def Ensures {α : Type} (m : Parser α) (p : JsonParser) (Q : α → JsonParser → Prop) : Prop :=
  m p ≠ Except.error Fault.out_of_fuel ∧ ∀ a q, m p = Except.ok (a, q) → Q a q

/-- The state `q` is reached from `p` by moving the cursor forward over the
same input, without leaving it when it started inside. -/
def Forward (p q : JsonParser) : Prop :=
  q.str = p.str ∧ q.strategy = p.strategy ∧ p.i ≤ q.i ∧ (p.i ≤ p.str.length → q.i ≤ p.str.length)

/-- The member function `m2` agrees with `m1` on every run of `m1` that stays
within the step budget: `m2` is `m1` with a larger budget. -/
def Extends {α : Type} (m1 m2 : Parser α) : Prop :=
  ∀ p, m1 p ≠ Except.error Fault.out_of_fuel → m2 p = m1 p

/-! ## The ordering the spec describes -/

/-- The algorithm `std::lexicographical_compare` over an element order `lt`. -/
def lexicographical_compare {α : Type} (lt : α → α → Bool) : List α → List α → Bool
  | [], [] => false
  | [], _ :: _ => true
  | _ :: _, [] => false
  | a :: as, b :: bs =>
    if lt a b then true
    else if lt b a then false
    else lexicographical_compare lt as bs

/-- Lexicographic order in the spec's words, "elementwise": some position `k`
decides. At every earlier position both sequences hold an element and neither
is less than the other; at `k` the first sequence has ended while the second
has not, or both hold an element and the first one's is less. -/
def lex_less {α : Type} (lt : α → α → Bool) (xs ys : List α) : Prop :=
  ∃ k : Nat,
    (∀ j, j < k → ∃ a b, xs.get? j = some a ∧ ys.get? j = some b ∧ lt a b = false ∧ lt b a = false)
    ∧ ((xs.get? k = none ∧ ys.get? k ≠ none)
      ∨ ∃ a b, xs.get? k = some a ∧ ys.get? k = some b ∧ lt a b = true)

/-- The order of two bytes. -/
def byte_lt (a b : Char) : Bool := decide (a.toNat < b.toNat)

namespace Json

variable {D : Type}

/-- The order of two object entries in the spec's words: by key, then by
value. -/
def entry_lt (F : DoubleOps D) (x y : string × Json D) : Bool :=
  string_lt x.1 y.1 || (!string_lt y.1 x.1 && operator_lt F x.2 y.2)

/-- The "natural ordering of the contained data" of two values of one tag, in
the spec's words: numeric for Number, `false < true` for Bool, bytewise
lexicographic for String, elementwise for Array, elementwise over the entries
in key order for Object, never for Null. -/
def payload_less (F : DoubleOps D) (a b : Json D) : Prop :=
  match a.type with
  | JsonType.NUL => False
  | JsonType.NUMBER => F.lt (number_value F a) (number_value F b) = true
  | JsonType.BOOL => bool_value a = false ∧ bool_value b = true
  | JsonType.STRING => lex_less byte_lt (string_value a) (string_value b)
  | JsonType.ARRAY => lex_less (operator_lt F) (array_items a) (array_items b)
  | JsonType.OBJECT => lex_less (entry_lt F) (object_items a) (object_items b)

/-- The ordering of the spec: first by tag in enum order, then, for equal
tags, by the natural ordering of the contained data. -/
def spec_less (F : DoubleOps D) (a b : Json D) : Prop :=
  a.type.toNat < b.type.toNat ∨ (a.type = b.type ∧ payload_less F a b)

end Json

/-! ## The serializer byte by byte, and the order of an object's keys -/

/-- What one turn of the loop of `dump(const string&, string&)` appends for
the byte `ch`: the tests of lines 69-86 in their order. Line 86 holds for
every byte that reaches it, so the branches after it contribute nothing. -/
def dump_byte (ch : Char) : string :=
  if ch = '\\' then "\\\\".toList
  else if ch = '"' then "\\\"".toList
  else if ch = '\x08' then "\\b".toList
  else if ch = '\x0c' then "\\f".toList
  else if ch = '\n' then "\\n".toList
  else if ch = '\r' then "\\r".toList
  else "\\t".toList

/-- The table of two-character escapes as the spec gives it: the byte and the
two characters that stand for it. -/
def two_character_escape : List (Char × string) :=
  [('\\', "\\\\".toList), ('"', "\\\"".toList), (Char.ofNat 0x08, "\\b".toList),
   (Char.ofNat 0x0C, "\\f".toList), (Char.ofNat 0x0A, "\\n".toList),
   (Char.ofNat 0x0D, "\\r".toList), (Char.ofNat 0x09, "\\t".toList)]

/-- The keys of a map, in the order of iteration, ascend: each is less than
every later one in the byte order of `std::string`. -/
def keys_ascending {α : Type} (m : List (string × α)) : Prop :=
  (m.map Prod.fst).Pairwise (fun a b => string_lt a b = true)

/-- The four bytes of the UTF-8 encoding of a code point from `0x10000` on, as
the encoding is defined: `11110xxx 10xxxxxx 10xxxxxx 10xxxxxx`, the bits of
the code point filled in from the most significant. -/
def utf8_four_bytes (cp : Nat) : string :=
  [Char.ofNat (0xF0 + cp / 0x40000), Char.ofNat (0x80 + cp / 0x1000 % 0x40),
   Char.ofNat (0x80 + cp / 0x40 % 0x40), Char.ofNat (0x80 + cp % 0x40)]

/-- The UTF-8 encoding of a code point up to `0x10FFFF`, as the encoding is
defined: one byte `0xxxxxxx` below `0x80`, two bytes `110xxxxx 10xxxxxx` below
`0x800`, three bytes `1110xxxx 10xxxxxx 10xxxxxx` below `0x10000`, four bytes
otherwise, the bits of the code point filled in from the most significant. -/
def utf8_bytes (cp : Nat) : string :=
  if cp < 0x80 then [Char.ofNat cp]
  else if cp < 0x800 then [Char.ofNat (0xC0 + cp / 0x40), Char.ofNat (0x80 + cp % 0x40)]
  else if cp < 0x10000 then
    [Char.ofNat (0xE0 + cp / 0x1000), Char.ofNat (0x80 + cp / 0x40 % 0x40),
     Char.ofNat (0x80 + cp % 0x40)]
  else utf8_four_bytes cp

/-- The policy "first diagnostic preserved" as a relation between the parser
state before and after a piece of parser code: when the flag `failed` is set
before, it is set afterwards and `err` is what it was. -/
def first_diagnostic_kept (p q : JsonParser) : Prop :=
  p.failed = true → q.failed = true ∧ q.err = p.err

/-- The value of a text of decimal digits, most significant digit first. -/
def decimal_value (digits : string) : Nat :=
  digits.foldl (fun acc c => acc * 10 + (c.toNat - '0'.toNat)) 0

/-- The loop of `Json::parse_multi` with its result as the spec describes it:
the values parsed successfully, in a list of their own, and beside them the
value returned by a call of `parse_json(0)` that failed, when there is one.
The third component is `parser_stop_pos`. -/
def parse_multi_values_loop {D : Type} (F : DoubleOps D) :
    Nat → List (Json D) → Nat → Parser (List (Json D) × Option (Json D) × Nat)
  | 0, _, _ => Parser.stop Fault.out_of_fuel
  | fuel + 1, values, parser_stop_pos => do
    let p ← Parser.state
    if p.i ≠ p.str.length ∧ !p.failed then do
      let value ← parse_json F fuel 0
      let p ← Parser.state
      if p.failed then pure (values, some value, parser_stop_pos)
      else do
        consume_garbage
        let p ← Parser.state
        if p.failed then pure (values ++ [value], none, parser_stop_pos)
        else parse_multi_values_loop F fuel (values ++ [value]) p.i
    else pure (values, none, parser_stop_pos)

/-- The list `Json::parse_multi` returns, put together from the values parsed
successfully and the value returned by the failed call: the latter is the last
element. -/
def with_failed_result {D : Type}
    (r : Except Fault ((List (Json D) × Option (Json D) × Nat) × JsonParser)) :
    Except Fault ((List (Json D) × Nat) × JsonParser) :=
  match r with
  | Except.ok ((values, failed_result, parser_stop_pos), q) =>
    Except.ok ((values ++ failed_result.toList, parser_stop_pos), q)
  | Except.error e => Except.error e

namespace Json

/-- The function `Json::parse_multi` with its result as the spec describes
it: the loop `parse_multi_values_loop` from the state `Json::parse_multi`
starts in. -/
def parse_multi_values {D : Type} (F : DoubleOps D) (fuel : Nat) (input : string)
    (err : string) (strategy : JsonParse) :
    Except Fault ((List (Json D) × Option (Json D) × Nat) × JsonParser) :=
  parse_multi_values_loop F fuel [] 0
    { str := input, i := 0, err := err, failed := false, strategy := strategy }

end Json

/-! ## Theorems: value model -/

namespace Json

/-- An entry found by membership is the entry `find` returns, keys being
unique. -/
theorem map_find_of_mem {α : Type} (m : List (string × α)) (key : string) (x : α)
    (hnd : (m.map Prod.fst).Nodup) (hmem : (key, x) ∈ m) : map_find m key = some x := by
  induction m with
  | nil => cases hmem
  | cons e rest ih =>
    obtain ⟨k, v⟩ := e
    simp only [List.map_cons, List.nodup_cons] at hnd
    simp only [map_find]
    rcases List.mem_cons.mp hmem with h | h
    · cases h
      simp
    · have hk : k ≠ key := by
        intro hk
        subst hk
        exact hnd.1 (List.mem_map.mpr ⟨(k, x), h, rfl⟩)
      simp only [hk, if_false]
      exact ih hnd.2 h

/-- A key that occurs in no entry is not found. -/
theorem map_find_of_not_mem {α : Type} (m : List (string × α)) (key : string)
    (h : key ∉ m.map Prod.fst) : map_find m key = none := by
  induction m with
  | nil => rfl
  | cons e rest ih =>
    obtain ⟨k, v⟩ := e
    simp only [List.map_cons, List.mem_cons, not_or] at h
    simp only [map_find]
    have hk : k ≠ key := fun hk => h.1 hk.symm
    simp only [hk, if_false]
    exact ih h.2

end Json

namespace Json

variable {D : Type}

theorem lex_less_cons_iff {α : Type} (lt : α → α → Bool) (a b : α) (as bs : List α)
    (hab : lt a b = false) (hba : lt b a = false) :
    lex_less lt (a :: as) (b :: bs) ↔ lex_less lt as bs := by
  constructor
  · rintro ⟨k, hk, hlast⟩
    cases k with
    | zero =>
      rcases hlast with ⟨h1, _⟩ | ⟨x, y, hx, hy, hxy⟩
      · simp at h1
      · simp at hx hy
        subst hx; subst hy
        rw [hab] at hxy
        cases hxy
    | succ k =>
      refine ⟨k, fun j hj => ?_, ?_⟩
      · simpa using hk (j + 1) (Nat.succ_lt_succ hj)
      · simpa using hlast
  · rintro ⟨k, hk, hlast⟩
    refine ⟨k + 1, fun j hj => ?_, ?_⟩
    · cases j with
      | zero => exact ⟨a, b, rfl, rfl, hab, hba⟩
      | succ j => simpa using hk j (Nat.lt_of_succ_lt_succ hj)
    · simpa using hlast

theorem lexicographical_compare_iff {α : Type} (lt : α → α → Bool) :
    ∀ xs ys : List α, lexicographical_compare lt xs ys = true ↔ lex_less lt xs ys
  | [], [] => by
    simp only [lexicographical_compare]
    constructor
    · intro h; cases h
    · rintro ⟨k, _, ⟨_, h2⟩ | ⟨x, y, hx, _⟩⟩
      · simp at h2
      · simp at hx
  | [], b :: bs => by
    simp only [lexicographical_compare, true_iff]
    exact ⟨0, fun j hj => absurd hj (Nat.not_lt_zero j), Or.inl ⟨rfl, by simp⟩⟩
  | a :: as, [] => by
    simp only [lexicographical_compare]
    constructor
    · intro h; cases h
    · rintro ⟨k, _, ⟨_, h2⟩ | ⟨x, y, _, hy, _⟩⟩
      · simp at h2
      · simp at hy
  | a :: as, b :: bs => by
    simp only [lexicographical_compare]
    cases hab : lt a b with
    | true =>
      simp only [if_true, true_iff]
      exact ⟨0, fun j hj => absurd hj (Nat.not_lt_zero j), Or.inr ⟨a, b, rfl, rfl, hab⟩⟩
    | false =>
      cases hba : lt b a with
      | true =>
        simp only [Bool.false_eq_true, if_false, if_true, false_iff]
        rintro ⟨k, hk, hlast⟩
        cases k with
        | zero =>
          rcases hlast with ⟨h1, _⟩ | ⟨x, y, hx, hy, hxy⟩
          · simp at h1
          · simp at hx hy
            subst hx; subst hy
            rw [hab] at hxy
            cases hxy
        | succ k =>
          obtain ⟨x, y, hx, hy, _, hyx⟩ := hk 0 (Nat.succ_pos k)
          simp at hx hy
          subst hx; subst hy
          rw [hba] at hyx
          cases hyx
      | false =>
        simp only [Bool.false_eq_true, if_false]
        rw [lexicographical_compare_iff lt as bs, lex_less_cons_iff lt a b as bs hab hba]

theorem string_lt_eq : ∀ s t : string, string_lt s t = lexicographical_compare byte_lt s t
  | [], [] => rfl
  | [], _ :: _ => rfl
  | _ :: _, [] => rfl
  | a :: as, b :: bs => by
    simp only [string_lt, lexicographical_compare, byte_lt, decide_eq_true_eq]
    rw [string_lt_eq as bs]

theorem vector_lt_eq (F : DoubleOps D) :
    ∀ xs ys : List (Json D), vector_lt F xs ys = lexicographical_compare (operator_lt F) xs ys
  | [], [] => by rw [vector_lt]; rfl
  | [], _ :: _ => by rw [vector_lt]; rfl
  | _ :: _, [] => by rw [vector_lt]; rfl
  | a :: as, b :: bs => by
    rw [vector_lt, lexicographical_compare, vector_lt_eq F as bs]

theorem map_lt_eq (F : DoubleOps D) :
    ∀ xs ys : List (string × Json D), map_lt F xs ys = lexicographical_compare (entry_lt F) xs ys
  | [], [] => by rw [map_lt]; rfl
  | [], _ :: _ => by rw [map_lt]; rfl
  | _ :: _, [] => by rw [map_lt]; rfl
  | (ka, a) :: as, (kb, b) :: bs => by
    rw [map_lt, lexicographical_compare, map_lt_eq F as bs]
    rfl

theorem less_iff_payload_less (F : DoubleOps D) (a b : Json D) (ht : a.type = b.type) :
    less F a b = true ↔ payload_less F a b := by
  cases a <;> cases b <;> simp only [type] at ht <;> try (cases ht)
  · rw [less]
    simp [payload_less, type]
  · rw [less]
    simp [payload_less, type, number_value]
  · rw [less]
    simp [payload_less, type, number_value]
  · rw [less]
    simp [payload_less, type, number_value]
  · rw [less]
    simp [payload_less, type, number_value]
  · rw [less]
    simp [payload_less, type, bool_value]
  · rw [less, string_lt_eq, lexicographical_compare_iff]
    simp [payload_less, type, string_value]
  · rw [less, vector_lt_eq, lexicographical_compare_iff]
    simp [payload_less, type, array_items]
  · rw [less, map_lt_eq, lexicographical_compare_iff]
    simp [payload_less, type, object_items]

/-- C5. Ordering: `a < b` holds if and only if the tag of `a` precedes the tag
of `b` in the order Null, Number, Bool, String, Array, Object, or the tags are
equal and the payload of `a` is less than that of `b` under its natural
ordering: numeric for Number, `false < true` for Bool, bytewise lexicographic
for String, elementwise lexicographic for Array, elementwise over the entries
in key order (key, then value) for Object, never for Null. -/
theorem operator_lt_iff_spec_less (F : DoubleOps D) (a b : Json D) :
    operator_lt F a b = true ↔ spec_less F a b := by
  rw [operator_lt]
  unfold spec_less
  by_cases ht : a.type = b.type
  · have hirr : ¬ a.type.toNat < b.type.toNat := by rw [ht]; exact Nat.lt_irrefl _
    simp only [ht, ne_eq, not_true_eq_false, if_false, true_and, Nat.lt_irrefl, false_or]
    exact less_iff_payload_less F a b ht
  · simp [ht]

/-- C4. Self-comparison: for every value `v`, `v == v` (both operands the same
node, so `m_ptr == other.m_ptr` holds) evaluates to false, and `v != v`
evaluates to true. -/
theorem self_comparison_is_false (F : DoubleOps D) (v : Json D) :
    operator_eq F true v v = false ∧ operator_ne F true v v = true := by
  simp [operator_eq, operator_ne]

/-- C3 (what the code does instead). On two distinct nodes `operator==`
returns what the ordering `<` of the spec returns: two separately built equal
strings compare unequal, and a Null value compares equal to the number 1. -/
theorem operator_eq_is_the_ordering (F : DoubleOps D) :
    (∀ a b : Json D, operator_eq F false a b = operator_lt F a b)
    ∧ operator_eq F false (of_string "a".toList : Json D) (of_string "a".toList) = false
    ∧ operator_eq F false (null : Json D) (of_int 1) = true := by
  refine ⟨?_, ?_, ?_⟩
  · intro a b
    rw [operator_lt]
    simp [operator_eq]
  · simp [operator_eq, of_string, type, less, string_lt]
  · simp [operator_eq, null, of_int, type, JsonType.toNat]

/-- C6. Safe navigation: `v[i]` is the `i`-th element when `v` is an Array and
`i` is below its length, and a Null value otherwise (out of range, or `v` not
an Array); `v[key]` is the value mapped to `key` when `v` is an Object
containing that key, and a Null value otherwise (key absent, or `v` not an
Object). Both are total functions. -/
theorem safe_navigation (v : Json D) (i : Nat) (key : string) :
    (∀ xs (h : i < xs.length), v = JsonArray xs → v.index i = xs.get ⟨i, h⟩)
    ∧ (∀ xs, v = JsonArray xs → xs.length ≤ i → v.index i = JsonNull)
    ∧ (v.type ≠ JsonType.ARRAY → v.index i = JsonNull)
    ∧ (∀ m x, v = JsonObject m → (m.map Prod.fst).Nodup → (key, x) ∈ m → v.key_index key = x)
    ∧ (∀ m, v = JsonObject m → key ∉ m.map Prod.fst → v.key_index key = JsonNull)
    ∧ (v.type ≠ JsonType.OBJECT → v.key_index key = JsonNull) := by
  refine ⟨?_, ?_, ?_, ?_, ?_, ?_⟩
  · intro xs h hv
    subst hv
    simp only [index, ge_iff_le, Nat.not_le.mpr h, if_false]
    rw [List.getD_eq_getElem _ _ h]
    rfl
  · intro xs hv h
    subst hv
    simp [index, h, static_null, null]
  · intro h
    cases v <;> simp_all [index, static_null, null, type]
  · intro m x hv hnd hmem
    subst hv
    simp [key_index, map_find_of_mem m key x hnd hmem]
  · intro m hv h
    subst hv
    simp [key_index, map_find_of_not_mem m key h, static_null, null]
  · intro h
    cases v <;> simp_all [key_index, static_null, null, type]

/-- A witness for `safe_navigation`: on the array `[1, 2]`, index 1 yields the
number 2 and index 5 yields Null; on a Null value both kinds of index yield
Null; on the object with `a` mapped to 1, the key `a` yields 1. -/
theorem safe_navigation_witness :
    (JsonArray [JsonInt 1, JsonInt 2] : Json Unit).index 1 = JsonInt 2
    ∧ (JsonArray [JsonInt 1, JsonInt 2] : Json Unit).index 5 = JsonNull
    ∧ (JsonNull : Json Unit).index 0 = JsonNull
    ∧ (JsonNull : Json Unit).key_index "x".toList = JsonNull
    ∧ (JsonObject [("a".toList, JsonInt 1)] : Json Unit).key_index "a".toList = JsonInt 1 :=
  ⟨(safe_navigation (JsonArray [JsonInt 1, JsonInt 2]) 1 []).1 _ (by decide) rfl,
   (safe_navigation (JsonArray [JsonInt 1, JsonInt 2]) 5 []).2.1 _ rfl (by decide),
   (safe_navigation JsonNull 0 []).2.2.1 (by decide),
   (safe_navigation JsonNull 0 "x".toList).2.2.2.2.2 (by decide),
   (safe_navigation (JsonObject [("a".toList, JsonInt 1)]) 0 "a".toList).2.2.2.1 _ _ rfl
     (by decide) (by simp)⟩

/-- C7. Permissive accessors: off the matching tag, `number_value()` and
`int_value()` return 0, `bool_value()` returns false, `string_value()` the
empty string, `array_items()` and `object_items()` an empty container; on the
matching tag each accessor returns the payload the value was built from
(`int_value` of an int-built Number is that int, `number_value` of a
double-built Number is that double; across the two number representations
the payload is converted). -/
theorem permissive_accessors (F : DoubleOps D) (v : Json D) :
    (v.type ≠ JsonType.NUMBER → number_value F v = F.ofInt 0 ∧ int_value F v = 0)
    ∧ (v.type ≠ JsonType.BOOL → bool_value v = false)
    ∧ (v.type ≠ JsonType.STRING → string_value v = [])
    ∧ (v.type ≠ JsonType.ARRAY → array_items v = [])
    ∧ (v.type ≠ JsonType.OBJECT → object_items v = [])
    ∧ (∀ n, v = of_int n → int_value F v = n ∧ number_value F v = F.ofInt n)
    ∧ (∀ d, v = of_double d → number_value F v = d ∧ int_value F v = F.toInt d)
    ∧ (∀ b, v = of_bool b → bool_value v = b)
    ∧ (∀ s, v = of_string s → string_value v = s)
    ∧ (∀ xs, v = of_array xs → array_items v = xs)
    ∧ (∀ m, v = of_object m → object_items v = m) := by
  refine ⟨?_, ?_, ?_, ?_, ?_, ?_, ?_, ?_, ?_, ?_, ?_⟩
  · intro h
    cases v <;> simp_all [number_value, int_value, type]
  · intro h
    cases v <;> simp_all [bool_value, type]
  · intro h
    cases v <;> simp_all [string_value, type]
  · intro h
    cases v <;> simp_all [array_items, type]
  · intro h
    cases v <;> simp_all [object_items, type]
  · rintro n rfl
    exact ⟨rfl, rfl⟩
  · rintro d rfl
    exact ⟨rfl, rfl⟩
  · rintro b rfl
    rfl
  · rintro s rfl
    rfl
  · rintro xs rfl
    rfl
  · rintro m rfl
    rfl

end Json

/-! ## Theorems: relations kept by the parser -/

section respects

open Parser

set_option linter.unusedTactic false
set_option linter.unreachableTactic false
set_option maxRecDepth 4000

theorem append_ne_nil {a b : string} (h : a ≠ []) : a ++ b ≠ [] := by
  cases a with
  | nil => exact absurd rfl h
  | cons c cs => simp

variable {R : JsonParser → JsonParser → Prop}

theorem respects_pure {α : Type} (hR : Stable R) (a : α) :
    Respects R (pure a : Parser α) := by
  intro p b q h
  cases h
  exact hR.refl p

theorem respects_bind {α β : Type} (hR : Stable R) {m : Parser α} {f : α → Parser β}
    (hm : Respects R m) (hf : ∀ a, Respects R (f a)) : Respects R (m >>= f) := by
  intro p b q h
  change seq m f p = _ at h
  unfold seq at h
  cases hmp : m p with
  | error e => rw [hmp] at h; cases h
  | ok r =>
    obtain ⟨a, p1⟩ := r
    rw [hmp] at h
    exact hR.trans _ _ _ (hm p a p1 hmp) (hf a p1 b q h)

theorem respects_stop {α : Type} (e : Fault) : Respects R (stop e : Parser α) := by
  intro p b q h
  cases h

theorem respects_state (hR : Stable R) : Respects R state := by
  intro p b q h
  cases h
  exact hR.refl p

theorem respects_set_i (hR : Stable R) (n : Nat) : Respects R (set_i n) := by
  intro p b q h
  cases h
  exact hR.set_i p n

theorem respects_str_at (hR : Stable R) (pos : Nat) : Respects R (str_at pos) := by
  intro p b q h
  unfold str_at at h
  split at h
  · cases h; exact hR.refl p
  · split at h
    · cases h; exact hR.refl p
    · cases h

theorem respects_substr (hR : Stable R) (pos n : Nat) : Respects R (substr pos n) := by
  intro p b q h
  unfold substr at h
  split at h
  · cases h; exact hR.refl p
  · cases h

theorem respects_fail {α : Type} (hR : Stable R) (msg : string) (err_ret : α)
    (hmsg : msg ≠ []) : Respects R (fail msg err_ret) := by
  intro p b q h
  cases h
  exact hR.fail p msg hmsg

theorem respects_ite {α : Type} {c : Prop} [Decidable c] {a b : Parser α}
    (ha : Respects R a) (hb : Respects R b) : Respects R (if c then a else b) := by
  by_cases h : c
  · rw [if_pos h]; exact ha
  · rw [if_neg h]; exact hb

theorem respects_consume_whitespace_loop (hR : Stable R) :
    ∀ fuel, Respects R (consume_whitespace_loop fuel)
  | 0 => by
    unfold consume_whitespace_loop
    exact respects_stop _
  | fuel + 1 => by
    have ih := respects_consume_whitespace_loop hR fuel
    unfold consume_whitespace_loop
    with_reducible repeat' first
      | exact ih
      | exact respects_pure hR _
      | exact respects_stop _
      | exact respects_state hR
      | exact respects_set_i hR _
      | exact respects_str_at hR _
      | exact respects_substr hR _ _
      | refine respects_fail hR _ _ ?_
      | decide
      | exact append_ne_nil (by decide)
      | exact append_ne_nil (append_ne_nil (by decide))
      | exact append_ne_nil (append_ne_nil (append_ne_nil (by decide)))
      | refine respects_bind hR ?_ (fun _ => ?_)
      | refine respects_ite ?_ ?_
      | dsimp only

theorem respects_consume_whitespace (hR : Stable R) :
    Respects R (consume_whitespace) := by
  unfold consume_whitespace
  with_reducible repeat' first
    | exact respects_consume_whitespace_loop hR _
    | exact respects_pure hR _
    | exact respects_stop _
    | exact respects_state hR
    | exact respects_set_i hR _
    | exact respects_str_at hR _
    | exact respects_substr hR _ _
    | refine respects_fail hR _ _ ?_
    | decide
    | exact append_ne_nil (by decide)
    | exact append_ne_nil (append_ne_nil (by decide))
    | exact append_ne_nil (append_ne_nil (append_ne_nil (by decide)))
    | refine respects_bind hR ?_ (fun _ => ?_)
    | refine respects_ite ?_ ?_
    | dsimp only

theorem respects_single_line_loop (hR : Stable R) :
    ∀ fuel, Respects R (single_line_loop fuel)
  | 0 => by
    unfold single_line_loop
    exact respects_stop _
  | fuel + 1 => by
    have ih := respects_single_line_loop hR fuel
    unfold single_line_loop
    with_reducible repeat' first
      | exact ih
      | exact respects_pure hR _
      | exact respects_stop _
      | exact respects_state hR
      | exact respects_set_i hR _
      | exact respects_str_at hR _
      | exact respects_substr hR _ _
      | refine respects_fail hR _ _ ?_
      | decide
      | exact append_ne_nil (by decide)
      | exact append_ne_nil (append_ne_nil (by decide))
      | exact append_ne_nil (append_ne_nil (append_ne_nil (by decide)))
      | refine respects_bind hR ?_ (fun _ => ?_)
      | refine respects_ite ?_ ?_
      | dsimp only

theorem respects_multi_line_loop (hR : Stable R) :
    ∀ fuel, Respects R (multi_line_loop fuel)
  | 0 => by
    unfold multi_line_loop
    exact respects_stop _
  | fuel + 1 => by
    have ih := respects_multi_line_loop hR fuel
    unfold multi_line_loop
    with_reducible repeat' first
      | exact ih
      | exact respects_pure hR _
      | exact respects_stop _
      | exact respects_state hR
      | exact respects_set_i hR _
      | exact respects_str_at hR _
      | exact respects_substr hR _ _
      | refine respects_fail hR _ _ ?_
      | decide
      | exact append_ne_nil (by decide)
      | exact append_ne_nil (append_ne_nil (by decide))
      | exact append_ne_nil (append_ne_nil (append_ne_nil (by decide)))
      | refine respects_bind hR ?_ (fun _ => ?_)
      | refine respects_ite ?_ ?_
      | dsimp only

theorem respects_consume_comment (hR : Stable R) :
    Respects R (consume_comment) := by
  unfold consume_comment
  with_reducible repeat' first
    | exact respects_single_line_loop hR _
    | exact respects_multi_line_loop hR _
    | exact respects_pure hR _
    | exact respects_stop _
    | exact respects_state hR
    | exact respects_set_i hR _
    | exact respects_str_at hR _
    | exact respects_substr hR _ _
    | refine respects_fail hR _ _ ?_
    | decide
    | exact append_ne_nil (by decide)
    | exact append_ne_nil (append_ne_nil (by decide))
    | exact append_ne_nil (append_ne_nil (append_ne_nil (by decide)))
    | refine respects_bind hR ?_ (fun _ => ?_)
    | refine respects_ite ?_ ?_
    | dsimp only

theorem respects_consume_garbage_loop (hR : Stable R) :
    ∀ fuel, Respects R (consume_garbage_loop fuel)
  | 0 => by
    unfold consume_garbage_loop
    exact respects_stop _
  | fuel + 1 => by
    have ih := respects_consume_garbage_loop hR fuel
    unfold consume_garbage_loop
    with_reducible repeat' first
      | exact ih
      | exact respects_consume_comment hR
      | exact respects_consume_whitespace hR
      | exact respects_pure hR _
      | exact respects_stop _
      | exact respects_state hR
      | exact respects_set_i hR _
      | exact respects_str_at hR _
      | exact respects_substr hR _ _
      | refine respects_fail hR _ _ ?_
      | decide
      | exact append_ne_nil (by decide)
      | exact append_ne_nil (append_ne_nil (by decide))
      | exact append_ne_nil (append_ne_nil (append_ne_nil (by decide)))
      | refine respects_bind hR ?_ (fun _ => ?_)
      | refine respects_ite ?_ ?_
      | dsimp only

theorem respects_consume_garbage (hR : Stable R) :
    Respects R (consume_garbage) := by
  unfold consume_garbage
  with_reducible repeat' first
    | exact respects_consume_whitespace hR
    | exact respects_consume_garbage_loop hR _
    | exact respects_pure hR _
    | exact respects_stop _
    | exact respects_state hR
    | exact respects_set_i hR _
    | exact respects_str_at hR _
    | exact respects_substr hR _ _
    | refine respects_fail hR _ _ ?_
    | decide
    | exact append_ne_nil (by decide)
    | exact append_ne_nil (append_ne_nil (by decide))
    | exact append_ne_nil (append_ne_nil (append_ne_nil (by decide)))
    | refine respects_bind hR ?_ (fun _ => ?_)
    | refine respects_ite ?_ ?_
    | dsimp only

theorem respects_get_next_token (hR : Stable R) :
    Respects R (get_next_token) := by
  unfold get_next_token
  with_reducible repeat' first
    | exact respects_consume_garbage hR
    | exact respects_pure hR _
    | exact respects_stop _
    | exact respects_state hR
    | exact respects_set_i hR _
    | exact respects_str_at hR _
    | exact respects_substr hR _ _
    | refine respects_fail hR _ _ ?_
    | decide
    | exact append_ne_nil (by decide)
    | exact append_ne_nil (append_ne_nil (by decide))
    | exact append_ne_nil (append_ne_nil (append_ne_nil (by decide)))
    | refine respects_bind hR ?_ (fun _ => ?_)
    | refine respects_ite ?_ ?_
    | dsimp only

theorem respects_parse_string_loop (hR : Stable R) :
    ∀ fuel (out : string) (last : Int), Respects R (parse_string_loop fuel out last)
  | 0 => by
    intros
    unfold parse_string_loop
    exact respects_stop _
  | fuel + 1 => by
    have ih := respects_parse_string_loop hR fuel
    intros
    unfold parse_string_loop
    with_reducible repeat' first
      | exact ih _ _
      | exact respects_pure hR _
      | exact respects_stop _
      | exact respects_state hR
      | exact respects_set_i hR _
      | exact respects_str_at hR _
      | exact respects_substr hR _ _
      | refine respects_fail hR _ _ ?_
      | decide
      | exact append_ne_nil (by decide)
      | exact append_ne_nil (append_ne_nil (by decide))
      | exact append_ne_nil (append_ne_nil (append_ne_nil (by decide)))
      | refine respects_bind hR ?_ (fun _ => ?_)
      | refine respects_ite ?_ ?_
      | dsimp only

theorem respects_parse_string (hR : Stable R) :
    Respects R (parse_string) := by
  unfold parse_string
  with_reducible repeat' first
    | exact respects_parse_string_loop hR _ _ _
    | exact respects_pure hR _
    | exact respects_stop _
    | exact respects_state hR
    | exact respects_set_i hR _
    | exact respects_str_at hR _
    | exact respects_substr hR _ _
    | refine respects_fail hR _ _ ?_
    | decide
    | exact append_ne_nil (by decide)
    | exact append_ne_nil (append_ne_nil (by decide))
    | exact append_ne_nil (append_ne_nil (append_ne_nil (by decide)))
    | refine respects_bind hR ?_ (fun _ => ?_)
    | refine respects_ite ?_ ?_
    | dsimp only

theorem respects_digits_loop (hR : Stable R) :
    ∀ fuel, Respects R (digits_loop fuel)
  | 0 => by
    unfold digits_loop
    exact respects_stop _
  | fuel + 1 => by
    have ih := respects_digits_loop hR fuel
    unfold digits_loop
    with_reducible repeat' first
      | exact ih
      | exact respects_pure hR _
      | exact respects_stop _
      | exact respects_state hR
      | exact respects_set_i hR _
      | exact respects_str_at hR _
      | exact respects_substr hR _ _
      | refine respects_fail hR _ _ ?_
      | decide
      | exact append_ne_nil (by decide)
      | exact append_ne_nil (append_ne_nil (by decide))
      | exact append_ne_nil (append_ne_nil (append_ne_nil (by decide)))
      | refine respects_bind hR ?_ (fun _ => ?_)
      | refine respects_ite ?_ ?_
      | dsimp only

theorem respects_parse_number_exponent (hR : Stable R) {D : Type} (F : DoubleOps D) (start_pos : Nat) :
    Respects R (parse_number_exponent F start_pos) := by
  unfold parse_number_exponent
  with_reducible repeat' first
    | exact respects_digits_loop hR _
    | exact respects_pure hR _
    | exact respects_stop _
    | exact respects_state hR
    | exact respects_set_i hR _
    | exact respects_str_at hR _
    | exact respects_substr hR _ _
    | refine respects_fail hR _ _ ?_
    | decide
    | exact append_ne_nil (by decide)
    | exact append_ne_nil (append_ne_nil (by decide))
    | exact append_ne_nil (append_ne_nil (append_ne_nil (by decide)))
    | refine respects_bind hR ?_ (fun _ => ?_)
    | refine respects_ite ?_ ?_
    | dsimp only

theorem respects_parse_number_fraction (hR : Stable R) {D : Type} (F : DoubleOps D) (start_pos : Nat) :
    Respects R (parse_number_fraction F start_pos) := by
  unfold parse_number_fraction
  with_reducible repeat' first
    | exact respects_digits_loop hR _
    | exact respects_parse_number_exponent hR F _
    | exact respects_pure hR _
    | exact respects_stop _
    | exact respects_state hR
    | exact respects_set_i hR _
    | exact respects_str_at hR _
    | exact respects_substr hR _ _
    | refine respects_fail hR _ _ ?_
    | decide
    | exact append_ne_nil (by decide)
    | exact append_ne_nil (append_ne_nil (by decide))
    | exact append_ne_nil (append_ne_nil (append_ne_nil (by decide)))
    | refine respects_bind hR ?_ (fun _ => ?_)
    | refine respects_ite ?_ ?_
    | dsimp only

theorem respects_parse_number_integer (hR : Stable R) {D : Type} (F : DoubleOps D) (start_pos : Nat) :
    Respects R (parse_number_integer F start_pos) := by
  unfold parse_number_integer
  with_reducible repeat' first
    | exact respects_parse_number_fraction hR F _
    | exact respects_pure hR _
    | exact respects_stop _
    | exact respects_state hR
    | exact respects_set_i hR _
    | exact respects_str_at hR _
    | exact respects_substr hR _ _
    | refine respects_fail hR _ _ ?_
    | decide
    | exact append_ne_nil (by decide)
    | exact append_ne_nil (append_ne_nil (by decide))
    | exact append_ne_nil (append_ne_nil (append_ne_nil (by decide)))
    | refine respects_bind hR ?_ (fun _ => ?_)
    | refine respects_ite ?_ ?_
    | dsimp only

theorem respects_parse_number (hR : Stable R) {D : Type} (F : DoubleOps D) :
    Respects R (parse_number F) := by
  unfold parse_number
  with_reducible repeat' first
    | exact respects_digits_loop hR _
    | exact respects_parse_number_integer hR F _
    | exact respects_pure hR _
    | exact respects_stop _
    | exact respects_state hR
    | exact respects_set_i hR _
    | exact respects_str_at hR _
    | exact respects_substr hR _ _
    | refine respects_fail hR _ _ ?_
    | decide
    | exact append_ne_nil (by decide)
    | exact append_ne_nil (append_ne_nil (by decide))
    | exact append_ne_nil (append_ne_nil (append_ne_nil (by decide)))
    | refine respects_bind hR ?_ (fun _ => ?_)
    | refine respects_ite ?_ ?_
    | dsimp only

theorem respects_expect (hR : Stable R) {D : Type} (expected : string) (res : Json D) :
    Respects R (expect expected res) := by
  unfold expect
  with_reducible repeat' first
    | exact respects_pure hR _
    | exact respects_stop _
    | exact respects_state hR
    | exact respects_set_i hR _
    | exact respects_str_at hR _
    | exact respects_substr hR _ _
    | refine respects_fail hR _ _ ?_
    | decide
    | exact append_ne_nil (by decide)
    | exact append_ne_nil (append_ne_nil (by decide))
    | exact append_ne_nil (append_ne_nil (append_ne_nil (by decide)))
    | refine respects_bind hR ?_ (fun _ => ?_)
    | refine respects_ite ?_ ?_
    | dsimp only

theorem respects_parse_json_all (hR : Stable R) {D : Type} (F : DoubleOps D) :
    ∀ fuel, (∀ depth, Respects R (parse_json F fuel depth))
      ∧ (∀ depth data ch, Respects R (parse_json_object F fuel depth data ch))
      ∧ (∀ depth data, Respects R (parse_json_array F fuel depth data))
  | 0 => by
    refine ⟨?_, ?_, ?_⟩
    · intro depth
      unfold parse_json
      exact respects_stop _
    · intro depth data ch
      unfold parse_json_object
      exact respects_stop _
    · intro depth data
      unfold parse_json_array
      exact respects_stop _
  | fuel + 1 => by
    have ih := respects_parse_json_all hR F fuel
    refine ⟨?_, ?_, ?_⟩
    · intro depth
      unfold parse_json
      with_reducible repeat' first
      | exact ih.1 _
      | exact ih.2.1 _ _ _
      | exact ih.2.2 _ _
      | exact respects_get_next_token hR
      | exact respects_parse_number hR F
      | exact respects_parse_string hR
      | exact respects_expect hR _ _
      | exact respects_pure hR _
      | exact respects_stop _
      | exact respects_state hR
      | exact respects_set_i hR _
      | refine respects_fail hR _ _ ?_
      | decide
      | exact append_ne_nil (by decide)
      | refine respects_bind hR ?_ (fun _ => ?_)
      | refine respects_ite ?_ ?_
      | dsimp only
    · intro depth data ch
      unfold parse_json_object
      with_reducible repeat' first
      | exact ih.1 _
      | exact ih.2.1 _ _ _
      | exact ih.2.2 _ _
      | exact respects_get_next_token hR
      | exact respects_parse_number hR F
      | exact respects_parse_string hR
      | exact respects_expect hR _ _
      | exact respects_pure hR _
      | exact respects_stop _
      | exact respects_state hR
      | exact respects_set_i hR _
      | refine respects_fail hR _ _ ?_
      | decide
      | exact append_ne_nil (by decide)
      | refine respects_bind hR ?_ (fun _ => ?_)
      | refine respects_ite ?_ ?_
      | dsimp only
    · intro depth data
      unfold parse_json_array
      with_reducible repeat' first
      | exact ih.1 _
      | exact ih.2.1 _ _ _
      | exact ih.2.2 _ _
      | exact respects_get_next_token hR
      | exact respects_parse_number hR F
      | exact respects_parse_string hR
      | exact respects_expect hR _ _
      | exact respects_pure hR _
      | exact respects_stop _
      | exact respects_state hR
      | exact respects_set_i hR _
      | refine respects_fail hR _ _ ?_
      | decide
      | exact append_ne_nil (by decide)
      | refine respects_bind hR ?_ (fun _ => ?_)
      | refine respects_ite ?_ ?_
      | dsimp only
theorem respects_parse_json (hR : Stable R) {D : Type} (F : DoubleOps D) (fuel depth : Nat) :
    Respects R (parse_json F fuel depth) :=
  (respects_parse_json_all hR F fuel).1 depth

/-- The function `Json::parse` relates the state it builds from its
arguments to the state it returns in. -/
theorem respects_parse (hR : Stable R) {D : Type} (F : DoubleOps D) (fuel : Nat)
    (input err : string) (strategy : JsonParse) (v : Json D) (q : JsonParser)
    (h : Json.parse F fuel input err strategy = Except.ok (v, q)) :
    R (JsonParser.mk input 0 err false strategy) q := by
  unfold Json.parse at h
  refine (?_ : Respects R _) _ _ _ h
  with_reducible repeat' first
    | exact respects_parse_json hR F _ _
    | exact respects_consume_garbage hR
    | exact respects_pure hR _
    | exact respects_state hR
    | exact respects_str_at hR _
    | refine respects_fail hR _ _ ?_
    | exact append_ne_nil (by decide)
    | refine respects_bind hR ?_ (fun _ => ?_)
    | refine respects_ite ?_ ?_

/-- The relation "the policy `has_diagnostic` carries over" is kept by every
primitive step. -/
theorem stable_has_diagnostic :
    Stable (fun p q => has_diagnostic p → has_diagnostic q) where
  refl := fun _ h => h
  trans := fun _ _ _ h1 h2 h => h2 (h1 h)
  set_i := fun _ _ h => h
  fail := by
    intro p msg hmsg h _
    show (if !p.failed then msg else p.err) ≠ []
    cases hf : p.failed with
    | false => simpa using hmsg
    | true => simpa using h hf

/-- After its check of the flag `failed`, `Json::parse` returns its parsed
result only with the flag clear: a run that returns with the flag set returns
`Json()`. -/
theorem parse_returns_null_when_failed {D : Type} (F : DoubleOps D) (fuel : Nat)
    (input err : string) (strategy : JsonParse) (v : Json D) (q : JsonParser)
    (h : Json.parse F fuel input err strategy = Except.ok (v, q))
    (hf : q.failed = true) : v = Json.JsonNull := by
  unfold Json.parse at h
  generalize JsonParser.mk input 0 err false strategy = p0 at h
  change seq _ _ p0 = _ at h
  unfold seq at h
  split at h
  · rename_i result p1 _
    change seq _ _ p1 = _ at h
    unfold seq at h
    split at h
    · rename_i u p2 _
      change seq state _ p2 = _ at h
      simp only [seq, state] at h
      by_cases hp : p2.failed = true
      · rw [if_pos hp] at h
        cases h
        rfl
      · rw [if_neg hp] at h
        by_cases hi : p2.i ≠ input.length
        · rw [if_pos hi] at h
          change seq _ _ p2 = _ at h
          unfold seq at h
          split at h
          · cases h
            rfl
          · cases h
        · rw [if_neg hi] at h
          cases h
          exact absurd hf hp
    · cases h
  · cases h

/-- C2. For every input text, either strategy and any initial content of
`err`: when `Json::parse` returns with the parser's failure flag set (the flag
is never cleared, so this is the case as soon as it was set at any point), the
value returned has tag Null and `err` holds a non-empty message. -/
theorem parse_failure_returns_null_with_message {D : Type} (F : DoubleOps D) (fuel : Nat)
    (input err : string) (strategy : JsonParse) (v : Json D) (q : JsonParser)
    (h : Json.parse F fuel input err strategy = Except.ok (v, q))
    (hf : q.failed = true) : v.type = JsonType.NUL ∧ q.err ≠ [] := by
  refine ⟨?_, ?_⟩
  · rw [parse_returns_null_when_failed F fuel input err strategy v q h hf]
    rfl
  · have hq := respects_parse stable_has_diagnostic F fuel input err strategy v q h
    exact hq (fun h0 => by cases h0) hf

/-- A witness for `parse_failure_returns_null_with_message`: parsing the text
`true` returns with the flag set, the value Null and the message
`expected value, got 'r`. -/
theorem parse_failure_returns_null_with_message_witness :
    Json.parse no_double 1 "true".toList [] JsonParse.STANDARD
      = Except.ok (Json.JsonNull, JsonParser.mk "true".toList 0
          "expected value, got 'r".toList true JsonParse.STANDARD)
    ∧ (Json.JsonNull : Json Unit).type = JsonType.NUL
    ∧ "expected value, got 'r".toList ≠ [] :=
  ⟨rfl, parse_failure_returns_null_with_message no_double 1 "true".toList []
    JsonParse.STANDARD Json.JsonNull
    (JsonParser.mk "true".toList 0 "expected value, got 'r".toList true JsonParse.STANDARD)
    rfl rfl⟩

end respects

/-! ## Theorems: the inner loops stay within their step budget -/

section ensures

open Parser

set_option linter.unusedTactic false
set_option linter.unreachableTactic false
set_option maxRecDepth 4000

variable {α β : Type}

theorem ensures_of_ok (m : Parser α) (p : JsonParser) (Q : α → JsonParser → Prop)
    (a : α) (q : JsonParser) (hm : m p = Except.ok (a, q)) (h : Q a q) : Ensures m p Q := by
  refine ⟨?_, ?_⟩
  · rw [hm]; intro h; cases h
  · intro b r hr
    rw [hm] at hr
    cases hr
    exact h

theorem ensures_of_error (m : Parser α) (p : JsonParser) (Q : α → JsonParser → Prop)
    (e : Fault) (hm : m p = Except.error e) (h : e ≠ Fault.out_of_fuel) : Ensures m p Q := by
  refine ⟨?_, ?_⟩
  · rw [hm]; intro h'; cases h'; exact h rfl
  · intro b r hr
    rw [hm] at hr
    cases hr

theorem ensures_pure (a : α) (p : JsonParser) (Q : α → JsonParser → Prop) (h : Q a p) :
    Ensures (pure a : Parser α) p Q :=
  ensures_of_ok _ p Q a p rfl h

theorem ensures_bind (m : Parser α) (f : α → Parser β) (p : JsonParser)
    (Q : β → JsonParser → Prop) (h : Ensures m p (fun a q => Ensures (f a) q Q)) :
    Ensures (m >>= f) p Q := by
  have hb : (m >>= f) p = seq m f p := rfl
  unfold Ensures at h ⊢
  rw [hb]
  unfold seq
  cases hm : m p with
  | error e =>
    rw [hm] at h
    dsimp only
    refine ⟨fun he => h.1 ?_, fun a q hq => by cases hq⟩
    cases he
    rfl
  | ok r =>
    obtain ⟨a, q⟩ := r
    dsimp only
    exact h.2 a q hm

theorem ensures_mono (m : Parser α) (p : JsonParser) (Q Q' : α → JsonParser → Prop)
    (h : Ensures m p Q) (hQ : ∀ a q, Q a q → Q' a q) : Ensures m p Q' :=
  ⟨h.1, fun a q hq => hQ a q (h.2 a q hq)⟩

theorem ensures_bind_of (m : Parser α) (f : α → Parser β) (p : JsonParser)
    (Q1 : α → JsonParser → Prop) (Q : β → JsonParser → Prop) (h : Ensures m p Q1)
    (hf : ∀ a q, Q1 a q → Ensures (f a) q Q) : Ensures (m >>= f) p Q :=
  ensures_bind m f p Q (ensures_mono m p Q1 _ h hf)

theorem ensures_state (p : JsonParser) (Q : JsonParser → JsonParser → Prop) (h : Q p p) :
    Ensures state p Q :=
  ensures_of_ok _ p Q p p rfl h

theorem ensures_set_i (n : Nat) (p : JsonParser) (Q : Unit → JsonParser → Prop)
    (h : Q () { p with i := n }) : Ensures (set_i n) p Q :=
  ensures_of_ok _ p Q () _ rfl h

theorem ensures_stop (e : Fault) (p : JsonParser) (Q : α → JsonParser → Prop)
    (h : e ≠ Fault.out_of_fuel) : Ensures (stop e : Parser α) p Q :=
  ensures_of_error _ p Q e rfl h

theorem ensures_fail (msg : string) (err_ret : α) (p : JsonParser) (Q : α → JsonParser → Prop)
    (h : Q err_ret { p with err := if !p.failed then msg else p.err, failed := true }) :
    Ensures (fail msg err_ret) p Q :=
  ensures_of_ok _ p Q err_ret _ rfl h

theorem ensures_str_at (pos : Nat) (p : JsonParser) (Q : Char → JsonParser → Prop)
    (h1 : pos < p.str.length → Q (p.str.getD pos NUL) p)
    (h2 : pos = p.str.length → Q NUL p) : Ensures (str_at pos) p Q := by
  by_cases hlt : pos < p.str.length
  · exact ensures_of_ok _ p Q _ p (by unfold str_at; rw [if_pos hlt]) (h1 hlt)
  · by_cases heq : pos = p.str.length
    · exact ensures_of_ok _ p Q _ p (by unfold str_at; rw [if_neg hlt, if_pos heq]) (h2 heq)
    · exact ensures_of_error _ p Q Fault.out_of_range
        (by unfold str_at; rw [if_neg hlt, if_neg heq]) (by decide)

theorem ensures_substr (pos n : Nat) (p : JsonParser) (Q : string → JsonParser → Prop)
    (h : pos ≤ p.str.length → Q ((p.str.drop pos).take n) p) : Ensures (substr pos n) p Q := by
  by_cases hle : pos ≤ p.str.length
  · exact ensures_of_ok _ p Q _ p (by unfold substr; rw [if_pos hle]) (h hle)
  · exact ensures_of_error _ p Q Fault.out_of_range (by unfold substr; rw [if_neg hle])
      (by decide)

theorem ensures_ite (c : Prop) [Decidable c] (a b : Parser α) (p : JsonParser)
    (Q : α → JsonParser → Prop) (ha : c → Ensures a p Q) (hb : ¬c → Ensures b p Q) :
    Ensures (if c then a else b) p Q := by
  by_cases h : c
  · rw [if_pos h]; exact ha h
  · rw [if_neg h]; exact hb h

theorem forward_refl (p : JsonParser) : Forward p p :=
  ⟨rfl, rfl, Nat.le_refl _, fun h => h⟩

theorem forward_of (p q : JsonParser) (hs : q.str = p.str) (ht : q.strategy = p.strategy)
    (h1 : p.i ≤ q.i) (h2 : q.i ≤ p.str.length) : Forward p q :=
  ⟨hs, ht, h1, fun _ => h2⟩

theorem forward_trans (p q r : JsonParser) (h1 : Forward p q) (h2 : Forward q r) :
    Forward p r := by
  obtain ⟨a1, b1, c1, d1⟩ := h1
  obtain ⟨a2, b2, c2, d2⟩ := h2
  refine ⟨by rw [a2, a1], by rw [b2, b1], Nat.le_trans c1 c2, fun h => ?_⟩
  have := d1 h
  rw [a1] at d2
  exact d2 this

theorem ensures_consume_whitespace_loop :
    ∀ fuel p, 1 ≤ fuel → p.str.length + 1 ≤ fuel + p.i →
      Ensures (consume_whitespace_loop fuel) p (fun _ q => Forward p q)
  | 0, p, h, _ => absurd h (by decide)
  | fuel + 1, p, _, h2 => by
    unfold consume_whitespace_loop
    refine ensures_bind _ _ _ _ (ensures_state _ _ ?_)
    refine ensures_bind _ _ _ _ (ensures_str_at _ _ _ (fun hlt => ?_) (fun heq => ?_))
    · refine ensures_ite _ _ _ _ _ (fun _ => ?_) (fun _ => ensures_pure _ _ _ (forward_refl p))
      refine ensures_bind _ _ _ _ (ensures_set_i _ _ _ ?_)
      refine ensures_mono _ _ _ _
        (ensures_consume_whitespace_loop fuel { p with i := p.i + 1 } ?_ ?_) ?_
      · show 1 ≤ fuel
        omega
      · show p.str.length + 1 ≤ fuel + (p.i + 1)
        omega
      · intro _ q hq
        exact forward_trans p { p with i := p.i + 1 } q
          ⟨rfl, rfl, Nat.le_succ _, fun _ => hlt⟩ hq
    · rw [if_neg (by decide)]
      exact ensures_pure _ _ _ (forward_refl p)

/-- The member `consume_whitespace()` never exhausts the budget of its loop,
and it only moves the cursor forward, never past the end of the input. -/
theorem ensures_consume_whitespace (p : JsonParser) :
    Ensures consume_whitespace p (fun _ q => Forward p q) := by
  unfold consume_whitespace
  refine ensures_bind _ _ _ _ (ensures_state _ _ ?_)
  exact ensures_consume_whitespace_loop _ p (Nat.succ_pos _) (by omega)

theorem ensures_single_line_loop :
    ∀ fuel p, 1 ≤ fuel → p.str.length + 1 ≤ fuel + p.i →
      Ensures (single_line_loop fuel) p (fun _ q => Forward p q)
  | 0, p, h, _ => absurd h (by decide)
  | fuel + 1, p, _, h2 => by
    unfold single_line_loop
    refine ensures_bind _ _ _ _ (ensures_state _ _ ?_)
    refine ensures_ite _ _ _ _ _ (fun hlt => ?_) (fun _ => ensures_pure _ _ _ (forward_refl p))
    refine ensures_bind _ _ _ _ (ensures_str_at _ _ _ (fun _ => ?_) (fun heq => ?_))
    · refine ensures_ite _ _ _ _ _ (fun _ => ?_) (fun _ => ensures_pure _ _ _ (forward_refl p))
      refine ensures_bind _ _ _ _ (ensures_set_i _ _ _ ?_)
      refine ensures_mono _ _ _ _
        (ensures_single_line_loop fuel { p with i := p.i + 1 } ?_ ?_) ?_
      · show 1 ≤ fuel
        omega
      · show p.str.length + 1 ≤ fuel + (p.i + 1)
        omega
      · intro _ q hq
        exact forward_trans p { p with i := p.i + 1 } q
          ⟨rfl, rfl, Nat.le_succ _, fun _ => hlt⟩ hq
    · omega

theorem size_t_sub_two (n : Nat) (h2 : 2 ≤ n) (hn : n < 2 ^ 64) : size_t_sub n 2 = n - 2 := by
  unfold size_t_sub
  omega

theorem ensures_multi_line_loop :
    ∀ fuel p, p.str.length + 1 ≤ fuel + p.i → p.str.length < 2 ^ 64 → p.i + 2 ≤ p.str.length →
      Ensures (multi_line_loop fuel) p
        (fun closed q => Forward p q ∧ (closed = true → q.i + 2 ≤ p.str.length))
  | 0, p, h1, _, h3 => absurd h1 (by omega)
  | fuel + 1, p, h1, hlen, h3 => by
    have hne : p.i ≠ p.str.length := by omega
    have hstep : Forward p { p with i := p.i + 1 } :=
      ⟨rfl, rfl, Nat.le_succ _, fun _ => by show p.i + 1 ≤ p.str.length; omega⟩
    have hrest : ∀ c c1 : Char, Ensures
        (if c = '*' ∧ c1 = '/' then pure true
          else do
            set_i (p.i + 1)
            if p.i + 1 > size_t_sub p.str.length 2 then
              fail "unexpected end of input inside mutil-line comment".toList false
            else multi_line_loop fuel) p
        (fun closed q => Forward p q ∧ (closed = true → q.i + 2 ≤ p.str.length)) := by
      intro c c1
      refine ensures_ite _ _ _ _ _ (fun _ => ensures_pure _ _ _ ⟨forward_refl _, fun _ => h3⟩)
        (fun _ => ?_)
      refine ensures_bind _ _ _ _ (ensures_set_i _ _ _ ?_)
      refine ensures_ite _ _ _ _ _ (fun _ => ?_) (fun hle => ?_)
      · exact ensures_fail _ _ _ _ ⟨⟨rfl, rfl, Nat.le_succ _, fun _ => by
          show p.i + 1 ≤ p.str.length; omega⟩, fun h => by cases h⟩
      · rw [size_t_sub_two _ (by omega) hlen] at hle
        refine ensures_mono _ _ _ _
          (ensures_multi_line_loop fuel { p with i := p.i + 1 } ?_ hlen ?_) ?_
        · show p.str.length + 1 ≤ fuel + (p.i + 1)
          omega
        · show p.i + 1 + 2 ≤ p.str.length
          omega
        · intro closed r hr
          exact ⟨forward_trans p { p with i := p.i + 1 } r hstep hr.1, hr.2⟩
    unfold multi_line_loop
    refine ensures_bind _ _ _ _ (ensures_state _ _ ?_)
    refine ensures_bind _ _ _ _ (ensures_str_at _ _ _ (fun _ => ?_) (fun heq => absurd heq hne))
    dsimp only
    refine ensures_ite _ _ _ _ _ (fun _ => ?_) (fun _ => ?_)
    · exact ensures_bind _ _ _ _
        (ensures_str_at _ _ _ (fun _ => hrest _ _) (fun _ => hrest _ _))
    · exact ensures_bind _ _ _ _ (ensures_pure _ _ _ (hrest _ _))

/-- The member `consume_comment()` never exhausts the budget of its loops;
it only moves the cursor forward, and when it reports a comment the cursor
has moved by at least two and is still inside the input. -/
theorem ensures_consume_comment (p : JsonParser) (hlen : p.str.length < 2 ^ 64) :
    Ensures consume_comment p
      (fun found q => Forward p q ∧ (found = true → p.i + 2 ≤ q.i ∧ q.i ≤ p.str.length)) := by
  unfold consume_comment
  refine ensures_bind _ _ _ _ (ensures_state _ _ ?_)
  refine ensures_bind _ _ _ _ (ensures_str_at _ _ _ (fun hlt => ?_) (fun heq => ?_))
  case refine_2 =>
    rw [if_neg (by decide)]
    exact ensures_pure _ _ _ ⟨forward_refl p, fun h => by cases h⟩
  refine ensures_ite _ _ _ _ _ (fun _ => ?_)
    (fun _ => ensures_pure _ _ _ ⟨forward_refl p, fun h => by cases h⟩)
  refine ensures_bind _ _ _ _ (ensures_set_i _ _ _ ?_)
  refine ensures_ite _ _ _ _ _ (fun _ => ?_) (fun hne => ?_)
  · exact ensures_fail _ _ _ _
      ⟨⟨rfl, rfl, Nat.le_succ _, fun _ => hlt⟩, fun h => by cases h⟩
  have hlt2 : p.i + 1 < p.str.length := by omega
  refine ensures_bind _ _ _ _ (ensures_str_at _ _ _ (fun _ => ?_) (fun heq => absurd heq hne))
  refine ensures_ite _ _ _ _ _ (fun _ => ?_) (fun _ => ?_)
  · refine ensures_bind _ _ _ _ (ensures_set_i _ _ _ ?_)
    refine ensures_bind_of _ _ _ _ _
      (ensures_single_line_loop (p.str.length + 1) { p with i := p.i + 2 }
        (Nat.succ_pos _) (Nat.le_add_right _ _)) ?_
    intro _ q hq
    obtain ⟨hs, ht, hi, hb⟩ := hq
    refine ensures_pure _ _ _ ⟨⟨hs, ht, ?_, fun _ => hb hlt2⟩, fun _ => ⟨hi, hb hlt2⟩⟩
    exact Nat.le_trans (Nat.le_add_right _ 2) hi
  refine ensures_ite _ _ _ _ _ (fun _ => ?_) (fun _ => ?_)
  · refine ensures_bind _ _ _ _ (ensures_set_i _ _ _ ?_)
    refine ensures_ite _ _ _ _ _ (fun _ => ?_) (fun hle => ?_)
    · exact ensures_fail _ _ _ _
        ⟨⟨rfl, rfl, Nat.le_add_right _ 2, fun _ => hlt2⟩, fun h => by cases h⟩
    rw [size_t_sub_two _ (by omega) hlen] at hle
    refine ensures_bind_of _ _ _ _ _
      (ensures_multi_line_loop (p.str.length + 1) { p with i := p.i + 2 }
        (Nat.le_add_right _ _) hlen (by show p.i + 2 + 2 ≤ p.str.length; omega)) ?_
    intro closed q hq
    obtain ⟨⟨hs, ht, hi, hb⟩, hc⟩ := hq
    have hi2 : p.i + 2 ≤ q.i := hi
    refine ensures_ite _ _ _ _ _ (fun hcl => ?_) (fun _ => ?_)
    · refine ensures_bind _ _ _ _ (ensures_state _ _ ?_)
      refine ensures_bind _ _ _ _ (ensures_set_i _ _ _ ?_)
      have hq2 : q.i + 2 ≤ p.str.length := hc hcl
      refine ensures_pure _ _ _ ⟨⟨hs, ht, ?_, fun _ => hq2⟩, fun _ => ⟨?_, hq2⟩⟩
      · show p.i ≤ q.i + 2
        omega
      · show p.i + 2 ≤ q.i + 2
        omega
    · refine ensures_pure _ _ _ ⟨⟨hs, ht, ?_, fun _ => hb hlt2⟩, fun h => by cases h⟩
      omega
  · exact ensures_fail _ _ _ _
      ⟨⟨rfl, rfl, Nat.le_succ _, fun _ => hlt⟩, fun h => by cases h⟩

theorem ensures_consume_garbage_loop :
    ∀ fuel p, 1 ≤ fuel → p.str.length + 1 ≤ fuel + p.i → p.str.length < 2 ^ 64 →
      Ensures (consume_garbage_loop fuel) p (fun _ q => Forward p q)
  | 0, p, h, _, _ => absurd h (by decide)
  | fuel + 1, p, _, h2, hlen => by
    unfold consume_garbage_loop
    refine ensures_bind_of _ _ _ _ _ (ensures_consume_comment p hlen) ?_
    intro found q1 hq1
    obtain ⟨hf1, hfound⟩ := hq1
    refine ensures_bind _ _ _ _ (ensures_state _ _ ?_)
    refine ensures_ite _ _ _ _ _ (fun _ => ensures_pure _ _ _ hf1) (fun _ => ?_)
    refine ensures_bind_of _ _ _ _ _ (ensures_consume_whitespace q1) ?_
    intro _ q2 hq2
    have hf2 : Forward p q2 := forward_trans p q1 q2 hf1 hq2
    refine ensures_ite _ _ _ _ _ (fun hfd => ?_) (fun _ => ensures_pure _ _ _ hf2)
    obtain ⟨h12, h1len⟩ := hfound hfd
    obtain ⟨hs1, _, _, _⟩ := hf1
    obtain ⟨hs2, _, hi2, hb2⟩ := hq2
    have hq2len : q2.i ≤ p.str.length := by
      rw [hs1] at hb2
      exact hb2 h1len
    have hstr : q2.str = p.str := by rw [hs2, hs1]
    refine ensures_mono _ _ _ _ (ensures_consume_garbage_loop fuel q2 ?_ ?_ ?_) ?_
    · omega
    · rw [hstr]; omega
    · rw [hstr]; exact hlen
    · intro _ r hr
      exact forward_trans p q2 r hf2 hr

/-- The member `consume_garbage()` never exhausts the budget of its loops,
and it only moves the cursor forward, never past the end of the input. -/
theorem ensures_consume_garbage (p : JsonParser) (hlen : p.str.length < 2 ^ 64) :
    Ensures consume_garbage p (fun _ q => Forward p q) := by
  unfold consume_garbage
  refine ensures_bind_of _ _ _ _ _ (ensures_consume_whitespace p) ?_
  intro _ q hq
  refine ensures_bind _ _ _ _ (ensures_state _ _ ?_)
  refine ensures_ite _ _ _ _ _ (fun _ => ?_) (fun _ => ensures_pure _ _ _ hq)
  have hstr : q.str = p.str := hq.1
  refine ensures_mono _ _ _ _
    (ensures_consume_garbage_loop _ q (Nat.succ_pos _) (Nat.le_add_right _ _) ?_) ?_
  · rw [hstr]; exact hlen
  · intro _ r hr
    exact forward_trans p q r hq hr

/-- The member `get_next_token()` never exhausts the budget of the loops
below it, and the cursor it leaves is the one `consume_garbage` reached. -/
theorem ensures_get_next_token (p : JsonParser) (hlen : p.str.length < 2 ^ 64) :
    Ensures get_next_token p (fun _ q => Forward p q) := by
  unfold get_next_token
  refine ensures_bind_of _ _ _ _ _ (ensures_consume_garbage p hlen) ?_
  intro _ q hq
  refine ensures_bind _ _ _ _ (ensures_state _ _ ?_)
  refine ensures_ite _ _ _ _ _ (fun _ => ensures_pure _ _ _ hq) (fun _ => ?_)
  refine ensures_ite _ _ _ _ _ (fun _ => ?_) (fun _ => ?_)
  · exact ensures_fail _ _ _ _ hq
  · exact ensures_str_at _ _ _ (fun _ => hq) (fun _ => hq)

theorem ensures_parse_string_loop :
    ∀ fuel p out last, 1 ≤ fuel → p.str.length + 1 ≤ fuel + p.i →
      Ensures (parse_string_loop fuel out last) p (fun _ q => Forward p q)
  | 0, p, _, _, h, _ => absurd h (by decide)
  | fuel + 1, p, out, last, _, h2 => by
    have hrec : ∀ n out last, p.i + 1 ≤ n → n ≤ p.str.length →
        Ensures (parse_string_loop fuel out last) { p with i := n } (fun _ q => Forward p q) := by
      intro n out last h1 hn
      refine ensures_mono _ _ _ _
        (ensures_parse_string_loop fuel { p with i := n } out last ?_ ?_) ?_
      · omega
      · show p.str.length + 1 ≤ fuel + n
        omega
      · intro _ q hq
        exact forward_trans p { p with i := n } q
          ⟨rfl, rfl, Nat.le_trans (Nat.le_succ _) h1, fun _ => hn⟩ hq
    unfold parse_string_loop
    with_reducible repeat' first
      | exact hrec _ _ _ (by omega)
          (by first | omega | (simp only [List.length_take, List.length_drop] at *; omega))
      | exact ensures_pure _ _ _
          (forward_of _ _ rfl rfl (by dsimp only; omega) (by dsimp only; omega))
      | exact ensures_fail _ _ _ _
          (forward_of _ _ rfl rfl (by dsimp only; omega) (by dsimp only; omega))
      | refine ensures_bind _ _ _ _ (ensures_state _ _ ?_)
      | refine ensures_bind _ _ _ _ (ensures_set_i _ _ _ ?_)
      | refine ensures_bind _ _ _ _ (ensures_str_at _ _ _ (fun _ => ?_) (fun _ => ?_))
      | refine ensures_bind _ _ _ _ (ensures_substr _ _ _ _ (fun _ => ?_))
      | refine ensures_ite _ _ _ _ _ (fun _ => ?_) (fun _ => ?_)

/-- The member `parse_string()` never exhausts the budget of its loop, and it
only moves the cursor forward, never past the end of the input. -/
theorem ensures_parse_string (p : JsonParser) :
    Ensures parse_string p (fun _ q => Forward p q) := by
  unfold parse_string
  refine ensures_bind _ _ _ _ (ensures_state _ _ ?_)
  exact ensures_parse_string_loop _ p _ _ (Nat.succ_pos _) (Nat.le_add_right _ _)

theorem ensures_digits_loop :
    ∀ fuel p, 1 ≤ fuel → p.str.length + 1 ≤ fuel + p.i →
      Ensures (digits_loop fuel) p (fun _ _ => True)
  | 0, p, h, _ => absurd h (by decide)
  | fuel + 1, p, _, h2 => by
    unfold digits_loop
    refine ensures_bind _ _ _ _ (ensures_state _ _ ?_)
    refine ensures_bind _ _ _ _ (ensures_str_at _ _ _ (fun hlt => ?_) (fun heq => ?_))
    · refine ensures_ite _ _ _ _ _ (fun _ => ?_) (fun _ => ensures_pure _ _ _ trivial)
      refine ensures_bind _ _ _ _ (ensures_set_i _ _ _ ?_)
      refine ensures_digits_loop fuel { p with i := p.i + 1 } ?_ ?_
      · show 1 ≤ fuel
        omega
      · show p.str.length + 1 ≤ fuel + (p.i + 1)
        omega
    · rw [if_neg (by decide)]
      exact ensures_pure _ _ _ trivial

theorem ensures_parse_number_exponent {D : Type} (F : DoubleOps D) (start_pos : Nat)
    (p : JsonParser) : Ensures (parse_number_exponent F start_pos) p (fun _ _ => True) := by
  unfold parse_number_exponent
  with_reducible repeat' first
    | exact ensures_pure _ _ _ trivial
    | exact ensures_fail _ _ _ _ trivial
    | exact ensures_stop _ _ _ (by decide)
    | refine ensures_bind _ _ _ _ (ensures_state _ _ ?_)
    | refine ensures_bind _ _ _ _ (ensures_set_i _ _ _ ?_)
    | refine ensures_bind _ _ _ _ (ensures_str_at _ _ _ (fun _ => ?_) (fun _ => ?_))
    | refine ensures_bind _ _ _ _ (ensures_substr _ _ _ _ (fun _ => ?_))
    | refine ensures_bind_of _ _ _ _ _ (ensures_digits_loop _ _ (by first | omega | (dsimp only; omega))
        (by first | omega | (dsimp only; omega))) (fun _ _ _ => ?_)
    | refine ensures_ite _ _ _ _ _ (fun _ => ?_) (fun _ => ?_)
    | refine ensures_bind _ _ _ _ (ensures_pure _ _ _ ?_)
    | dsimp only

theorem ensures_parse_number_fraction {D : Type} (F : DoubleOps D) (start_pos : Nat)
    (p : JsonParser) : Ensures (parse_number_fraction F start_pos) p (fun _ _ => True) := by
  unfold parse_number_fraction
  with_reducible repeat' first
    | exact ensures_parse_number_exponent F _ _
    | exact ensures_pure _ _ _ trivial
    | exact ensures_fail _ _ _ _ trivial
    | exact ensures_stop _ _ _ (by decide)
    | refine ensures_bind _ _ _ _ (ensures_state _ _ ?_)
    | refine ensures_bind _ _ _ _ (ensures_set_i _ _ _ ?_)
    | refine ensures_bind _ _ _ _ (ensures_str_at _ _ _ (fun _ => ?_) (fun _ => ?_))
    | refine ensures_bind _ _ _ _ (ensures_substr _ _ _ _ (fun _ => ?_))
    | refine ensures_bind_of _ _ _ _ _ (ensures_digits_loop _ _ (by first | omega | (dsimp only; omega))
        (by first | omega | (dsimp only; omega))) (fun _ _ _ => ?_)
    | refine ensures_ite _ _ _ _ _ (fun _ => ?_) (fun _ => ?_)
    | refine ensures_bind _ _ _ _ (ensures_pure _ _ _ ?_)
    | dsimp only

theorem ensures_parse_number_integer {D : Type} (F : DoubleOps D) (start_pos : Nat)
    (p : JsonParser) : Ensures (parse_number_integer F start_pos) p (fun _ _ => True) := by
  unfold parse_number_integer
  with_reducible repeat' first
    | exact ensures_parse_number_fraction F _ _
    | exact ensures_pure _ _ _ trivial
    | exact ensures_fail _ _ _ _ trivial
    | exact ensures_stop _ _ _ (by decide)
    | refine ensures_bind _ _ _ _ (ensures_state _ _ ?_)
    | refine ensures_bind _ _ _ _ (ensures_set_i _ _ _ ?_)
    | refine ensures_bind _ _ _ _ (ensures_str_at _ _ _ (fun _ => ?_) (fun _ => ?_))
    | refine ensures_bind _ _ _ _ (ensures_substr _ _ _ _ (fun _ => ?_))
    | refine ensures_bind_of _ _ _ _ _ (ensures_digits_loop _ _ (by first | omega | (dsimp only; omega))
        (by first | omega | (dsimp only; omega))) (fun _ _ _ => ?_)
    | refine ensures_ite _ _ _ _ _ (fun _ => ?_) (fun _ => ?_)
    | refine ensures_bind _ _ _ _ (ensures_pure _ _ _ ?_)
    | dsimp only

/-- The member `parse_number()` never exhausts the budget of its loops. -/
theorem ensures_parse_number {D : Type} (F : DoubleOps D) (p : JsonParser) :
    Ensures (parse_number F) p (fun _ _ => True) := by
  unfold parse_number
  with_reducible repeat' first
    | exact ensures_parse_number_integer F _ _
    | exact ensures_pure _ _ _ trivial
    | exact ensures_fail _ _ _ _ trivial
    | exact ensures_stop _ _ _ (by decide)
    | refine ensures_bind _ _ _ _ (ensures_state _ _ ?_)
    | refine ensures_bind _ _ _ _ (ensures_set_i _ _ _ ?_)
    | refine ensures_bind _ _ _ _ (ensures_str_at _ _ _ (fun _ => ?_) (fun _ => ?_))
    | refine ensures_bind _ _ _ _ (ensures_substr _ _ _ _ (fun _ => ?_))
    | refine ensures_bind_of _ _ _ _ _ (ensures_digits_loop _ _ (by first | omega | (dsimp only; omega))
        (by first | omega | (dsimp only; omega))) (fun _ _ _ => ?_)
    | refine ensures_ite _ _ _ _ _ (fun _ => ?_) (fun _ => ?_)
    | refine ensures_bind _ _ _ _ (ensures_pure _ _ _ ?_)
    | dsimp only

/-- The member `expect()` has no loop: it returns or trips its assertion. -/
theorem ensures_expect {D : Type} (expected : string) (res : Json D) (p : JsonParser) :
    Ensures (expect expected res) p (fun _ _ => True) := by
  unfold expect
  with_reducible repeat' first
    | exact ensures_pure _ _ _ trivial
    | exact ensures_fail _ _ _ _ trivial
    | exact ensures_stop _ _ _ (by decide)
    | refine ensures_bind _ _ _ _ (ensures_state _ _ ?_)
    | refine ensures_bind _ _ _ _ (ensures_set_i _ _ _ ?_)
    | refine ensures_bind _ _ _ _ (ensures_str_at _ _ _ (fun _ => ?_) (fun _ => ?_))
    | refine ensures_bind _ _ _ _ (ensures_substr _ _ _ _ (fun _ => ?_))
    | refine ensures_bind_of _ _ _ _ _ (ensures_digits_loop _ _ (by first | omega | (dsimp only; omega))
        (by first | omega | (dsimp only; omega))) (fun _ _ _ => ?_)
    | refine ensures_ite _ _ _ _ _ (fun _ => ?_) (fun _ => ?_)
    | refine ensures_bind _ _ _ _ (ensures_pure _ _ _ ?_)
    | dsimp only

end ensures

/-! ## Theorems: a larger step budget does not change a result -/

section extends_budget

open Parser

set_option linter.unusedTactic false
set_option linter.unreachableTactic false

theorem extends_refl {α : Type} (m : Parser α) : Extends m m :=
  fun _ _ => rfl

theorem extends_bind {α β : Type} {m1 m2 : Parser α} {f1 f2 : α → Parser β}
    (hm : Extends m1 m2) (hf : ∀ a, Extends (f1 a) (f2 a)) :
    Extends (m1 >>= f1) (m2 >>= f2) := by
  intro p h
  have h1 : (m1 >>= f1) p = seq m1 f1 p := rfl
  have h2 : (m2 >>= f2) p = seq m2 f2 p := rfl
  rw [h1] at h ⊢
  rw [h2]
  unfold seq at h ⊢
  cases hm1 : m1 p with
  | error e =>
    rw [hm1] at h
    have he : e ≠ Fault.out_of_fuel := fun he => h (by rw [he])
    have := hm p (by rw [hm1]; intro hc; cases hc; exact he rfl)
    rw [this, hm1]
  | ok r =>
    obtain ⟨a, q⟩ := r
    rw [hm1] at h
    have := hm p (by rw [hm1]; intro hc; cases hc)
    rw [this, hm1]
    exact hf a q h

theorem extends_ite {α : Type} {c : Prop} [Decidable c] {a1 a2 b1 b2 : Parser α}
    (ha : Extends a1 a2) (hb : Extends b1 b2) :
    Extends (if c then a1 else b1) (if c then a2 else b2) := by
  by_cases h : c
  · rw [if_pos h, if_pos h]; exact ha
  · rw [if_neg h, if_neg h]; exact hb

theorem extends_parse_json_all {D : Type} (F : DoubleOps D) :
    ∀ fuel, (∀ depth, Extends (parse_json F fuel depth) (parse_json F (fuel + 1) depth))
      ∧ (∀ depth data ch, Extends (parse_json_object F fuel depth data ch)
          (parse_json_object F (fuel + 1) depth data ch))
      ∧ (∀ depth data, Extends (parse_json_array F fuel depth data)
          (parse_json_array F (fuel + 1) depth data))
  | 0 => by
    refine ⟨?_, ?_, ?_⟩
    · intro depth p h
      exact absurd (by unfold parse_json; rfl) h
    · intro depth data ch p h
      exact absurd (by unfold parse_json_object; rfl) h
    · intro depth data p h
      exact absurd (by unfold parse_json_array; rfl) h
  | fuel + 1 => by
    have ih := extends_parse_json_all F fuel
    refine ⟨?_, ?_, ?_⟩
    · intro depth
      rw [parse_json, parse_json]
      with_reducible repeat' first
      | exact extends_refl _
      | exact ih.1 _
      | exact ih.2.1 _ _ _
      | exact ih.2.2 _ _
      | refine extends_bind ?_ (fun _ => ?_)
      | refine extends_ite ?_ ?_
    · intro depth data ch
      rw [parse_json_object, parse_json_object]
      with_reducible repeat' first
      | exact extends_refl _
      | exact ih.1 _
      | exact ih.2.1 _ _ _
      | exact ih.2.2 _ _
      | refine extends_bind ?_ (fun _ => ?_)
      | refine extends_ite ?_ ?_
    · intro depth data
      rw [parse_json_array, parse_json_array]
      with_reducible repeat' first
      | exact extends_refl _
      | exact ih.1 _
      | exact ih.2.1 _ _ _
      | exact ih.2.2 _ _
      | refine extends_bind ?_ (fun _ => ?_)
      | refine extends_ite ?_ ?_
/-- A run of `parse_json` that stays within its step budget gives the same
result under every larger budget. -/
theorem parse_json_budget_mono {D : Type} (F : DoubleOps D) (fuel depth : Nat) (p : JsonParser)
    (h : parse_json F fuel depth p ≠ Except.error Fault.out_of_fuel) :
    ∀ more, parse_json F (fuel + more) depth p = parse_json F fuel depth p
  | 0 => rfl
  | more + 1 => by
    have ih := parse_json_budget_mono F fuel depth p h more
    have := (extends_parse_json_all F (fuel + more)).1 depth p (by rw [ih]; exact h)
    rw [← ih, ← this]
    rfl

/-- A run of `Json::parse` that stays within its step budget gives the same
result under every larger budget. -/
theorem parse_budget_mono {D : Type} (F : DoubleOps D) (fuel : Nat) (input err : string)
    (strategy : JsonParse)
    (h : Json.parse F fuel input err strategy ≠ Except.error Fault.out_of_fuel) (more : Nat) :
    Json.parse F (fuel + more) input err strategy = Json.parse F fuel input err strategy := by
  unfold Json.parse at h ⊢
  have key : Extends
      (parse_json F fuel 0 >>= fun result => do
        consume_garbage
        let p ← state
        if p.failed then pure Json.null
        else if p.i ≠ input.length then do
          let c ← str_at p.i
          fail ("unexpected trailing".toList ++ esc c) Json.null
        else pure result)
      (parse_json F (fuel + more) 0 >>= fun result => do
        consume_garbage
        let p ← state
        if p.failed then pure Json.null
        else if p.i ≠ input.length then do
          let c ← str_at p.i
          fail ("unexpected trailing".toList ++ esc c) Json.null
        else pure result) := by
    refine extends_bind ?_ (fun _ => extends_refl _)
    intro p hp
    exact parse_json_budget_mono F fuel 0 p hp more
  exact key _ h

end extends_budget

/-! ## Theorems: the ordered map of an object -/

section ordered_map

/-- No string is less than itself. -/
theorem string_lt_irrefl : ∀ s : string, string_lt s s = false
  | [] => rfl
  | a :: as => by
    simp only [string_lt, Nat.lt_irrefl, if_false]
    exact string_lt_irrefl as

/-- Two strings neither of which is less than the other are the same
string. -/
theorem string_eq_of_not_lt : ∀ s t : string,
    string_lt s t = false → string_lt t s = false → s = t
  | [], [], _, _ => rfl
  | [], _ :: _, h, _ => by simp [string_lt] at h
  | _ :: _, [], _, h => by simp [string_lt] at h
  | a :: as, b :: bs, h1, h2 => by
    simp only [string_lt] at h1 h2
    by_cases hab : a.toNat < b.toNat
    · simp [hab] at h1
    · by_cases hba : b.toNat < a.toNat
      · simp [hba] at h2
      · simp only [hab, hba, if_false] at h1 h2
        have hn : a.toNat = b.toNat := by omega
        have hc : a = b := Char.eq_of_val_eq (UInt32.eq_of_val_eq (Fin.eq_of_val_eq hn))
        rw [hc, string_eq_of_not_lt as bs h1 h2]

/-- After `data[key] = value`, `find(key)` yields `value`, whatever the map
held before. -/
theorem map_find_map_assign {α : Type} (m : List (string × α)) (key : string) (value : α) :
    map_find (map_assign m key value) key = some value := by
  induction m with
  | nil => simp [map_assign, map_find]
  | cons e rest ih =>
    obtain ⟨k, v⟩ := e
    simp only [map_assign]
    by_cases h1 : string_lt key k = true
    · simp [h1, map_find]
    · by_cases h2 : string_lt k key = true
      · have hk : k ≠ key := by
          intro hk
          rw [hk, string_lt_irrefl] at h2
          cases h2
        simp only [h1, h2, if_true, map_find, hk]
        simpa using ih
      · have hk : k = key :=
          string_eq_of_not_lt k key (by simpa using h2) (by simpa using h1)
        subst hk
        simp [string_lt_irrefl, map_find]

end ordered_map

/-! ## Theorems: parsing concrete texts -/

namespace Json

variable {D : Type}

/-- C1 (what the code does instead). The round trip fails on the Bool value
true: its dump is `true`, and parsing that text fails with the message
`expected value, got 'r` and returns Null. The string serializer, too, loses
data: the String `a` dumps as a quoted `\t`. -/
theorem round_trip_fails (F : DoubleOps D) (fuel : Nat) (err : string) :
    dump_new F (of_bool true) = "true".toList
    ∧ parse F (fuel + 1) (dump_new F (of_bool true)) err JsonParse.STANDARD
      = Except.ok (JsonNull, JsonParser.mk "true".toList 0
          "expected value, got 'r".toList true JsonParse.STANDARD)
    ∧ dump_new F (of_string "a".toList) = "\"\\t\"".toList :=
  ⟨rfl, rfl, rfl⟩

/-- C8 (what the code does instead). Each of the three literals, parsed as the
whole input, fails: `get_next_token` hands `parse_json` the second character
(`r`, `a`, `u`), which starts no value, so `expect` is never reached. -/
theorem literals_fail (F : DoubleOps D) (fuel : Nat) (err : string) :
    parse F (fuel + 1) "true".toList err JsonParse.STANDARD
      = Except.ok (JsonNull, JsonParser.mk "true".toList 0
          "expected value, got 'r".toList true JsonParse.STANDARD)
    ∧ parse F (fuel + 1) "false".toList err JsonParse.STANDARD
      = Except.ok (JsonNull, JsonParser.mk "false".toList 0
          "expected value, got 'a".toList true JsonParse.STANDARD)
    ∧ parse F (fuel + 1) "null".toList err JsonParse.STANDARD
      = Except.ok (JsonNull, JsonParser.mk "null".toList 0
          "expected value, got 'u".toList true JsonParse.STANDARD) :=
  ⟨rfl, rfl, rfl⟩

set_option maxRecDepth 4000 in
/-- C9 (what the code does instead). On 200 opening and 200 closing brackets,
and on 201 of each, the parser leaves the cursor at 0, sees `[` as the second
character, executes `i--` on a zero `size_t` and then reads `str[i]` far
beyond the end of the input: the run leaves defined behaviour before any
depth is counted. -/
theorem nested_brackets_read_out_of_range (F : DoubleOps D) (fuel : Nat) :
    parse F (fuel + 3) (List.replicate 200 '[' ++ List.replicate 200 ']') []
        JsonParse.STANDARD = Except.error Fault.out_of_range
    ∧ parse F (fuel + 3) (List.replicate 201 '[' ++ List.replicate 201 ']') []
        JsonParse.STANDARD = Except.error Fault.out_of_range :=
  ⟨rfl, rfl⟩

/-- C10 (what the code does instead). Under COMMENTS the commented object text
fails with `expected value, got ' ` and the plain object text fails with
`unexpected trailing'a`; both return Null. Under STANDARD the commented text
fails as well. -/
theorem comment_example_fails (F : DoubleOps D) (fuel : Nat) (err : string) :
    parse F (fuel + 1) "\x7b // c\n \"a\":1 /* c */ \x7d".toList err JsonParse.COMMENTS
      = Except.ok (JsonNull, JsonParser.mk "\x7b // c\n \"a\":1 /* c */ \x7d".toList 0
          "expected value, got ' ".toList true JsonParse.COMMENTS)
    ∧ parse F (fuel + 1) "\x7b\"a\":1\x7d".toList err JsonParse.COMMENTS
      = Except.ok (JsonNull, JsonParser.mk "\x7b\"a\":1\x7d".toList 2
          "unexpected trailing'a".toList true JsonParse.COMMENTS)
    ∧ parse F (fuel + 1) "\x7b // c\n \"a\":1 /* c */ \x7d".toList err JsonParse.STANDARD
      = Except.ok (JsonNull, JsonParser.mk "\x7b // c\n \"a\":1 /* c */ \x7d".toList 0
          "expected value, got ' ".toList true JsonParse.STANDARD) :=
  ⟨rfl, rfl, rfl⟩

/-- C11 (what the code does instead). The object text with the key `a` twice
does not parse: `get_next_token` hands `parse_json` the second character, a
double quote, so the string grammar starts on the brace, stops at the first
quote with the cursor at 2, and `parse` reports `unexpected trailing'a` and
returns Null. The assignment `data[key] = value` of the object grammar, taken
by itself, does let the last value win. -/
theorem duplicate_keys_example_fails (F : DoubleOps D) (fuel : Nat) (err : string) :
    parse F (fuel + 1) "\x7b\"a\":1,\"a\":2\x7d".toList err JsonParse.STANDARD
      = Except.ok (JsonNull, JsonParser.mk "\x7b\"a\":1,\"a\":2\x7d".toList 2
          "unexpected trailing'a".toList true JsonParse.STANDARD)
    ∧ ∀ (m : List (string × Json D)) (key : string) (v1 v2 : Json D),
        map_find (map_assign (map_assign m key v1) key v2) key = some v2 :=
  ⟨rfl, fun m key v1 v2 => map_find_map_assign (map_assign m key v1) key v2⟩

/-- C12 (what the code does instead). The text `1 2` fails, and Null is
returned, but not with the trailing-data message: `get_next_token` hands
`parse_json` the second character, a blank, and the message is
`expected value, got ' `; the check for trailing data is never reached. -/
theorem trailing_data_example_fails_early (F : DoubleOps D) (fuel : Nat) (err : string) :
    parse F (fuel + 1) "1 2".toList err JsonParse.STANDARD
      = Except.ok (JsonNull, JsonParser.mk "1 2".toList 0
          "expected value, got ' ".toList true JsonParse.STANDARD)
    ∧ ¬ ("unexpected trailing".toList <+: "expected value, got ' ".toList) :=
  ⟨rfl, by decide⟩

/-- C13 (what the code does instead). On the text `1 2`, `parse_multi` returns
the one-element list holding Null, sets the message `expected value, got ' `
and leaves the stop offset at 0. -/
theorem parse_multi_example_fails (F : DoubleOps D) (fuel : Nat) (err : string) :
    parse_multi F (fuel + 2) "1 2".toList err JsonParse.STANDARD
      = Except.ok (([JsonNull], 0), JsonParser.mk "1 2".toList 0
          "expected value, got ' ".toList true JsonParse.STANDARD) :=
  rfl

/-- C15 (what the code does instead). The String `abc` dumps as three `\t`
escapes between quotes: the test of line 86 is the constant `'\t'`, which is
true for every byte that reaches it. -/
theorem string_pass_through_fails (F : DoubleOps D) :
    dump_new F (of_string "abc".toList) = "\"\\t\\t\\t\"".toList
    ∧ dump_new F (of_string "abc".toList) ≠ "\"abc\"".toList :=
  ⟨rfl, fun h =>
    absurd (show "\"\\t\\t\\t\"".toList = "\"abc\"".toList from h) (by decide)⟩

/-- C17 (what the code does instead). The byte triples E2 80 A8 and E2 80 A9
dump as three `\t` escapes between quotes: the branches for the two separators
come after the constant test of line 86 and are never reached. -/
theorem separators_are_not_escaped (F : DoubleOps D) :
    dump_new F (of_string [Char.ofNat 0xe2, Char.ofNat 0x80, Char.ofNat 0xa8])
      = "\"\\t\\t\\t\"".toList
    ∧ dump_new F (of_string [Char.ofNat 0xe2, Char.ofNat 0x80, Char.ofNat 0xa9])
      = "\"\\t\\t\\t\"".toList :=
  ⟨rfl, rfl⟩

end Json

/-! ## Theorems: the shape check -/

namespace Json

variable {D : Type}

/-- The loop of `has_shape` returns true exactly when every pair is found with
its tag; it then leaves `err` alone, and otherwise sets `err` to a non-empty
text followed by the dump of the value. -/
theorem has_shape_loop_spec (F : DoubleOps D) (v : Json D)
    (obj_items : List (string × Json D)) (err : string) :
    ∀ types : List (string × JsonType),
      ((has_shape_loop F v obj_items types err).1 = true
        ↔ ∀ item ∈ types, ∃ x, map_find obj_items item.1 = some x ∧ x.type = item.2)
      ∧ ((has_shape_loop F v obj_items types err).1 = true
        → (has_shape_loop F v obj_items types err).2 = err)
      ∧ ((has_shape_loop F v obj_items types err).1 = false
        → ∃ msg, msg ≠ [] ∧ (has_shape_loop F v obj_items types err).2 = msg ++ dump_new F v)
  | [] => by
    simp only [has_shape_loop]
    exact ⟨⟨(fun _ _ h => nomatch h), fun _ => trivial⟩, fun _ => trivial, (fun h => nomatch h)⟩
  | item :: rest => by
    have ih := has_shape_loop_spec F v obj_items err rest
    cases hf : map_find obj_items item.1 with
    | none =>
      simp only [has_shape_loop, hf]
      refine ⟨⟨(fun h => nomatch h), fun h => ?_⟩, (fun h => nomatch h), fun _ =>
        ⟨"bad type for ".toList ++ item.1 ++ " in ".toList,
          append_ne_nil (append_ne_nil (by decide)), rfl⟩⟩
      obtain ⟨x, hx, _⟩ := h item (List.mem_cons_self _ _)
      rw [hf] at hx
      cases hx
    | some found =>
      by_cases ht : found.type = item.2
      · simp only [has_shape_loop, hf, ht, ne_eq, not_true_eq_false, if_false]
        refine ⟨?_, ih.2.1, ih.2.2⟩
        rw [ih.1]
        constructor
        · intro h it hit
          rcases List.mem_cons.mp hit with h1 | h1
          · rw [h1]
            exact ⟨found, hf, ht⟩
          · exact h it h1
        · intro h it hit
          exact h it (List.mem_cons_of_mem _ hit)
      · simp only [has_shape_loop, hf, ht, ne_eq, not_false_eq_true, if_true]
        refine ⟨⟨(fun h => nomatch h), fun h => ?_⟩, (fun h => nomatch h), fun _ =>
          ⟨"bad type for ".toList ++ item.1 ++ " in ".toList,
            append_ne_nil (append_ne_nil (by decide)), rfl⟩⟩
        obtain ⟨x, hx, hxt⟩ := h item (List.mem_cons_self _ _)
        rw [hf] at hx
        cases hx
        exact absurd hxt ht

/-- C14. The call `has_shape(types, err)` returns true if and only if the value
is an Object and every pair `(name, tag)` of `types` names a key the object
holds, with a value of type `tag`. A call that returns true leaves `err` as it
was; a call that returns false sets `err` to a non-empty text that contains
the dump of the value. -/
theorem has_shape_iff (F : DoubleOps D) (v : Json D) (types : List (string × JsonType))
    (err : string) :
    ((has_shape F v types err).1 = true
      ↔ v.type = JsonType.OBJECT
        ∧ ∀ item ∈ types, ∃ x, map_find (object_items v) item.1 = some x ∧ x.type = item.2)
    ∧ ((has_shape F v types err).1 = true → (has_shape F v types err).2 = err)
    ∧ ((has_shape F v types err).1 = false
      → (has_shape F v types err).2 ≠ []
        ∧ dump_new F v <:+: (has_shape F v types err).2) := by
  have hloop := has_shape_loop_spec F v (object_items v) err types
  by_cases hv : v.type = JsonType.OBJECT
  · simp only [has_shape, hv, ne_eq, not_true_eq_false, if_false, true_and]
    refine ⟨hloop.1, hloop.2.1, fun h => ?_⟩
    obtain ⟨msg, hmsg, heq⟩ := hloop.2.2 h
    rw [heq]
    exact ⟨append_ne_nil hmsg, ⟨msg, [], by simp⟩⟩
  · simp only [has_shape, hv, ne_eq, not_false_eq_true, if_true, false_and, iff_false]
    refine ⟨(fun h => nomatch h), (fun h => nomatch h), fun _ => ⟨append_ne_nil (by decide), ?_⟩⟩
    exact ⟨"expected JSON object, got ".toList, [], by simp⟩

end Json

/-! ## Theorems: the serializer -/

section serializer

variable {D : Type}

/-- The loop of the string serializer appends, byte after byte, what
`dump_byte` gives. -/
theorem dump_string_loop_eq (value : string) :
    ∀ (fuel i : Nat) (out : string),
      dump_string_loop value fuel i out
        = out ++ ((value.drop i).take fuel).flatMap dump_byte
  | 0, i, out => by simp [dump_string_loop]
  | fuel + 1, i, out => by
    by_cases hi : i < value.length
    · have hd : value.drop i = value.getD i NUL :: value.drop (i + 1) := by
        rw [List.getD_eq_getElem value NUL hi]
        exact List.drop_eq_getElem_cons hi
      have htab : '\t' ≠ NUL := by decide
      rw [hd, List.take_succ_cons, List.flatMap_cons]
      unfold dump_string_loop
      simp only [hi, if_true, htab, ne_eq, not_false_eq_true]
      simp only [dump_string_loop_eq value fuel (i + 1), dump_byte]
      split_ifs <;> simp only [List.append_assoc]
    · have hd : value.drop i = [] := List.drop_eq_nil_of_le (Nat.le_of_not_lt hi)
      rw [hd]
      unfold dump_string_loop
      simp [hi]

/-- The string serializer writes a quote, what `dump_byte` gives for each
byte, and a quote. -/
theorem dump_string_eq (value out : string) :
    dump_string value out = out ++ ['"'] ++ value.flatMap dump_byte ++ ['"'] := by
  unfold dump_string
  rw [dump_string_loop_eq, List.drop_zero, List.take_length]

/-- C16. The dump of any String is wrapped in double quotes, and each
occurrence of one of the bytes backslash, double quote, backspace, form feed,
line feed, carriage return and tab is written as its two-character escape, at
its place between what is written for the bytes before it and for the bytes
after it. -/
theorem two_character_escapes (value out : string) :
    (∃ body, dump_string value out = out ++ ['"'] ++ body ++ ['"'])
    ∧ ∀ (pre post : string) (c : Char) (e : string),
        value = pre ++ c :: post → (c, e) ∈ two_character_escape →
        ∃ b1 b2, dump_string pre [] = ['"'] ++ b1 ++ ['"']
          ∧ dump_string post [] = ['"'] ++ b2 ++ ['"']
          ∧ dump_string value out = out ++ ['"'] ++ (b1 ++ e ++ b2) ++ ['"'] := by
  refine ⟨⟨_, dump_string_eq value out⟩, ?_⟩
  intro pre post c e hv he
  refine ⟨pre.flatMap dump_byte, post.flatMap dump_byte, ?_, ?_, ?_⟩
  · rw [dump_string_eq, List.nil_append]
  · rw [dump_string_eq, List.nil_append]
  · have hce : dump_byte c = e := by
      simp only [two_character_escape, List.mem_cons, Prod.mk.injEq, List.mem_nil_iff,
        or_false] at he
      rcases he with h | h | h | h | h | h | h <;> obtain ⟨h1, h2⟩ := h <;> subst h1 h2 <;> rfl
    rw [dump_string_eq, hv, List.flatMap_append, List.flatMap_cons, hce]
    simp only [List.append_assoc]

/-- C16 on the String `a`, line feed, `b`. -/
theorem two_character_escapes_witness :
    ∃ b1 b2, dump_string "a".toList [] = ['"'] ++ b1 ++ ['"']
      ∧ dump_string "b".toList [] = ['"'] ++ b2 ++ ['"']
      ∧ dump_string "a\nb".toList [] = [] ++ ['"'] ++ (b1 ++ "\\n".toList ++ b2) ++ ['"'] :=
  (two_character_escapes "a\nb".toList []).2 "a".toList "b".toList '\n' "\\n".toList rfl
    (by decide)

/-- Joining with a separator: the first text, then each further text behind
a separator. -/
theorem intercalate_cons {α : Type} (sep x : List α) (xs : List (List α)) :
    List.intercalate sep (x :: xs) = x ++ (xs.map (fun y => sep ++ y)).flatten := by
  induction xs generalizing x with
  | nil => simp [List.intercalate]
  | cons y ys ih =>
    have h := ih y
    simp only [List.intercalate, List.intersperse, List.flatten_cons, List.map_cons] at h ⊢
    rw [h]
    simp

mutual
/-- Every node appends its text to `out` and leaves what `out` held. -/
theorem Json.dump_append (F : DoubleOps D) :
    ∀ (v : Json D) (out : string), Json.dump F v out = out ++ Json.dump F v []
  | Json.JsonNull, out => by simp [Json.dump]
  | Json.JsonDouble x, out => by
    simp only [Json.dump, dump_double]
    split <;> simp
  | Json.JsonInt x, out => by simp [Json.dump, dump_int]
  | Json.JsonBoolean x, out => by simp [Json.dump, dump_bool]
  | Json.JsonString s, out => by simp [Json.dump, dump_string_eq]
  | Json.JsonArray xs, out => by
    simp only [Json.dump]
    rw [Json.dump_array_loop_append F xs true (out ++ "[".toList),
      Json.dump_array_loop_append F xs true ([] ++ "[".toList)]
    simp
  | Json.JsonObject m, out => by
    simp only [Json.dump]
    rw [Json.dump_object_loop_append F m true (out ++ "\x7b".toList),
      Json.dump_object_loop_append F m true ([] ++ "\x7b".toList)]
    simp
/-- The loop over the elements of an array appends to `out`. -/
theorem Json.dump_array_loop_append (F : DoubleOps D) :
    ∀ (xs : List (Json D)) (first : Bool) (out : string),
      Json.dump_array_loop F xs first out = out ++ Json.dump_array_loop F xs first []
  | [], _, out => by simp [Json.dump_array_loop]
  | x :: rest, first, out => by
    have h1 := Json.dump_array_loop_append F rest false
    have h2 := Json.dump_append F x
    simp only [Json.dump_array_loop]
    cases first
    · simp only [Bool.not_false, if_true]
      rw [h1 (Json.dump F x (out ++ ", ".toList)), h2 (out ++ ", ".toList),
        h1 (Json.dump F x ([] ++ ", ".toList)), h2 ([] ++ ", ".toList)]
      simp
    · simp only [Bool.not_true, Bool.false_eq_true, if_false]
      rw [h1 (Json.dump F x out), h2 out, h1 (Json.dump F x [])]
      simp
/-- The loop over the entries of an object appends to `out`. -/
theorem Json.dump_object_loop_append (F : DoubleOps D) :
    ∀ (m : List (string × Json D)) (first : Bool) (out : string),
      Json.dump_object_loop F m first out = out ++ Json.dump_object_loop F m first []
  | [], _, out => by simp [Json.dump_object_loop]
  | (key, value) :: rest, first, out => by
    have h1 := Json.dump_object_loop_append F rest false
    have h2 := Json.dump_append F value
    simp only [Json.dump_object_loop]
    cases first
    · simp only [Bool.not_false, if_true]
      rw [h1 (Json.dump F value (dump_string key (out ++ ",".toList) ++ ": ".toList)),
        h2 (dump_string key (out ++ ",".toList) ++ ": ".toList),
        h1 (Json.dump F value (dump_string key ([] ++ ",".toList) ++ ": ".toList)),
        h2 (dump_string key ([] ++ ",".toList) ++ ": ".toList)]
      simp [dump_string_eq]
    · simp only [Bool.not_true, Bool.false_eq_true, if_false]
      rw [h1 (Json.dump F value (dump_string key out ++ ": ".toList)),
        h2 (dump_string key out ++ ": ".toList),
        h1 (Json.dump F value (dump_string key [] ++ ": ".toList)),
        h2 (dump_string key [] ++ ": ".toList)]
      simp [dump_string_eq]
end

/-- The loop over the elements of an array, entered with `first` cleared,
writes a separator and the dump of the element for each element. -/
theorem Json.dump_array_loop_false (F : DoubleOps D) :
    ∀ (xs : List (Json D)) (out : string),
      Json.dump_array_loop F xs false out
        = out ++ (xs.map (fun x => ", ".toList ++ Json.dump_new F x)).flatten
  | [], out => by simp [Json.dump_array_loop]
  | x :: rest, out => by
    simp only [Json.dump_array_loop, Bool.not_false, if_true]
    rw [Json.dump_array_loop_false F rest, Json.dump_append F x (out ++ ", ".toList)]
    simp [Json.dump_new]

/-- The text written for one entry of an object: the String dump of the key,
a colon and a space, the dump of the value. -/
theorem Json.dump_object_loop_false (F : DoubleOps D) :
    ∀ (m : List (string × Json D)) (out : string),
      Json.dump_object_loop F m false out
        = out ++ (m.map (fun kv =>
            ",".toList ++ (dump_string kv.1 [] ++ ": ".toList ++ Json.dump_new F kv.2))).flatten
  | [], out => by simp [Json.dump_object_loop]
  | (key, value) :: rest, out => by
    simp only [Json.dump_object_loop, Bool.not_false, if_true]
    rw [Json.dump_object_loop_false F rest,
      Json.dump_append F value (dump_string key (out ++ ",".toList) ++ ": ".toList)]
    simp [Json.dump_new, dump_string_eq]

/-- The byte order of strings is transitive. -/
theorem string_lt_trans : ∀ a b c : string,
    string_lt a b = true → string_lt b c = true → string_lt a c = true
  | [], [], _, h, _ => by simp [string_lt] at h
  | [], _ :: _, [], _, h => by simp [string_lt] at h
  | [], _ :: _, _ :: _, _, _ => by simp [string_lt]
  | _ :: _, [], _, h, _ => by simp [string_lt] at h
  | _ :: _, _ :: _, [], _, h => by simp [string_lt] at h
  | x :: xs, y :: ys, z :: zs, h1, h2 => by
    simp only [string_lt] at h1 h2 ⊢
    by_cases hxy : x.toNat < y.toNat
    · by_cases hyz : y.toNat < z.toNat
      · have hxz : x.toNat < z.toNat := by omega
        simp [hxz]
      · by_cases hzy : z.toNat < y.toNat
        · simp [hyz, hzy] at h2
        · have hxz : x.toNat < z.toNat := by omega
          simp [hxz]
    · by_cases hyx : y.toNat < x.toNat
      · simp [hxy, hyx] at h1
      · simp only [hxy, hyx, if_false] at h1
        by_cases hyz : y.toNat < z.toNat
        · have hxz : x.toNat < z.toNat := by omega
          simp [hxz]
        · by_cases hzy : z.toNat < y.toNat
          · simp [hyz, hzy] at h2
          · simp only [hyz, hzy, if_false] at h2
            have hxz : ¬ x.toNat < z.toNat := by omega
            have hzx : ¬ z.toNat < x.toNat := by omega
            simp only [hxz, hzx, if_false]
            exact string_lt_trans xs ys zs h1 h2

/-- The keys of `map_assign m key value` are `key` and the keys of `m`. -/
theorem mem_keys_map_assign {α : Type} (m : List (string × α)) (key : string) (value : α)
    (k : string) (hk : k ∈ (map_assign m key value).map Prod.fst) :
    k = key ∨ k ∈ m.map Prod.fst := by
  induction m with
  | nil =>
    simp only [map_assign, List.map_cons, List.map_nil, List.mem_singleton] at hk
    exact Or.inl hk
  | cons e rest ih =>
    obtain ⟨k1, v1⟩ := e
    simp only [map_assign] at hk
    split_ifs at hk with h1 h2
    · simp only [List.map_cons, List.mem_cons] at hk ⊢
      exact hk
    · simp only [List.map_cons, List.mem_cons] at hk ⊢
      rcases hk with h | h
      · exact Or.inr (Or.inl h)
      · rcases ih h with h | h
        · exact Or.inl h
        · exact Or.inr (Or.inr h)
    · simp only [List.map_cons, List.mem_cons] at hk ⊢
      exact Or.inr hk

/-- The assignment `data[key] = value` keeps the keys ascending. -/
theorem keys_ascending_map_assign {α : Type} (m : List (string × α)) (key : string)
    (value : α) (h : keys_ascending m) : keys_ascending (map_assign m key value) := by
  induction m with
  | nil => simp [keys_ascending, map_assign]
  | cons e rest ih =>
    obtain ⟨k1, v1⟩ := e
    simp only [keys_ascending, List.map_cons, List.pairwise_cons] at h
    simp only [map_assign]
    split_ifs with h1 h2
    · simp only [keys_ascending, List.map_cons, List.pairwise_cons, List.mem_cons]
      refine ⟨?_, h⟩
      intro k hk
      rcases hk with hk | hk
      · rw [hk]
        exact h1
      · exact string_lt_trans _ _ _ h1 (h.1 k hk)
    · simp only [keys_ascending, List.map_cons, List.pairwise_cons]
      refine ⟨?_, ih h.2⟩
      intro k hk
      rcases mem_keys_map_assign rest key value k hk with hk | hk
      · rw [hk]
        exact h2
      · exact h.1 k hk
    · simp only [keys_ascending, List.map_cons, List.pairwise_cons]
      exact h

namespace Json

/-- C18. The dump of an Array is an opening bracket, the dumps of its elements
in their order joined by a comma and a space, and a closing bracket; the dump
of the empty Array is the two brackets. -/
theorem array_serialization (F : DoubleOps D) (values : List (Json D)) :
    dump_new F (of_array values)
      = "[".toList ++ List.intercalate ", ".toList (values.map (dump_new F)) ++ "]".toList
    ∧ dump_new F (of_array ([] : List (Json D))) = "[]".toList := by
  refine ⟨?_, rfl⟩
  cases values with
  | nil => rfl
  | cons x rest =>
    simp only [dump_new, of_array, dump, dump_array_loop, Bool.not_true, Bool.false_eq_true,
      if_false, List.map_cons]
    rw [dump_array_loop_false, dump_append F x, intercalate_cons, List.map_map]
    simp [Function.comp_def, dump_new]

/-- C19. The dump of an Object is an opening brace, its entries in the order
of iteration of the map, each written as the String dump of the key, a colon
and a space, and the dump of the value, joined by a single comma, and a
closing brace; the dump of the empty Object is the two braces. The order of
iteration is ascending in the byte order of the keys: the empty map is in
that order and every assignment `data[key] = value` keeps it. -/
theorem object_serialization (F : DoubleOps D) (values : List (string × Json D)) :
    dump_new F (of_object values)
      = "\x7b".toList
        ++ List.intercalate ",".toList
            (values.map (fun kv => dump_string kv.1 [] ++ ": ".toList ++ dump_new F kv.2))
        ++ "\x7d".toList
    ∧ dump_new F (of_object ([] : List (string × Json D))) = "\x7b\x7d".toList
    ∧ keys_ascending ([] : List (string × Json D))
    ∧ ∀ (key : string) (value : Json D),
        keys_ascending values → keys_ascending (map_assign values key value) := by
  refine ⟨?_, rfl, List.Pairwise.nil, fun key value h =>
    keys_ascending_map_assign values key value h⟩
  cases values with
  | nil => rfl
  | cons e rest =>
    obtain ⟨key, value⟩ := e
    simp only [dump_new, of_object, dump, dump_object_loop, Bool.not_true, Bool.false_eq_true,
      if_false, List.map_cons]
    rw [dump_object_loop_false, dump_append F value, intercalate_cons, List.map_map]
    simp [Function.comp_def, dump_new, dump_string_eq]

end Json

end serializer

/-! ## Theorems: the string grammar -/

section string_grammar

open Parser

/-- Reading the state leaves it as it is. -/
theorem bind_state {β : Type} (f : JsonParser → Parser β) (p : JsonParser) :
    (state >>= f) p = f p p := rfl

/-- The assignment `i = n` changes the cursor only. -/
theorem bind_set_i {β : Type} (n : Nat) (f : Unit → Parser β) (p : JsonParser) :
    (set_i n >>= f) p = f () { p with i := n } := rfl

/-- A read `str[pos]` inside the input yields the byte there. -/
theorem bind_str_at {β : Type} (pos : Nat) (f : Char → Parser β) (p : JsonParser)
    (h : pos < p.str.length) : (str_at pos >>= f) p = f (p.str.getD pos NUL) p := by
  show Parser.seq (str_at pos) f p = _
  simp [Parser.seq, str_at, h]

/-- A call `str.substr(pos, n)` with `pos` inside the input yields the bytes from
`pos` on, at most `n` of them. -/
theorem bind_substr {β : Type} (pos n : Nat) (f : string → Parser β) (p : JsonParser)
    (h : pos ≤ p.str.length) : (substr pos n >>= f) p = f ((p.str.drop pos).take n) p := by
  show Parser.seq (substr pos n) f p = _
  simp [Parser.seq, substr, h]

/-- One turn of the loop of `parse_string` on a closing quote. -/
theorem parse_string_loop_quote (fuel : Nat) (out : string) (last : Int) (s : string)
    (i : Nat) (err : string) (failed : Bool) (strategy : JsonParse)
    (hi : i < s.length) (hc : s.getD i NUL = '"') :
    parse_string_loop (fuel + 1) out last (JsonParser.mk s i err failed strategy)
      = Except.ok (encode_utf8 last out, JsonParser.mk s (i + 1) err failed strategy) := by
  have hne : i ≠ s.length := Nat.ne_of_lt hi
  rw [parse_string_loop, bind_state]
  simp only [hne, if_false]
  rw [bind_str_at _ _ _ hi, bind_set_i]
  simp only [hc, if_true]
  rfl

/-- One turn of the loop of `parse_string` on an escape `\\u` with four
hexadecimal digits. -/
theorem parse_string_loop_u (fuel : Nat) (out : string) (last : Int) (s : string)
    (i : Nat) (err : string) (failed : Bool) (strategy : JsonParse) (digits : string)
    (hi : i + 6 ≤ s.length) (hc0 : s.getD i NUL = '\\') (hc1 : s.getD (i + 1) NUL = 'u')
    (hd : (s.drop (i + 2)).take 4 = digits) (hx : digits.all is_hex = true) :
    parse_string_loop (fuel + 1) out last (JsonParser.mk s i err failed strategy)
      = (if in_range last 0xD800 0xDBFF ∧ in_range (strtol16 digits) 0xDC00 0xDFFF then
          parse_string_loop fuel
            (encode_utf8
              ((((((last - 0xD800).toNat <<< 10)
                ||| (strtol16 digits - 0xDC00).toNat) : Nat) : Int) + 0x10000) out)
            (-1)
        else parse_string_loop fuel (encode_utf8 last out) (strtol16 digits))
          (JsonParser.mk s (i + 6) err failed strategy) := by
  have hne : i ≠ s.length := by omega
  have hne1 : i + 1 ≠ s.length := by omega
  have hlen : ¬ digits.length < 4 := by
    rw [← hd, List.length_take, List.length_drop]
    omega
  have h1 : ('\\' : Char) ≠ '"' := by decide
  have h2 : in_range (char_to_long '\\') 0 0x1f = false := by decide
  rw [parse_string_loop, bind_state]
  simp only [hne, if_false]
  rw [bind_str_at _ _ _ (by show i < s.length; omega), bind_set_i]
  simp only [hc0, h1, h2, if_false, ne_eq, not_true_eq_false, Bool.false_eq_true, hne1]
  rw [bind_str_at _ _ _ (by show i + 1 < s.length; omega), bind_set_i]
  simp only [hc1, if_true]
  rw [bind_substr _ _ _ _ (by show i + 2 ≤ s.length; omega)]
  simp only [hd, hlen, hx, if_false, Bool.not_true, Bool.false_eq_true]
  rw [bind_set_i]

/-- A negative code point stands for nothing to write. -/
theorem encode_utf8_neg_one (out : string) : encode_utf8 (-1) out = out := rfl

/-- On a code point from `0x10000` up to `0x10FFFF`, `encode_utf8` appends the
four bytes of its UTF-8 encoding. -/
theorem encode_utf8_four (cp : Nat) (out : string) (h1 : 0x10000 ≤ cp) (h2 : cp < 0x110000) :
    encode_utf8 (cp : Int) out = out ++ utf8_four_bytes cp := by
  have hor1 : ∀ q : Nat, q < 8 → (q ||| 0xF0) % 256 = 0xF0 + q := by decide
  have hor2 : ∀ r : Nat, r < 64 → (r ||| 0x80) % 256 = 0x80 + r := by decide
  have hand : ∀ x : Nat, x &&& 0x3F = x % 64 := fun x => Nat.and_pow_two_sub_one_eq_mod x 6
  have c1 : ¬ (cp : Int) < 0 := by omega
  have c2 : ¬ (cp : Int) < 0x80 := by omega
  have c3 : ¬ (cp : Int) < 0x800 := by omega
  have c4 : ¬ (cp : Int) < 0x10000 := by omega
  simp only [encode_utf8, c1, c2, c3, c4, if_false, Int.toNat_ofNat, to_char, utf8_four_bytes,
    Nat.shiftRight_eq_div_pow, hand]
  rw [hor1 _ (by omega), hor2 _ (by omega), hor2 _ (by omega), hor2 _ (by omega)]

/-- C20. For every lead surrogate `H` in `0xD800..0xDBFF` and trail surrogate
`L` in `0xDC00..0xDFFF`, written as the four hexadecimal digits `h` and `l`:
`parse_string`, started at the byte after any prefix `pre` (the opening quote)
on the escapes `\\u h \\u l` followed by a closing quote, returns the four
bytes of the UTF-8 encoding of `0x10000 + (((H - 0xD800) << 10) | (L - 0xDC00))`
and leaves the cursor behind the closing quote. -/
theorem surrogate_pair_decodes (pre rest h l err : string) (failed : Bool)
    (strategy : JsonParse) (H L : Nat)
    (hh : h.length = 4) (hl : l.length = 4)
    (hhx : h.all is_hex = true) (hlx : l.all is_hex = true)
    (hH : strtol16 h = (H : Int)) (hL : strtol16 l = (L : Int))
    (hHr : 0xD800 ≤ H ∧ H ≤ 0xDBFF) (hLr : 0xDC00 ≤ L ∧ L ≤ 0xDFFF) :
    parse_string
        (JsonParser.mk (pre ++ ("\\u".toList ++ h ++ ("\\u".toList ++ l ++ '"' :: rest)))
          pre.length err failed strategy)
      = Except.ok
          (utf8_four_bytes (0x10000 + (((H - 0xD800) <<< 10) ||| (L - 0xDC00))),
            JsonParser.mk (pre ++ ("\\u".toList ++ h ++ ("\\u".toList ++ l ++ '"' :: rest)))
              (pre.length + 13) err failed strategy) := by
  rcases h with _ | ⟨a0, _ | ⟨a1, _ | ⟨a2, _ | ⟨a3, _ | ⟨a4, t⟩⟩⟩⟩⟩ <;>
    simp only [List.length_cons, List.length_nil] at hh <;> try omega
  rcases l with _ | ⟨b0, _ | ⟨b1, _ | ⟨b2, _ | ⟨b3, _ | ⟨b4, t⟩⟩⟩⟩⟩ <;>
    simp only [List.length_cons, List.length_nil] at hl <;> try omega
  generalize hs : pre ++ ("\\u".toList ++ [a0, a1, a2, a3]
    ++ ("\\u".toList ++ [b0, b1, b2, b3] ++ '"' :: rest)) = s
  have hs1 : s = pre ++ ('\\' :: 'u' :: a0 :: a1 :: a2 :: a3 :: '\\' :: 'u' :: b0 :: b1 :: b2
      :: b3 :: '"' :: rest) := by
    rw [← hs]
    rfl
  have hlen : s.length = pre.length + rest.length + 13 := by
    rw [hs1]
    simp only [List.length_append, List.length_cons]
    omega
  have hget : ∀ k, s.getD (pre.length + k) NUL
      = ('\\' :: 'u' :: a0 :: a1 :: a2 :: a3 :: '\\' :: 'u' :: b0 :: b1 :: b2
          :: b3 :: '"' :: rest).getD k NUL := by
    intro k
    rw [hs1, List.getD_append_right _ _ _ _ (Nat.le_add_right _ _), Nat.add_sub_cancel_left]
  have hdrop : ∀ k, s.drop (pre.length + k)
      = ('\\' :: 'u' :: a0 :: a1 :: a2 :: a3 :: '\\' :: 'u' :: b0 :: b1 :: b2
          :: b3 :: '"' :: rest).drop k := by
    intro k
    rw [hs1, List.drop_append]
  have hcp1 : 0x10000 ≤ 0x10000 + (((H - 0xD800) <<< 10) ||| (L - 0xDC00)) :=
    Nat.le_add_right _ _
  have hcp2 : 0x10000 + (((H - 0xD800) <<< 10) ||| (L - 0xDC00)) < 0x110000 := by
    have hb : L - 0xDC00 < 2 ^ 10 := by omega
    rw [Nat.shiftLeft_eq, Nat.mul_comm, ← Nat.mul_add_lt_is_or hb]
    omega
  have hfuel : s.length + 1 = (pre.length + rest.length + 11) + 1 + 1 + 1 := by omega
  have hlast : ¬ (in_range (-1) 0xD800 0xDBFF = true
      ∧ in_range (H : Int) 0xDC00 0xDFFF = true) := by
    simp [in_range]
  have hpair : in_range (H : Int) 0xD800 0xDBFF = true
      ∧ in_range (L : Int) 0xDC00 0xDFFF = true := by
    simp only [in_range, decide_eq_true_eq]
    omega
  have hHn : ((H : Int) - 0xD800).toNat = H - 0xD800 := by omega
  have hLn : ((L : Int) - 0xDC00).toNat = L - 0xDC00 := by omega
  show (state >>= fun p => parse_string_loop (p.str.length + 1) [] (-1)) _ = _
  rw [bind_state]
  show parse_string_loop (s.length + 1) [] (-1) (JsonParser.mk s (pre.length + 0) _ _ _) = _
  rw [hfuel,
    parse_string_loop_u _ _ _ s (pre.length + 0) _ _ _ [a0, a1, a2, a3] (by omega)
      (by rw [hget]; rfl) (by rw [Nat.add_assoc, hget]; rfl)
      (by rw [Nat.add_assoc, hdrop]; rfl) hhx,
    hH, if_neg hlast, encode_utf8_neg_one,
    parse_string_loop_u _ _ _ s (pre.length + 0 + 6) _ _ _ [b0, b1, b2, b3] (by omega)
      (by rw [Nat.add_assoc, hget]; rfl) (by rw [Nat.add_assoc, Nat.add_assoc, hget]; rfl)
      (by rw [Nat.add_assoc, Nat.add_assoc, hdrop]; rfl) hlx,
    hL, if_pos hpair, hHn, hLn,
    parse_string_loop_quote _ _ _ s (pre.length + 0 + 6 + 6) _ _ _ (by omega)
      (by rw [Nat.add_assoc, Nat.add_assoc, hget]; rfl),
    encode_utf8_neg_one]
  have hcast : ((((H - 0xD800) <<< 10) ||| (L - 0xDC00) : Nat) : Int) + (0x10000 : Int)
      = ((0x10000 + (((H - 0xD800) <<< 10) ||| (L - 0xDC00)) : Nat) : Int) := by
    push_cast
    omega
  rw [hcast, encode_utf8_four _ [] hcp1 hcp2, List.nil_append]

/-- C20 on the escapes `\\uD83D\\uDE00`: the bytes F0 9F 98 80. -/
theorem surrogate_pair_decodes_witness :
    parse_string (JsonParser.mk "\"\\uD83D\\uDE00\"".toList 1 [] false JsonParse.STANDARD)
      = Except.ok ([Char.ofNat 0xF0, Char.ofNat 0x9F, Char.ofNat 0x98, Char.ofNat 0x80],
          JsonParser.mk "\"\\uD83D\\uDE00\"".toList 14 [] false JsonParse.STANDARD) :=
  surrogate_pair_decodes ['"'] [] "D83D".toList "DE00".toList [] false JsonParse.STANDARD
    0xD83D 0xDE00 rfl rfl rfl rfl rfl rfl (by decide) (by decide)

end string_grammar

/-! ## Theorems: tokens and white space -/

section tokens

open Parser

variable {D : Type}

/-- C22 (what the code does instead). When `consume_garbage` has moved the
cursor to `q.i` without failing, `get_next_token` returns the byte behind the
cursor, `str[q.i + 1]`, and leaves the cursor at `q.i`: the first byte that
is not garbage, `str[q.i]`, is neither returned nor passed. At the end of the
input it sets the message `excepted end of input` and returns `NUL`. -/
theorem get_next_token_returns_the_byte_behind (p q : JsonParser)
    (hg : consume_garbage p = Except.ok ((), q)) (hf : q.failed = false) :
    (q.i < q.str.length →
      get_next_token p = Except.ok (q.str.getD (q.i + 1) NUL, q))
    ∧ (q.i = q.str.length →
      get_next_token p = Except.ok (NUL,
        JsonParser.mk q.str q.i "excepted end of input".toList true q.strategy)) := by
  have h : get_next_token p
      = (if q.failed then pure NUL
          else if q.i = q.str.length then fail "excepted end of input".toList NUL
          else str_at (q.i + 1) : Parser Char) q := by
    show Parser.seq consume_garbage _ p = _
    simp only [Parser.seq, hg]
    rfl
  rw [h]
  simp only [hf, Bool.false_eq_true, if_false]
  constructor
  · intro hi
    have hne : q.i ≠ q.str.length := Nat.ne_of_lt hi
    simp only [hne, if_false, str_at]
    by_cases h1 : q.i + 1 < q.str.length
    · simp [h1]
    · have h2 : q.i + 1 = q.str.length := by omega
      have h3 : q.str.getD (q.i + 1) NUL = NUL := by
        rw [h2]
        exact List.getD_eq_default _ _ (Nat.le_refl _)
      simp [h1, h2, h3]
  · intro hi
    simp only [hi, if_true, fail, hf]
    rfl

/-- C22 on the input `ab` with the cursor at 0: the byte returned is `b`, the
cursor stays at 0. -/
theorem get_next_token_returns_the_byte_behind_witness :
    get_next_token (JsonParser.mk "ab".toList 0 [] false JsonParse.STANDARD)
      = Except.ok ('b', JsonParser.mk "ab".toList 0 [] false JsonParse.STANDARD) :=
  (get_next_token_returns_the_byte_behind
    (JsonParser.mk "ab".toList 0 [] false JsonParse.STANDARD)
    (JsonParser.mk "ab".toList 0 [] false JsonParse.STANDARD) rfl rfl).1 (by decide)

/-- C23 (what the code does instead). A horizontal tab stops
`consume_whitespace`: on a tab followed by `1` the cursor stays at 0, and on
space, carriage return, line feed, tab, `1` it stops at 3, on the tab. -/
theorem consume_whitespace_stops_at_tab (err : string) (failed : Bool)
    (strategy : JsonParse) :
    consume_whitespace (JsonParser.mk "\t1".toList 0 err failed strategy)
      = Except.ok ((), JsonParser.mk "\t1".toList 0 err failed strategy)
    ∧ consume_whitespace (JsonParser.mk " \r\n\t1".toList 0 err failed strategy)
      = Except.ok ((), JsonParser.mk " \r\n\t1".toList 3 err failed strategy) :=
  ⟨rfl, rfl⟩

/-- C24 (what the code does instead). On the input `at` the parser reaches
`expect("true", true)` with the cursor at 0: `get_next_token` returns the
second byte, `t`, and leaves the cursor where it was, so the check
`assert(i != 0)` does not hold. -/
theorem expect_is_reached_with_cursor_zero (F : DoubleOps D) (fuel : Nat) (err : string)
    (strategy : JsonParse) :
    Json.parse F (fuel + 1) "at".toList err JsonParse.STANDARD
      = Except.error Fault.assertion
    ∧ expect "true".toList (Json.of_bool true : Json D)
        (JsonParser.mk "at".toList 0 err false strategy) = Except.error Fault.assertion :=
  ⟨rfl, rfl⟩

end tokens

/-! ## Theorems: the UTF-8 encoder -/

section encoder

/-- C27. For a negative code point `encode_utf8` appends nothing; for every
code point from 0 to `0x10FFFF`, the surrogates included, it appends the UTF-8
encoding of the code point: one, two, three or four bytes with the lead and
continuation patterns of `utf8_bytes`. -/
theorem encode_utf8_is_utf8 (pt : Int) (out : string) :
    (pt < 0 → encode_utf8 pt out = out)
    ∧ (0 ≤ pt → pt ≤ 0x10FFFF → encode_utf8 pt out = out ++ utf8_bytes pt.toNat) := by
  constructor
  · intro h
    simp [encode_utf8, h]
  · intro h0 h1
    obtain ⟨n, rfl⟩ := Int.eq_ofNat_of_zero_le h0
    have hn : n ≤ 0x10FFFF := by omega
    have hor2 : ∀ q : Nat, q < 32 → (q ||| 0xC0) % 256 = 0xC0 + q := by decide
    have hor3 : ∀ q : Nat, q < 16 → (q ||| 0xE0) % 256 = 0xE0 + q := by decide
    have horc : ∀ r : Nat, r < 64 → (r ||| 0x80) % 256 = 0x80 + r := by decide
    have hand : ∀ x : Nat, x &&& 0x3F = x % 64 := fun x => Nat.and_pow_two_sub_one_eq_mod x 6
    have c0 : ¬ (n : Int) < 0 := by omega
    rw [Int.toNat_ofNat]
    by_cases h80 : n < 0x80
    · have c1 : (n : Int) < 0x80 := by omega
      have hm : n % 256 = n := by omega
      simp only [encode_utf8, c0, c1, if_false, if_true, Int.toNat_ofNat, to_char, utf8_bytes,
        h80, hm]
    · by_cases h800 : n < 0x800
      · have c1 : ¬ (n : Int) < 0x80 := by omega
        have c2 : (n : Int) < 0x800 := by omega
        simp only [encode_utf8, c0, c1, c2, if_false, if_true, Int.toNat_ofNat, to_char,
          utf8_bytes, h80, h800, Nat.shiftRight_eq_div_pow, hand]
        rw [hor2 _ (by omega), horc _ (by omega)]
      · by_cases h10000 : n < 0x10000
        · have c1 : ¬ (n : Int) < 0x80 := by omega
          have c2 : ¬ (n : Int) < 0x800 := by omega
          have c3 : (n : Int) < 0x10000 := by omega
          simp only [encode_utf8, c0, c1, c2, c3, if_false, if_true, Int.toNat_ofNat, to_char,
            utf8_bytes, h80, h800, h10000, Nat.shiftRight_eq_div_pow, hand]
          rw [hor3 _ (by omega), horc _ (by omega), horc _ (by omega)]
        · simp only [utf8_bytes, h80, h800, h10000, if_false]
          exact encode_utf8_four n out (by omega) (by omega)

/-- C27 on the code points `0x41`, `0xE9`, `0x20AC`, the surrogate `0xD800`,
`0x1F600` and `-1`. -/
theorem encode_utf8_is_utf8_witness :
    encode_utf8 0x41 [] = [Char.ofNat 0x41]
    ∧ encode_utf8 0xE9 [] = [Char.ofNat 0xC3, Char.ofNat 0xA9]
    ∧ encode_utf8 0x20AC [] = [Char.ofNat 0xE2, Char.ofNat 0x82, Char.ofNat 0xAC]
    ∧ encode_utf8 0xD800 [] = [Char.ofNat 0xED, Char.ofNat 0xA0, Char.ofNat 0x80]
    ∧ encode_utf8 0x1F600 []
      = [Char.ofNat 0xF0, Char.ofNat 0x9F, Char.ofNat 0x98, Char.ofNat 0x80]
    ∧ encode_utf8 (-1) [] = [] :=
  ⟨(encode_utf8_is_utf8 0x41 []).2 (by decide) (by decide),
   (encode_utf8_is_utf8 0xE9 []).2 (by decide) (by decide),
   (encode_utf8_is_utf8 0x20AC []).2 (by decide) (by decide),
   (encode_utf8_is_utf8 0xD800 []).2 (by decide) (by decide),
   (encode_utf8_is_utf8 0x1F600 []).2 (by decide) (by decide),
   (encode_utf8_is_utf8 (-1) []).1 (by decide)⟩

end encoder

/-! ## Theorems: the first diagnostic -/

section first_diagnostic

open Parser

set_option linter.unusedTactic false
set_option linter.unreachableTactic false
set_option maxRecDepth 4000

variable {D : Type}

/-- Every primitive step keeps a set flag and its message. -/
theorem stable_first_diagnostic_kept : Stable first_diagnostic_kept where
  refl := fun _ _ => ⟨by assumption, rfl⟩
  trans := fun _ _ _ h1 h2 h => ⟨(h2 (h1 h).1).1, (h2 (h1 h).1).2.trans (h1 h).2⟩
  set_i := fun _ _ h => ⟨h, rfl⟩
  fail := by
    intro p msg _ h
    refine ⟨rfl, ?_⟩
    show (if !p.failed then msg else p.err) = p.err
    simp [h]

/-- The loop of `Json::parse_multi` keeps every relation the primitive steps
keep. -/
theorem respects_parse_multi_loop {R : JsonParser → JsonParser → Prop} (hR : Stable R)
    (F : DoubleOps D) :
    ∀ (fuel : Nat) (json_vec : List (Json D)) (parser_stop_pos : Nat),
      Respects R (parse_multi_loop F fuel json_vec parser_stop_pos)
  | 0, _, _ => by
    unfold parse_multi_loop
    exact respects_stop _
  | fuel + 1, json_vec, parser_stop_pos => by
    have ih := respects_parse_multi_loop hR F fuel
    unfold parse_multi_loop
    with_reducible repeat' first
      | exact ih _ _
      | exact respects_parse_json hR F _ _
      | exact respects_consume_garbage hR
      | exact respects_pure hR _
      | exact respects_state hR
      | refine respects_bind hR ?_ (fun _ => ?_)
      | refine respects_ite ?_ ?_
      | dsimp only

/-- C25. The function `fail(msg, r)` returns `r`; called with `failed` set it
leaves `err` as it is, called with `failed` clear it sets `err` to `msg`, and
in both cases `failed` is set afterwards. No member function of the parser
clears a set flag or changes `err` while the flag is set: each of them,
started with `failed` set, returns with `failed` set and `err` unchanged. -/
theorem first_diagnostic_preserved (F : DoubleOps D) :
    (∀ (α : Type) (msg : string) (r : α) (p : JsonParser),
        fail msg r p = Except.ok (r,
          JsonParser.mk p.str p.i (if p.failed = true then p.err else msg) true p.strategy))
    ∧ Respects first_diagnostic_kept consume_whitespace
    ∧ Respects first_diagnostic_kept consume_comment
    ∧ Respects first_diagnostic_kept consume_garbage
    ∧ Respects first_diagnostic_kept get_next_token
    ∧ Respects first_diagnostic_kept parse_string
    ∧ Respects first_diagnostic_kept (parse_number F)
    ∧ (∀ (expected : string) (res : Json D),
        Respects first_diagnostic_kept (expect expected res))
    ∧ (∀ fuel depth : Nat, Respects first_diagnostic_kept (parse_json F fuel depth))
    ∧ (∀ (fuel : Nat) (json_vec : List (Json D)) (parser_stop_pos : Nat),
        Respects first_diagnostic_kept (parse_multi_loop F fuel json_vec parser_stop_pos)) := by
  have hR := stable_first_diagnostic_kept
  refine ⟨?_, respects_consume_whitespace hR, respects_consume_comment hR,
    respects_consume_garbage hR, respects_get_next_token hR, respects_parse_string hR,
    respects_parse_number hR F, fun expected res => respects_expect hR expected res,
    fun fuel depth => respects_parse_json hR F fuel depth,
    fun fuel json_vec parser_stop_pos =>
      respects_parse_multi_loop hR F fuel json_vec parser_stop_pos⟩
  intro α msg r p
  cases hf : p.failed <;> simp [fail, hf]

/-- C25 on a call of `expect` that fails after an earlier failure: the text
at the cursor is not `true`, `fail` is called with `failed` set, and `err`
keeps the first message. -/
theorem first_diagnostic_preserved_witness :
    expect "true".toList (Json.of_bool true : Json Unit)
        (JsonParser.mk "xtruu".toList 1 "first".toList true JsonParse.STANDARD)
      = Except.ok (Json.null,
          JsonParser.mk "xtruu".toList 0 "first".toList true JsonParse.STANDARD)
    ∧ first_diagnostic_kept
        (JsonParser.mk "xtruu".toList 1 "first".toList true JsonParse.STANDARD)
        (JsonParser.mk "xtruu".toList 0 "first".toList true JsonParse.STANDARD) :=
  ⟨rfl, (first_diagnostic_preserved no_double).2.2.2.2.2.2.2.1 "true".toList
    (Json.of_bool true) _ _ _ rfl⟩

end first_diagnostic

/-! ## Theorems: a run that does not end -/

section endless

open Parser

set_option maxRecDepth 4000

variable {D : Type}

/-- A fault of the first of two steps is the fault of both. -/
theorem bind_error {α β : Type} (m : Parser α) (f : α → Parser β) (p : JsonParser) (e : Fault)
    (h : m p = Except.error e) : (m >>= f) p = Except.error e := by
  show Parser.seq m f p = _
  simp only [Parser.seq, h]

/-- One turn of the array loop on the text `/**/*[*/x"",` under COMMENTS,
entered with the cursor at 10: the turn steps back to 9, parses the empty
String that ends at 10, sees the comma behind the cursor twice, and enters
the next turn with the cursor at 10 again and one more element. -/
theorem array_loop_turn_returns_to_its_state (F : DoubleOps D) (fuel : Nat)
    (data : List (Json D)) :
    parse_json_array F (fuel + 2) 0 data
        (JsonParser.mk "/**/*[*/x\"\",".toList 10 [] false JsonParse.COMMENTS)
      = parse_json_array F (fuel + 1) 0 (data ++ [Json.JsonString []])
          (JsonParser.mk "/**/*[*/x\"\",".toList 10 [] false JsonParse.COMMENTS) :=
  rfl

/-- The array loop entered with the cursor at 10 on that text exhausts every
step budget. -/
theorem array_loop_exhausts_every_budget (F : DoubleOps D) :
    ∀ (fuel : Nat) (data : List (Json D)),
      parse_json_array F fuel 0 data
          (JsonParser.mk "/**/*[*/x\"\",".toList 10 [] false JsonParse.COMMENTS)
        = Except.error Fault.out_of_fuel
  | 0, _ => rfl
  | 1, _ => rfl
  | fuel + 2, data => by
    rw [array_loop_turn_returns_to_its_state]
    exact array_loop_exhausts_every_budget F (fuel + 1) _

/-- The start of the run on that text: `parse_json(0)` skips the comment
`/**/`, takes the byte behind the cursor, `[`, for the start of an array,
and enters the array loop with the cursor at 4. -/
theorem parse_json_enters_the_loop (F : DoubleOps D) (fuel : Nat) :
    parse_json F (fuel + 1) 0
        (JsonParser.mk "/**/*[*/x\"\",".toList 0 [] false JsonParse.COMMENTS)
      = parse_json_array F fuel 0 []
          (JsonParser.mk "/**/*[*/x\"\",".toList 4 [] false JsonParse.COMMENTS) :=
  rfl

/-- The first turn of the array loop: it steps back to 3, skips `/*[*/` as a
comment, parses the String `x`, and enters the next turn with the cursor at
10. -/
theorem array_loop_first_turn (F : DoubleOps D) (fuel : Nat) :
    parse_json_array F (fuel + 2) 0 []
        (JsonParser.mk "/**/*[*/x\"\",".toList 4 [] false JsonParse.COMMENTS)
      = parse_json_array F (fuel + 1) 0 [Json.JsonString "x".toList]
          (JsonParser.mk "/**/*[*/x\"\",".toList 10 [] false JsonParse.COMMENTS) :=
  rfl

namespace Json

/-- C21 (what the code does instead). Under COMMENTS, `Json::parse` does not
return on the text `/**/*[*/x"",`: whatever the step budget, the run exhausts
it. A turn of the array loop entered with the cursor at 10 ends, without
failure, where it began, with the cursor at 10. -/
theorem parse_does_not_terminate (F : DoubleOps D) :
    (∀ fuel : Nat,
      parse F fuel "/**/*[*/x\"\",".toList [] JsonParse.COMMENTS
        = Except.error Fault.out_of_fuel)
    ∧ ∀ (fuel : Nat) (data : List (Json D)),
        parse_json_array F (fuel + 2) 0 data
            (JsonParser.mk "/**/*[*/x\"\",".toList 10 [] false JsonParse.COMMENTS)
          = parse_json_array F (fuel + 1) 0 (data ++ [JsonString []])
              (JsonParser.mk "/**/*[*/x\"\",".toList 10 [] false JsonParse.COMMENTS) := by
  refine ⟨?_, fun fuel data => array_loop_turn_returns_to_its_state F fuel data⟩
  intro fuel
  unfold parse
  apply bind_error
  match fuel with
  | 0 => rfl
  | 1 => rfl
  | 2 => rfl
  | fuel + 3 =>
    rw [parse_json_enters_the_loop, array_loop_first_turn]
    exact array_loop_exhausts_every_budget F (fuel + 1) _

end Json

end endless

/-! ## Theorems: the integer grammar -/

section integers

open Parser

set_option maxRecDepth 4000

variable {D : Type}

/-- The byte at a position is the first byte of what remains from there. -/
theorem getD_eq_headD_drop (s : string) (i : Nat) : s.getD i NUL = (s.drop i).headD NUL := by
  simp [List.headD_eq_head?_getD, List.head?_drop]

/-- A read `str[pos]` at or before the end of the input yields the first byte
of what remains, `NUL` at the end. -/
theorem bind_str_at_le {β : Type} (pos : Nat) (f : Char → Parser β) (p : JsonParser)
    (h : pos ≤ p.str.length) : (str_at pos >>= f) p = f ((p.str.drop pos).headD NUL) p := by
  show Parser.seq (str_at pos) f p = _
  by_cases h1 : pos < p.str.length
  · simp [Parser.seq, str_at, h1, getD_eq_headD_drop]
  · have h2 : pos = p.str.length := by omega
    have h3 : p.str.drop pos = [] := List.drop_eq_nil_of_le (by omega)
    rw [h3]
    simp [Parser.seq, str_at, h2]

/-- What remains one byte further on. -/
theorem drop_succ_of_drop (s : string) (i : Nat) (c : Char) (tl : string)
    (h : s.drop i = c :: tl) : s.drop (i + 1) = tl ∧ i + 1 ≤ s.length := by
  have h1 : s.drop (i + 1) = (s.drop i).drop 1 := by
    rw [List.drop_drop, Nat.add_comm]
  have h2 : (s.drop i).length = s.length - i := List.length_drop i s
  rw [h] at h1 h2
  simp only [List.length_cons] at h2
  exact ⟨h1, by omega⟩

/-- The loop over digits moves the cursor over the digits at the cursor and
stops at the first byte that is no digit. -/
theorem digits_loop_run (s tl err : string) (failed : Bool) (strategy : JsonParse) :
    ∀ (ds : string) (fuel i : Nat), s.drop i = ds ++ tl → i ≤ s.length →
      (∀ c ∈ ds, is_digit c = true) → is_digit (tl.headD NUL) = false → ds.length < fuel →
      digits_loop fuel (JsonParser.mk s i err failed strategy)
        = Except.ok ((), JsonParser.mk s (i + ds.length) err failed strategy)
  | [], fuel, i, hd, hi, _, htl, hf => by
    obtain ⟨f, rfl⟩ : ∃ f, fuel = f + 1 := ⟨fuel - 1, by simp at hf; omega⟩
    rw [digits_loop, bind_state, bind_str_at_le _ _ _ hi]
    simp only [List.nil_append] at hd
    simp only [hd, htl, Bool.false_eq_true, if_false]
    rfl
  | d :: ds, fuel, i, hd, hi, hds, htl, hf => by
    obtain ⟨f, rfl⟩ : ∃ f, fuel = f + 1 := ⟨fuel - 1, by simp at hf; omega⟩
    have hnext := drop_succ_of_drop s i d (ds ++ tl) hd
    have hdig : is_digit d = true := hds d (List.mem_cons_self _ _)
    rw [digits_loop, bind_state, bind_str_at_le _ _ _ hi]
    simp only [hd, List.cons_append, List.headD_cons, hdig, if_true]
    rw [bind_set_i]
    rw [digits_loop_run s tl err failed strategy ds f (i + 1) hnext.1 hnext.2
      (fun c hc => hds c (List.mem_cons_of_mem _ hc)) htl
      (by simp only [List.length_cons] at hf; omega)]
    simp only [List.length_cons, Nat.add_assoc, Nat.add_comm 1]

/-- The test of the code for a digit holds for the bytes `0` to `9`. -/
theorem is_digit_of_digit (c : Char) (h : '0'.toNat ≤ c.toNat ∧ c.toNat ≤ '9'.toNat) :
    is_digit c = true := by
  have h0 : ('0' : Char).toNat = 48 := rfl
  have h9 : ('9' : Char).toNat = 57 := rfl
  rw [h0, h9] at h
  have hc : char_to_long c = (c.toNat : Int) := by
    simp only [char_to_long]
    rw [if_pos (by omega)]
  have c0 : char_to_long '0' = 48 := rfl
  have c9 : char_to_long '9' = 57 := rfl
  simp only [is_digit, in_range, hc, c0, c9, decide_eq_true_eq]
  omega

/-- The test of the code for a digit fails for every other byte. -/
theorem is_digit_of_not_digit (c : Char) (hb : c.toNat < 256)
    (h : ¬ ('0'.toNat ≤ c.toNat ∧ c.toNat ≤ '9'.toNat)) : is_digit c = false := by
  have h0 : ('0' : Char).toNat = 48 := rfl
  have h9 : ('9' : Char).toNat = 57 := rfl
  rw [h0, h9] at h
  have c0 : char_to_long '0' = 48 := rfl
  have c9 : char_to_long '9' = 57 := rfl
  simp only [is_digit, in_range, c0, c9, decide_eq_false_iff_not, char_to_long]
  split <;> omega

/-- The integer short cut: at a cursor not more than nine bytes behind the
start of the number, on a byte other than `.`, `e` and `E`, the result is the
`int` that `atoi` reads at the start of the number. -/
theorem parse_number_integer_run (F : DoubleOps D) (s err : string) (failed : Bool)
    (strategy : JsonParse) (start_pos j : Nat) (hj : j ≤ s.length)
    (hc : (s.drop j).headD NUL ≠ '.' ∧ (s.drop j).headD NUL ≠ 'e'
      ∧ (s.drop j).headD NUL ≠ 'E')
    (hlen : j - start_pos ≤ 9) :
    parse_number_integer F start_pos (JsonParser.mk s j err failed strategy)
      = Except.ok (Json.of_int (atoi (c_str_from s start_pos)),
          JsonParser.mk s j err failed strategy) := by
  have hcond : (s.drop j).headD NUL ≠ '.' ∧ (s.drop j).headD NUL ≠ 'e'
      ∧ (s.drop j).headD NUL ≠ 'E' ∧ j - start_pos ≤ digits10 := ⟨hc.1, hc.2.1, hc.2.2, hlen⟩
  rw [parse_number_integer, bind_state, bind_str_at_le _ _ _ hj]
  rw [if_pos hcond]
  rfl

/-- The digits `atoi` reads before a byte that is no digit have the value
of `decimal_value`. -/
theorem digits_value_append (digits tl : string) (hdig : ∀ c ∈ digits, is_digit c = true)
    (htl : is_digit (tl.headD NUL) = false) :
    digits_value (digits ++ tl) = decimal_value digits := by
  have h1 : (digits ++ tl).takeWhile is_digit = digits := by
    rw [List.takeWhile_append_of_pos hdig]
    cases tl with
    | nil => simp
    | cons c cs =>
      simp only [List.headD_cons] at htl
      simp [htl]
  simp only [digits_value, h1, decimal_value]

/-- The C string stops at the first `NUL`; what it keeps of a text begins as
the text does. -/
theorem is_digit_headD_takeWhile (rest : string) (h : is_digit (rest.headD NUL) = false) :
    is_digit ((rest.takeWhile (fun c => c ≠ NUL)).headD NUL) = false := by
  cases rest with
  | nil => exact h
  | cons c cs =>
    by_cases hc : c = NUL
    · subst hc
      simp only [ne_eq, not_true_eq_false, decide_False, Bool.false_eq_true,
        not_false_eq_true, List.takeWhile_cons_of_neg, List.headD_nil]
      decide
    · simp only [ne_eq, hc, not_false_eq_true, decide_True, List.takeWhile_cons_of_pos,
        List.headD_cons]
      exact h

/-- What `atoi` returns on the C string of an integer text: an optional `-`,
digits, and a byte that is no digit. -/
theorem atoi_of_integer_text (sign digits rest : string)
    (hsign : sign = [] ∨ sign = ['-']) (hne : digits ≠ [])
    (hdig : ∀ c ∈ digits, '0'.toNat ≤ c.toNat ∧ c.toNat ≤ '9'.toNat)
    (hrest : is_digit (rest.headD NUL) = false) :
    atoi ((sign ++ digits ++ rest).takeWhile (fun c => c ≠ NUL))
      = if sign = [] then (decimal_value digits : Int) else -(decimal_value digits : Int) := by
  have hdig1 : ∀ c ∈ digits, is_digit c = true := fun c hc => is_digit_of_digit c (hdig c hc)
  have hnn : ∀ c ∈ digits, decide (c ≠ NUL) = true := by
    intro c hc
    have h := hdig c hc
    have h0 : ('0' : Char).toNat = 48 := rfl
    rw [h0] at h
    have : c ≠ NUL := by
      intro hn
      rw [hn] at h
      have hz : NUL.toNat = 0 := rfl
      omega
    simpa using this
  have htl := is_digit_headD_takeWhile rest hrest
  obtain ⟨d, ds, rfl⟩ : ∃ d ds, digits = d :: ds := by
    cases digits with
    | nil => exact absurd rfl hne
    | cons d ds => exact ⟨d, ds, rfl⟩
  have hd := hdig d (List.mem_cons_self _ _)
  have h0 : ('0' : Char).toNat = 48 := rfl
  have h9 : ('9' : Char).toNat = 57 := rfl
  rw [h0, h9] at hd
  have hsp : isspace d = false := by
    have hne : ∀ k : Nat, k < 48 → d ≠ Char.ofNat k := by
      intro k hk he
      rw [he] at hd
      have : (Char.ofNat k).toNat = k := by
        have : k < 48 := hk
        interval_cases k <;> rfl
      omega
    have e1 := hne 32 (by omega)
    have e2 := hne 9 (by omega)
    have e3 := hne 10 (by omega)
    have e4 := hne 11 (by omega)
    have e5 := hne 12 (by omega)
    have e6 := hne 13 (by omega)
    simp only [isspace, Bool.or_eq_false_iff, decide_eq_false_iff_not]
    exact ⟨⟨⟨⟨⟨e1, e2⟩, e3⟩, e4⟩, e5⟩, e6⟩
  have hminus : d ≠ '-' := by
    intro he
    rw [he] at hd
    have : ('-' : Char).toNat = 45 := rfl
    omega
  have hplus : d ≠ '+' := by
    intro he
    rw [he] at hd
    have : ('+' : Char).toNat = 43 := rfl
    omega
  rcases hsign with rfl | rfl
  · rw [List.nil_append, List.takeWhile_append_of_pos hnn, if_pos rfl]
    have hdw : (d :: ds ++ rest.takeWhile (fun c => decide (c ≠ NUL))).dropWhile isspace
        = d :: (ds ++ rest.takeWhile (fun c => decide (c ≠ NUL))) := by
      simp [List.dropWhile, hsp]
    unfold atoi
    rw [hdw]
    split
    · rename_i heq
      exact absurd (List.cons.inj heq).1 hminus
    · rename_i heq
      exact absurd (List.cons.inj heq).1 hplus
    · exact congrArg Int.ofNat (digits_value_append (d :: ds) _ hdig1 htl)
  · have hnn2 : ∀ c ∈ ['-'] ++ d :: ds, decide (c ≠ NUL) = true := by
      intro c hc
      rcases List.mem_append.mp hc with h | h
      · simp only [List.mem_singleton] at h
        rw [h]
        decide
      · exact hnn c h
    rw [List.takeWhile_append_of_pos hnn2, if_neg (by simp)]
    have hdw : (['-'] ++ d :: ds ++ rest.takeWhile (fun c => decide (c ≠ NUL))).dropWhile isspace
        = '-' :: (d :: ds ++ rest.takeWhile (fun c => decide (c ≠ NUL))) := by
      have : isspace '-' = false := by decide
      simp [List.dropWhile, this]
    unfold atoi
    rw [hdw]
    show -((digits_value (d :: ds ++ _) : Nat) : Int) = _
    rw [digits_value_append (d :: ds) _ hdig1 htl]

/-- A step that returns hands its result and state to the next step. -/
theorem bind_ok {α β : Type} (m : Parser α) (f : α → Parser β) (p q : JsonParser) (a : α)
    (h : m p = Except.ok (a, q)) : (m >>= f) p = f a q := by
  show Parser.seq m f p = _
  simp only [Parser.seq, h]

/-- The part of `parse_number()` behind the optional sign (tiny_json.cpp lines
592-607), started at the first digit of a number that began at `start_pos`:
on a single `0` or a non-zero digit with further digits, followed by a byte
that is no digit and none of `.`, `e`, `E`, and not more than nine bytes from
`start_pos` to the end of the digits, the result is the `int` of `atoi` and
the cursor is behind the digits; on `0` and one more digit the result is the
failure `leading 0s not permitted in numbers`. -/
theorem number_body_run (F : DoubleOps D) (s err : string) (failed : Bool)
    (strategy : JsonParse) (start_pos j : Nat) :
    (∀ digits rest : string, s.drop j = digits ++ rest →
      (digits = ['0'] ∨ ∃ d ds, digits = d :: ds ∧ '1'.toNat ≤ d.toNat ∧ d.toNat ≤ '9'.toNat
        ∧ ∀ c ∈ ds, '0'.toNat ≤ c.toNat ∧ c.toNat ≤ '9'.toNat) →
      j + digits.length - start_pos ≤ 9 →
      is_digit (rest.headD NUL) = false →
      rest.headD NUL ≠ '.' ∧ rest.headD NUL ≠ 'e' ∧ rest.headD NUL ≠ 'E' →
      ((do
        let q ← state
        let c ← str_at q.i
        if c = '0' then do
          set_i (q.i + 1)
          let c ← str_at (q.i + 1)
          if is_digit c then fail "leading 0s not permitted in numbers".toList Json.null
          else parse_number_integer F start_pos
        else if in_range (char_to_long c) (char_to_long '1') (char_to_long '9') then do
          set_i (q.i + 1)
          digits_loop (q.str.length + 1)
          parse_number_integer F start_pos
        else fail ("invalid ".toList ++ esc c ++ " in number".toList) Json.null) :
          Parser (Json D)) (JsonParser.mk s j err failed strategy)
        = Except.ok (Json.of_int (atoi (c_str_from s start_pos)),
            JsonParser.mk s (j + digits.length) err failed strategy))
    ∧ (∀ (d : Char) (rest : string), s.drop j = '0' :: d :: rest →
      '0'.toNat ≤ d.toNat ∧ d.toNat ≤ '9'.toNat →
      ((do
        let q ← state
        let c ← str_at q.i
        if c = '0' then do
          set_i (q.i + 1)
          let c ← str_at (q.i + 1)
          if is_digit c then fail "leading 0s not permitted in numbers".toList Json.null
          else parse_number_integer F start_pos
        else if in_range (char_to_long c) (char_to_long '1') (char_to_long '9') then do
          set_i (q.i + 1)
          digits_loop (q.str.length + 1)
          parse_number_integer F start_pos
        else fail ("invalid ".toList ++ esc c ++ " in number".toList) Json.null) :
          Parser (Json D)) (JsonParser.mk s j err failed strategy)
        = Except.ok (Json.null,
            JsonParser.mk s (j + 1)
              (if failed = true then err else "leading 0s not permitted in numbers".toList)
              true strategy)) := by
  constructor
  · intro digits rest hdrop hdigits hlen htl hnext
    have hlength : (s.drop j).length = s.length - j := List.length_drop j s
    rw [hdrop, List.length_append] at hlength
    rcases hdigits with rfl | ⟨d, ds, rfl, hd1, hd9, hds⟩
    · have hn := drop_succ_of_drop s j '0' rest hdrop
      rw [bind_state, bind_str_at_le _ _ _ (by show j ≤ s.length; omega)]
      simp only [hdrop, List.cons_append, List.nil_append, List.headD_cons, if_true]
      rw [bind_set_i, bind_str_at_le _ _ _ hn.2]
      simp only [hn.1, htl, Bool.false_eq_true, if_false]
      exact parse_number_integer_run F s err failed strategy start_pos (j + 1) hn.2
        (by rw [hn.1]; exact hnext) (by simpa using hlen)
    · have hn := drop_succ_of_drop s j d (ds ++ rest) hdrop
      have h1 : ('1' : Char).toNat = 49 := rfl
      have h9 : ('9' : Char).toNat = 57 := rfl
      rw [h1] at hd1
      rw [h9] at hd9
      have hd0 : d ≠ '0' := by
        intro he
        rw [he] at hd1
        have : ('0' : Char).toNat = 48 := rfl
        omega
      have hrange : in_range (char_to_long d) (char_to_long '1') (char_to_long '9') = true := by
        have hc : char_to_long d = (d.toNat : Int) := by
          simp only [char_to_long]
          rw [if_pos (by omega)]
        have c1 : char_to_long '1' = 49 := rfl
        have c9 : char_to_long '9' = 57 := rfl
        simp only [in_range, hc, c1, c9, decide_eq_true_eq]
        omega
      have hloop := digits_loop_run s rest err failed strategy ds (s.length + 1) (j + 1) hn.1
        hn.2 (fun c hc => is_digit_of_digit c (hds c hc)) htl
        (by simp only [List.length_cons] at hlength; omega)
      have hend : (s.drop (j + 1 + ds.length)) = rest := by
        have h2 : s.drop (j + 1 + ds.length) = (s.drop (j + 1)).drop ds.length := by
          rw [List.drop_drop, Nat.add_comm]
        rw [h2, hn.1, List.drop_left]
      rw [bind_state, bind_str_at_le _ _ _ (by show j ≤ s.length; omega)]
      simp only [hdrop, List.cons_append, List.headD_cons, hd0, if_false, hrange, if_true]
      rw [bind_set_i, bind_ok _ _ _ _ _ hloop]
      have hfin := parse_number_integer_run F s err failed strategy start_pos
        (j + 1 + ds.length) (by simp only [List.length_cons] at hlength; omega)
        (by rw [hend]; exact hnext)
        (by simp only [List.length_cons] at hlen; omega)
      rw [hfin]
      simp only [List.length_cons, Nat.add_assoc, Nat.add_comm 1]
  · intro d rest hdrop hd
    have hn := drop_succ_of_drop s j '0' (d :: rest) hdrop
    have hlength : (s.drop j).length = s.length - j := List.length_drop j s
    rw [hdrop] at hlength
    simp only [List.length_cons] at hlength
    rw [bind_state, bind_str_at_le _ _ _ (by show j ≤ s.length; omega)]
    simp only [hdrop, List.headD_cons, if_true]
    rw [bind_set_i, bind_str_at_le _ _ _ hn.2]
    simp only [hn.1, List.headD_cons, is_digit_of_digit d hd, if_true]
    cases failed <;> rfl

/-- C28. Let the input be a string of bytes and let the text at the cursor
begin with `sign`, nothing or `-`. When it goes on with `digits`, a single `0`
or a non-zero digit and further digits, sign and digits are at most nine
bytes, and the next byte is no digit and none of `.`, `e`, `E` (or the input
ends), `parse_number` returns the `int` Number with the decimal value of the
digits, negated behind `-`, and leaves the cursor behind the last digit and
the rest of the state as it was. When it goes on with `0` and one more digit,
`parse_number` returns Null with the flag `failed` set, the cursor behind the
`0`, and the message `leading 0s not permitted in numbers` unless an earlier
failure had set one. -/
theorem integer_grammar (F : DoubleOps D) (p : JsonParser) (sign : string)
    (hsign : sign = [] ∨ sign = ['-']) (hbytes : ∀ c ∈ p.str, c.toNat < 256) :
    (∀ digits rest : string, p.str.drop p.i = sign ++ digits ++ rest →
      (digits = ['0'] ∨ ∃ d ds, digits = d :: ds ∧ '1'.toNat ≤ d.toNat ∧ d.toNat ≤ '9'.toNat
        ∧ ∀ c ∈ ds, '0'.toNat ≤ c.toNat ∧ c.toNat ≤ '9'.toNat) →
      sign.length + digits.length ≤ 9 →
      (∀ c, rest.head? = some c →
        ¬ ('0'.toNat ≤ c.toNat ∧ c.toNat ≤ '9'.toNat) ∧ c ≠ '.' ∧ c ≠ 'e' ∧ c ≠ 'E') →
      parse_number F p
        = Except.ok
            (Json.of_int
              (if sign = [] then (decimal_value digits : Int) else -(decimal_value digits : Int)),
            JsonParser.mk p.str (p.i + sign.length + digits.length) p.err p.failed p.strategy))
    ∧ (∀ (d : Char) (rest : string), p.str.drop p.i = sign ++ '0' :: d :: rest →
      '0'.toNat ≤ d.toNat ∧ d.toNat ≤ '9'.toNat →
      parse_number F p
        = Except.ok (Json.null,
            JsonParser.mk p.str (p.i + sign.length + 1)
              (if p.failed = true then p.err else "leading 0s not permitted in numbers".toList)
              true p.strategy)) := by
  obtain ⟨s, i, err, failed, strategy⟩ := p
  dsimp only at hbytes ⊢
  have hbody := number_body_run F s err failed strategy i
  have hsignstep : ∀ tl : string, s.drop i = sign ++ tl → tl ≠ [] → tl.headD NUL ≠ '-' →
      s.drop (i + sign.length) = tl ∧ i + sign.length ≤ s.length ∧ i ≤ s.length := by
    intro tl hdrop hne _
    have hlength : (s.drop i).length = s.length - i := List.length_drop i s
    rw [hdrop, List.length_append] at hlength
    have hpos : 0 < tl.length := List.length_pos.mpr hne
    refine ⟨?_, by omega, by omega⟩
    have h2 : s.drop (i + sign.length) = (s.drop i).drop sign.length := by
      rw [List.drop_drop, Nat.add_comm]
    rw [h2, hdrop, List.drop_left]
  have hstart : ∀ (tl : string) (r : Except Fault (Json D × JsonParser)),
      s.drop i = sign ++ tl → tl ≠ [] → tl.headD NUL ≠ '-' →
      ((do
        let q ← state
        let c ← str_at q.i
        if c = '0' then do
          set_i (q.i + 1)
          let c ← str_at (q.i + 1)
          if is_digit c then fail "leading 0s not permitted in numbers".toList Json.null
          else parse_number_integer F i
        else if in_range (char_to_long c) (char_to_long '1') (char_to_long '9') then do
          set_i (q.i + 1)
          digits_loop (q.str.length + 1)
          parse_number_integer F i
        else fail ("invalid ".toList ++ esc c ++ " in number".toList) Json.null) :
          Parser (Json D)) (JsonParser.mk s (i + sign.length) err failed strategy) = r →
      parse_number F (JsonParser.mk s i err failed strategy) = r := by
    intro tl r hdrop hne hhead hr
    have hs := hsignstep tl hdrop hne hhead
    unfold parse_number
    rw [bind_state, bind_str_at_le _ _ _ (by show i ≤ s.length; exact hs.2.2)]
    dsimp only
    rcases hsign with rfl | rfl
    · simp only [List.nil_append] at hdrop
      rw [hdrop, if_neg hhead]
      exact hr
    · rw [hdrop]
      simp only [List.singleton_append, List.headD_cons, if_true]
      rw [bind_set_i]
      exact hr
  constructor
  · intro digits rest hdrop hdigits hlen hnext
    have hdig : ∀ c ∈ digits, '0'.toNat ≤ c.toNat ∧ c.toNat ≤ '9'.toNat := by
      rcases hdigits with rfl | ⟨d, ds, rfl, hd1, hd9, hds⟩
      · intro c hc
        simp only [List.mem_singleton] at hc
        rw [hc]
        decide
      · intro c hc
        rcases List.mem_cons.mp hc with h | h
        · rw [h]
          have h1 : ('1' : Char).toNat = 49 := rfl
          have h0 : ('0' : Char).toNat = 48 := rfl
          exact ⟨by omega, hd9⟩
        · exact hds c h
    have hne : digits ≠ [] := by
      rcases hdigits with rfl | ⟨d, ds, rfl, _⟩ <;> simp
    have hne2 : digits ++ rest ≠ [] := by simp [hne]
    have hhead : (digits ++ rest).headD NUL ≠ '-' := by
      obtain ⟨d, ds, rfl⟩ : ∃ d ds, digits = d :: ds := by
        cases digits with
        | nil => exact absurd rfl hne
        | cons d ds => exact ⟨d, ds, rfl⟩
      have hd := (hdig d (List.mem_cons_self _ _)).1
      simp only [List.cons_append, List.headD_cons]
      intro he
      rw [he] at hd
      have h0 : ('0' : Char).toNat = 48 := rfl
      have hm : ('-' : Char).toNat = 45 := rfl
      omega
    have hdrop2 : s.drop i = sign ++ (digits ++ rest) := by rw [hdrop, List.append_assoc]
    have hs := hsignstep (digits ++ rest) hdrop2 hne2 hhead
    have htl : is_digit (rest.headD NUL) = false := by
      cases rest with
      | nil => decide
      | cons c cs =>
        have hmem : c ∈ s := by
          apply List.mem_of_mem_drop (n := i)
          rw [hdrop]
          simp
        exact is_digit_of_not_digit c (hbytes c hmem) (hnext c rfl).1
    have hnx : rest.headD NUL ≠ '.' ∧ rest.headD NUL ≠ 'e' ∧ rest.headD NUL ≠ 'E' := by
      cases rest with
      | nil => exact ⟨by decide, by decide, by decide⟩
      | cons c cs => exact (hnext c rfl).2
    have hrun := (hbody (i + sign.length)).1 digits rest hs.1 hdigits (by omega) htl hnx
    have hatoi := atoi_of_integer_text sign digits rest hsign hne hdig htl
    have hc : c_str_from s i = (sign ++ digits ++ rest).takeWhile (fun c => c ≠ NUL) := by
      rw [c_str_from, hdrop]
    rw [hc, hatoi] at hrun
    exact hstart (digits ++ rest) _ hdrop2 hne2 hhead hrun
  · intro d rest hdrop hd
    have hhead : ('0' :: d :: rest).headD NUL ≠ '-' := by
      simp only [List.headD_cons]
      decide
    have hs := hsignstep ('0' :: d :: rest) hdrop (by simp) hhead
    have hrun := (hbody (i + sign.length)).2 d rest hs.1 hd
    exact hstart ('0' :: d :: rest) _ hdrop (by simp) hhead hrun

/-- C28 on the texts `-123,` behind one byte, `0` at the end of the input,
and `-01`. -/
theorem integer_grammar_witness :
    parse_number no_double (JsonParser.mk "x-123,".toList 1 [] false JsonParse.STANDARD)
      = Except.ok (Json.of_int (-123),
          JsonParser.mk "x-123,".toList 5 [] false JsonParse.STANDARD)
    ∧ parse_number no_double (JsonParser.mk "0".toList 0 [] false JsonParse.STANDARD)
      = Except.ok (Json.of_int 0, JsonParser.mk "0".toList 1 [] false JsonParse.STANDARD)
    ∧ parse_number no_double (JsonParser.mk "-01".toList 0 [] false JsonParse.STANDARD)
      = Except.ok (Json.null,
          JsonParser.mk "-01".toList 2 "leading 0s not permitted in numbers".toList true
            JsonParse.STANDARD) :=
  ⟨(integer_grammar no_double (JsonParser.mk "x-123,".toList 1 [] false JsonParse.STANDARD)
      ['-'] (Or.inr rfl) (by decide)).1 "123".toList ",".toList rfl
      (Or.inr ⟨'1', "23".toList, rfl, by decide, by decide, by decide⟩) (by decide)
      (by decide),
   (integer_grammar no_double (JsonParser.mk "0".toList 0 [] false JsonParse.STANDARD)
      [] (Or.inl rfl) (by decide)).1 "0".toList [] rfl (Or.inl rfl) (by decide)
      (by simp),
   (integer_grammar no_double (JsonParser.mk "-01".toList 0 [] false JsonParse.STANDARD)
      ['-'] (Or.inr rfl) (by decide)).2 '1' [] rfl (by decide)⟩

end integers

/-! ## Theorems: what parse_multi returns on failure -/

section multi

open Parser

set_option maxRecDepth 4000

variable {D : Type}

/-- The list the loop of `Json::parse_multi` returns is the list of the values
parsed successfully, followed by the value returned by the failed call of
`parse_json(0)` when there is one; the stop offset and the final state are
the same. -/
theorem parse_multi_loop_eq (F : DoubleOps D) :
    ∀ (fuel : Nat) (json_vec : List (Json D)) (parser_stop_pos : Nat) (p : JsonParser),
      parse_multi_loop F fuel json_vec parser_stop_pos p
        = with_failed_result (parse_multi_values_loop F fuel json_vec parser_stop_pos p)
  | 0, _, _, _ => rfl
  | fuel + 1, json_vec, parser_stop_pos, p => by
    rw [parse_multi_loop, parse_multi_values_loop, bind_state, bind_state]
    by_cases hc : p.i ≠ p.str.length ∧ (!p.failed) = true
    · rw [if_pos hc, if_pos hc]
      cases h1 : parse_json F fuel 0 p with
      | error e => rw [bind_error _ _ _ _ h1, bind_error _ _ _ _ h1]; rfl
      | ok r1 =>
        obtain ⟨value, q⟩ := r1
        rw [bind_ok _ _ _ _ _ h1, bind_ok _ _ _ _ _ h1, bind_state, bind_state]
        by_cases hq : q.failed = true
        · rw [if_pos hq, if_pos hq]
          rfl
        · rw [if_neg hq, if_neg hq]
          cases h2 : consume_garbage q with
          | error e => rw [bind_error _ _ _ _ h2, bind_error _ _ _ _ h2]; rfl
          | ok r2 =>
            obtain ⟨u, r⟩ := r2
            rw [bind_ok _ _ _ _ _ h2, bind_ok _ _ _ _ _ h2, bind_state, bind_state]
            by_cases hr : r.failed = true
            · rw [if_pos hr, if_pos hr]
              show Except.ok _ = Except.ok _
              simp
            · rw [if_neg hr, if_neg hr]
              exact parse_multi_loop_eq F fuel _ _ r
    · rw [if_neg hc, if_neg hc]
      show Except.ok _ = Except.ok _
      simp

/-- Where the values of `parse_multi_values_loop` come from: each value in its
list was there at the start or was returned by a call of `parse_json(0)` that
left the flag `failed` clear, and the value beside the list was returned by a
call that started with the flag clear and set it. -/
theorem parse_multi_values_loop_origin (F : DoubleOps D) :
    ∀ (fuel : Nat) (json_vec : List (Json D)) (parser_stop_pos : Nat) (p : JsonParser)
      (values : List (Json D)) (failed_result : Option (Json D)) (pos : Nat) (q : JsonParser),
      parse_multi_values_loop F fuel json_vec parser_stop_pos p
        = Except.ok ((values, failed_result, pos), q) →
      (∀ x ∈ values, x ∈ json_vec ∨ ∃ fuel1 p1 q1,
          parse_json F fuel1 0 p1 = Except.ok (x, q1) ∧ q1.failed = false)
      ∧ (∀ v, failed_result = some v → q.failed = true ∧ ∃ fuel1 p1,
          p1.failed = false ∧ parse_json F fuel1 0 p1 = Except.ok (v, q))
  | 0, _, _, _, _, _, _, _, h => nomatch h
  | fuel + 1, json_vec, parser_stop_pos, p, values, failed_result, pos, q, h => by
    rw [parse_multi_values_loop, bind_state] at h
    by_cases hc : p.i ≠ p.str.length ∧ (!p.failed) = true
    · rw [if_pos hc] at h
      have hpf : p.failed = false := by simpa using hc.2
      cases h1 : parse_json F fuel 0 p with
      | error e =>
        rw [bind_error _ _ _ _ h1] at h
        cases h
      | ok r1 =>
        obtain ⟨value, q1⟩ := r1
        rw [bind_ok _ _ _ _ _ h1, bind_state] at h
        by_cases hq : q1.failed = true
        · rw [if_pos hq] at h
          cases h
          refine ⟨fun x hx => Or.inl hx, fun v hv => ?_⟩
          cases hv
          exact ⟨hq, fuel, p, hpf, h1⟩
        · rw [if_neg hq] at h
          have hq1 : q1.failed = false := by simpa using hq
          cases h2 : consume_garbage q1 with
          | error e =>
            rw [bind_error _ _ _ _ h2] at h
            cases h
          | ok r2 =>
            obtain ⟨u, r⟩ := r2
            rw [bind_ok _ _ _ _ _ h2, bind_state] at h
            by_cases hr : r.failed = true
            · rw [if_pos hr] at h
              cases h
              refine ⟨fun x hx => ?_, fun v hv => nomatch hv⟩
              rcases List.mem_append.mp hx with hx | hx
              · exact Or.inl hx
              · simp only [List.mem_singleton] at hx
                rw [hx]
                exact Or.inr ⟨fuel, p, q1, h1, hq1⟩
            · rw [if_neg hr] at h
              have ih := parse_multi_values_loop_origin F fuel _ _ r values failed_result pos q h
              refine ⟨fun x hx => ?_, ih.2⟩
              rcases ih.1 x hx with hx | hx
              · rcases List.mem_append.mp hx with hx | hx
                · exact Or.inl hx
                · simp only [List.mem_singleton] at hx
                  rw [hx]
                  exact Or.inr ⟨fuel, p, q1, h1, hq1⟩
              · exact Or.inr hx
    · rw [if_neg hc] at h
      cases h
      exact ⟨fun x hx => Or.inl hx, fun v hv => nomatch hv⟩

namespace Json

/-- C26 (as the code has it). The list `Json::parse_multi` returns holds the
values parsed successfully, in their order, followed, when a call of
`parse_json(0)` failed, by one more element, the value that call returned;
stop offset and error are those of the run. Each value of the first part was
returned by a call that left the flag `failed` clear; the last element was
returned by a call that set it. A failure while skipping garbage behind a
value adds no element. -/
theorem parse_multi_appends_the_failed_result (F : DoubleOps D) (fuel : Nat)
    (input err : string) (strategy : JsonParse) :
    parse_multi F fuel input err strategy
      = with_failed_result (parse_multi_values F fuel input err strategy)
    ∧ ∀ (values : List (Json D)) (failed_result : Option (Json D)) (pos : Nat)
        (q : JsonParser),
        parse_multi_values F fuel input err strategy
          = Except.ok ((values, failed_result, pos), q) →
        (∀ x ∈ values, ∃ fuel1 p1 q1,
          parse_json F fuel1 0 p1 = Except.ok (x, q1) ∧ q1.failed = false)
        ∧ (∀ v, failed_result = some v → q.failed = true ∧ ∃ fuel1 p1,
          p1.failed = false ∧ parse_json F fuel1 0 p1 = Except.ok (v, q)) := by
  refine ⟨parse_multi_loop_eq F fuel [] 0 _, ?_⟩
  intro values failed_result pos q h
  have ho := parse_multi_values_loop_origin F fuel [] 0 _ values failed_result pos q h
  refine ⟨fun x hx => ?_, ho.2⟩
  rcases ho.1 x hx with h1 | h1
  · cases h1
  · exact h1

/-- C26 on the input backslash, double quote: the string grammar fails at the
end of the input and `parse_json(0)` returns an empty String, which is the one
element of the list returned. -/
theorem parse_multi_appends_the_failed_result_witness :
    parse_multi no_double 2 "\\\"".toList [] JsonParse.STANDARD
      = Except.ok (([JsonString []], 0), JsonParser.mk "\\\"".toList 2
          "unexpected end of input in string".toList true JsonParse.STANDARD) :=
  (parse_multi_appends_the_failed_result no_double 2 "\\\"".toList [] JsonParse.STANDARD).1

/-- C26 (counterexample). On the input `??` the first call of
`parse_json(0)` fails, so no value is parsed successfully, and the list
returned has one element, the Null that call returned. -/
theorem parse_multi_returns_a_failed_result :
    parse_multi no_double 2 "??".toList [] JsonParse.STANDARD
      = Except.ok (([JsonNull], 0), JsonParser.mk "??".toList 0
          "expected value, got '?".toList true JsonParse.STANDARD)
    ∧ parse_json no_double 1 0 (JsonParser.mk "??".toList 0 [] false JsonParse.STANDARD)
      = Except.ok (JsonNull, JsonParser.mk "??".toList 0
          "expected value, got '?".toList true JsonParse.STANDARD)
    ∧ parse_multi_values no_double 2 "??".toList [] JsonParse.STANDARD
      = Except.ok (([], some JsonNull, 0), JsonParser.mk "??".toList 0
          "expected value, got '?".toList true JsonParse.STANDARD) :=
  ⟨rfl, rfl, rfl⟩

end Json

end multi

end json11
